import Mathlib

/-!
# Verification of the `canvassheets_api` spreadsheet core

Shallow embedding of the formula/evaluation core of
`src/python/canvassheets_api/__init__.py` and proofs about its claims.

Conventions of the embedding:
* Python strings are modelled as `List Char` (`Str`).
* Python `int`/`float` are modelled as exact rationals; the IEEE-754 value
  `nan` is a separate constructor of the engine number type `QF`.
  Rounding of doubles is not modelled; no claim below depends on it.
* Python dicts used as keyed stores are modelled as association lists whose
  `set` operation replaces in place (preserving insertion order, as CPython
  dicts do).
* Fallible code returns `Except`.
-/

namespace Nummern

abbrev Str := List Char

/-! ## Character helpers (models of Python `str` methods, ASCII fragment) -/

/-- Model of Python whitespace for `str.strip` (the ASCII whitespace chars). -/
def pyIsSpace (c : Char) : Bool :=
  c = ' ' || c = '\t' || c = '\n' || c = '\x0d' || c = '\x0b' || c = '\x0c'

/-- `str.isalpha` restricted to ASCII letters (the repository only ever
feeds ASCII text through these paths). -/
def pyIsAlpha (c : Char) : Bool :=
  ('A' ≤ c && c ≤ 'Z') || ('a' ≤ c && c ≤ 'z')

/-- `str.isdigit` restricted to ASCII digits. -/
def pyIsDigit (c : Char) : Bool :=
  '0' ≤ c && c ≤ '9'

/-- `str.upper` on a single character (ASCII fragment of Python `upper`). -/
def pyUpperChar (c : Char) : Char :=
  if 'a' ≤ c && c ≤ 'z' then Char.ofNat (c.toNat - 32) else c

/-- Left strip, as in Python `str.lstrip()`. -/
def lstrip (s : Str) : Str := s.dropWhile pyIsSpace

/-- Right strip. -/
def rstrip (s : Str) : Str := ((s.reverse).dropWhile pyIsSpace).reverse

/-- Python `str.strip()`. -/
def strip (s : Str) : Str := rstrip (lstrip s)

theorem char_le_iff_toNat (a b : Char) : a ≤ b ↔ a.toNat ≤ b.toNat := by
  constructor <;> intro h <;> exact h

theorem char_eq_of_toNat {a b : Char} (h : a.toNat = b.toNat) : a = b := by
  have ha := Char.ofNat_toNat a
  have hb := Char.ofNat_toNat b
  rw [← ha, ← hb, h]

/-- An ASCII letter, the claim C9's notion of a valid label character. -/
def isAsciiLetter (c : Char) : Bool := pyIsAlpha c

theorem not_space_of_letter {c : Char} (h : pyIsAlpha c = true) :
    pyIsSpace c = false := by
  have h65 : 65 ≤ c.toNat := by
    simp only [pyIsAlpha, Bool.or_eq_true, Bool.and_eq_true, decide_eq_true_eq,
      char_le_iff_toNat] at h
    have hA : ('A').toNat = 65 := rfl
    have ha : ('a').toNat = 97 := rfl
    rcases h with ⟨h1, _⟩ | ⟨h1, _⟩ <;> omega
  simp only [pyIsSpace, Bool.or_eq_false_iff, decide_eq_false_iff_not]
  refine ⟨⟨⟨⟨⟨?_, ?_⟩, ?_⟩, ?_⟩, ?_⟩, ?_⟩ <;> intro hc <;>
    rw [hc] at h65 <;> revert h65 <;> decide

theorem dropWhile_eq_self_of_none {p : Char → Bool} {l : Str}
    (h : ∀ c ∈ l, p c = false) : l.dropWhile p = l := by
  cases l with
  | nil => rfl
  | cons a t =>
    rw [List.dropWhile_cons_of_neg]
    simp [h a (by simp)]

theorem strip_of_letters {l : Str} (h : ∀ c ∈ l, pyIsAlpha c = true) :
    strip l = l := by
  have hno : ∀ c ∈ l, pyIsSpace c = false := fun c hc => not_space_of_letter (h c hc)
  unfold strip lstrip rstrip
  rw [dropWhile_eq_self_of_none hno, dropWhile_eq_self_of_none
    (by intro c hc; exact hno c (List.mem_reverse.mp hc)), List.reverse_reverse]

/-! ## Bijective base-26 digits (the column-label numeral system) -/

/-- Value of a most-significant-first list of bijective base-26 digits
(each in `1..26`), mirroring the accumulation loop of `column_index`. -/
def decodeB26 (ds : List ℕ) : ℕ := ds.foldl (fun v d => v * 26 + d) 0

/-- Digits of `n` in bijective base 26, mirroring the emission loop of
`column_label` (which emits least-significant-first and reverses).  The
`fuel` argument makes the recursion structural (any `fuel ≥ n` computes the
same list, see `encodeB26Go_fuel_irrel`); the loop itself divides by 26
until the value reaches `0`. -/
def encodeB26Go : ℕ → ℕ → List ℕ
  | _, 0 => []
  | 0, _ + 1 => []
  | fuel + 1, n + 1 => encodeB26Go fuel (n / 26) ++ [n % 26 + 1]

def encodeB26 (n : ℕ) : List ℕ := encodeB26Go n n

theorem encodeB26Go_fuel_irrel :
    ∀ (n fuel1 fuel2 : ℕ), n ≤ fuel1 → n ≤ fuel2 →
      encodeB26Go fuel1 n = encodeB26Go fuel2 n := by
  intro n
  induction n using Nat.strong_induction_on with
  | _ n ih =>
    intro fuel1 fuel2 h1 h2
    match n, fuel1, fuel2, h1, h2 with
    | 0, f1, f2, _, _ => cases f1 <;> cases f2 <;> rfl
    | m + 1, f1 + 1, f2 + 1, h1, h2 =>
      show encodeB26Go f1 (m / 26) ++ _ = encodeB26Go f2 (m / 26) ++ _
      rw [ih (m / 26) (by omega) f1 f2 (by omega) (by omega)]

theorem encodeB26_succ (m : ℕ) :
    encodeB26 (m + 1) = encodeB26 (m / 26) ++ [m % 26 + 1] := by
  show encodeB26Go m (m / 26) ++ _ = encodeB26Go (m / 26) (m / 26) ++ _
  rw [encodeB26Go_fuel_irrel (m / 26) m (m / 26) (Nat.div_le_self m 26) le_rfl]

theorem decodeB26_from (ds : List ℕ) (v : ℕ) :
    ds.foldl (fun v d => v * 26 + d) v = v * 26 ^ ds.length + decodeB26 ds := by
  induction ds generalizing v with
  | nil => simp [decodeB26]
  | cons d t ih =>
    have e1 : decodeB26 (d :: t) = d * 26 ^ t.length + decodeB26 t := by
      show List.foldl (fun v d => v * 26 + d) (0 * 26 + d) t = _
      rw [ih]
      norm_num
    rw [List.foldl_cons, ih, e1]
    simp only [List.length_cons]
    ring

theorem decodeB26_append_singleton (l : List ℕ) (d : ℕ) :
    decodeB26 (l ++ [d]) = decodeB26 l * 26 + d := by
  simp [decodeB26]

theorem decodeB26_encodeB26 (n : ℕ) : decodeB26 (encodeB26 n) = n := by
  induction n using Nat.strong_induction_on with
  | _ n ih =>
    match n with
    | 0 => simp [encodeB26, encodeB26Go, decodeB26]
    | m + 1 =>
      rw [encodeB26_succ, decodeB26_append_singleton,
        ih (m / 26) (Nat.lt_succ_of_le (Nat.div_le_self m 26))]
      omega

theorem encodeB26_pos (n : ℕ) (h : 0 < n) :
    encodeB26 n = encodeB26 ((n - 1) / 26) ++ [(n - 1) % 26 + 1] := by
  match n, h with
  | m + 1, _ => simpa using encodeB26_succ m

theorem encodeB26_decodeB26 (ds : List ℕ) (h : ∀ d ∈ ds, 1 ≤ d ∧ d ≤ 26) :
    encodeB26 (decodeB26 ds) = ds := by
  induction ds using List.reverseRecOn with
  | nil => simp [decodeB26, encodeB26, encodeB26Go]
  | append_singleton l d ih =>
    have hd : 1 ≤ d ∧ d ≤ 26 := h d (by simp)
    have hl : ∀ x ∈ l, 1 ≤ x ∧ x ≤ 26 := fun x hx => h x (by simp [hx])
    rw [decodeB26_append_singleton]
    have hpos : 0 < decodeB26 l * 26 + d := by omega
    rw [encodeB26_pos _ hpos]
    have hdiv : (decodeB26 l * 26 + d - 1) / 26 = decodeB26 l := by omega
    have hmod : (decodeB26 l * 26 + d - 1) % 26 = d - 1 := by omega
    rw [hdiv, hmod, ih hl]
    have hdd : d - 1 + 1 = d := by omega
    rw [hdd]

theorem encodeB26_digit_bounds (n : ℕ) : ∀ d ∈ encodeB26 n, 1 ≤ d ∧ d ≤ 26 := by
  induction n using Nat.strong_induction_on with
  | _ n ih =>
    match n with
    | 0 => simp [encodeB26, encodeB26Go]
    | m + 1 =>
      rw [encodeB26_succ]
      intro d hd
      rcases List.mem_append.mp hd with h | h
      · exact ih (m / 26) (Nat.lt_succ_of_le (Nat.div_le_self m 26)) d h
      · simp at h
        have := Nat.mod_lt m (show 0 < 26 by norm_num)
        omega

theorem encodeB26_ne_nil {n : ℕ} (h : 0 < n) : encodeB26 n ≠ [] := by
  rw [encodeB26_pos n h]
  simp

theorem decodeB26_pos {ds : List ℕ} (hne : ds ≠ [])
    (h : ∀ d ∈ ds, 1 ≤ d) : 1 ≤ decodeB26 ds := by
  rcases List.eq_nil_or_concat ds with rfl | ⟨l, d, rfl⟩
  · exact absurd rfl hne
  · rw [List.concat_eq_append, decodeB26_append_singleton]
    have := h d (by simp)
    omega

/-! ## Address/Range codec (`column_index`, `column_label`, `parse_cell`,
`parse_range`, `address`) -/

/-- The error taxonomy of `RangeParserError`; messages are irrelevant to the
claims and dropped. -/
inductive CodecErr
  | invalidColumnLabel
  | columnNegative
  | invalidCellReference
  | invalidRangeFormat
  | invalidRegion
  deriving DecidableEq, Repr

/-- The per-character accumulation loop of `column_index`:
`value = value * 26 + (ord(ch) - ord("A") + 1)`, failing on a
non-`A..Z` character. -/
def columnIndexGo : Str → ℕ → Except CodecErr ℕ
  | [], v => .ok v
  | c :: cs, v =>
    if 'A' ≤ c && c ≤ 'Z' then columnIndexGo cs (v * 26 + (c.toNat - 65 + 1))
    else .error .invalidColumnLabel

/-- `column_index(label)`: strip, uppercase, reject empty, accumulate,
return `value - 1`. -/
def column_index (label : Str) : Except CodecErr ℕ :=
  let upper := (strip label).map pyUpperChar
  if upper = [] then .error .invalidColumnLabel
  else
    match columnIndexGo upper 0 with
    | .error e => .error e
    | .ok v => .ok (v - 1)

/-- `chr(ord("A") + remainder)` with `remainder = d - 1` for a bijective
digit `d ∈ 1..26`. -/
def letterOfDigit (d : ℕ) : Char := Char.ofNat (65 + (d - 1))

/-- The label `column_label` produces for a non-negative index. -/
def labelOfNat (index : ℕ) : Str := (encodeB26 (index + 1)).map letterOfDigit

/-- `column_label(index)`: fails on negative input, else emits the bijective
base-26 digits most-significant first. -/
def column_label (index : ℤ) : Except CodecErr Str :=
  if index < 0 then .error .columnNegative
  else .ok (labelOfNat index.toNat)

/-! ### Letter/digit facts -/

def digitOfChar (c : Char) : ℕ := c.toNat - 65 + 1

theorem letterOfDigit_toNat {d : ℕ} (h1 : 1 ≤ d) (h2 : d ≤ 26) :
    (letterOfDigit d).toNat = 64 + d := by
  interval_cases d <;> decide

theorem letterOfDigit_upper {d : ℕ} (h1 : 1 ≤ d) (h2 : d ≤ 26) :
    ('A' ≤ letterOfDigit d ∧ letterOfDigit d ≤ 'Z') := by
  interval_cases d <;> exact ⟨by decide, by decide⟩

theorem pyUpperChar_letterOfDigit {d : ℕ} (h1 : 1 ≤ d) (h2 : d ≤ 26) :
    pyUpperChar (letterOfDigit d) = letterOfDigit d := by
  interval_cases d <;> decide

theorem pyIsAlpha_letterOfDigit {d : ℕ} (h1 : 1 ≤ d) (h2 : d ≤ 26) :
    pyIsAlpha (letterOfDigit d) = true := by
  interval_cases d <;> decide

theorem digitOfChar_letterOfDigit {d : ℕ} (h1 : 1 ≤ d) (h2 : d ≤ 26) :
    digitOfChar (letterOfDigit d) = d := by
  rw [digitOfChar, letterOfDigit_toNat h1 h2]
  omega

theorem upper_toNat_bounds {c : Char} (h : pyIsAlpha c = true) :
    65 ≤ (pyUpperChar c).toNat ∧ (pyUpperChar c).toNat ≤ 90 := by
  simp only [pyIsAlpha, Bool.or_eq_true, Bool.and_eq_true, decide_eq_true_eq,
    char_le_iff_toNat] at h
  have hA : ('A').toNat = 65 := rfl
  have hZ : ('Z').toNat = 90 := rfl
  have ha : ('a').toNat = 97 := rfl
  have hz : ('z').toNat = 122 := rfl
  unfold pyUpperChar
  by_cases hcase : ('a' ≤ c && c ≤ 'z') = true
  · rw [if_pos hcase]
    simp only [Bool.and_eq_true, decide_eq_true_eq, char_le_iff_toNat] at hcase
    have hofn : ∀ n : ℕ, 65 ≤ n → n ≤ 90 → (Char.ofNat n).toNat = n := by
      intro n hn1 hn2
      interval_cases n <;> decide
    rw [hofn (c.toNat - 32) (by omega) (by omega)]
    omega
  · rw [if_neg hcase]
    simp only [Bool.and_eq_true, decide_eq_true_eq, char_le_iff_toNat,
      not_and_or, not_le] at hcase
    rcases h with ⟨h1, h2⟩ | ⟨h1, h2⟩
    · omega
    · omega

theorem letterOfDigit_digitOfChar_upper {c : Char}
    (h1 : 65 ≤ c.toNat) (h2 : c.toNat ≤ 90) :
    letterOfDigit (digitOfChar c) = c := by
  unfold letterOfDigit digitOfChar
  have he : 65 + (c.toNat - 65 + 1 - 1) = c.toNat := by omega
  rw [he, Char.ofNat_toNat]

theorem digitOfChar_bounds_upper {c : Char}
    (h1 : 65 ≤ c.toNat) (h2 : c.toNat ≤ 90) :
    1 ≤ digitOfChar c ∧ digitOfChar c ≤ 26 := by
  unfold digitOfChar
  omega

/-! ### `column_index` characterization -/

theorem columnIndexGo_spec (l : Str) (h : ∀ c ∈ l, 65 ≤ c.toNat ∧ c.toNat ≤ 90) :
    ∀ v, columnIndexGo l v =
      .ok (List.foldl (fun a d => a * 26 + d) v (l.map digitOfChar)) := by
  induction l with
  | nil => intro v; rfl
  | cons c cs ih =>
    intro v
    have hc := h c (by simp)
    have hcs : ∀ x ∈ cs, 65 ≤ x.toNat ∧ x.toNat ≤ 90 := fun x hx => h x (by simp [hx])
    have hcond : ('A' ≤ c && c ≤ 'Z') = true := by
      simp only [Bool.and_eq_true, decide_eq_true_eq, char_le_iff_toNat]
      exact ⟨hc.1, hc.2⟩
    rw [columnIndexGo, if_pos hcond, ih hcs]
    rfl

theorem decodeB26_as_foldl (ds : List ℕ) (v : ℕ) :
    List.foldl (fun a d => a * 26 + d) v ds = v * 26 ^ ds.length + decodeB26 ds :=
  decodeB26_from ds v

/-- `column_index (labelOfNat i) = i` — decoding what `column_label` encodes. -/
theorem column_index_labelOfNat (i : ℕ) : column_index (labelOfNat i) = .ok i := by
  have hdig := encodeB26_digit_bounds (i + 1)
  have hchars : ∀ c ∈ labelOfNat i, 65 ≤ c.toNat ∧ c.toNat ≤ 90 := by
    intro c hc
    rcases List.mem_map.mp hc with ⟨d, hd, rfl⟩
    have := hdig d hd
    rw [letterOfDigit_toNat this.1 this.2]
    omega
  have halpha : ∀ c ∈ labelOfNat i, pyIsAlpha c = true := by
    intro c hc
    rcases List.mem_map.mp hc with ⟨d, hd, rfl⟩
    have := hdig d hd
    exact pyIsAlpha_letterOfDigit this.1 this.2
  have hne : labelOfNat i ≠ [] := by
    unfold labelOfNat
    simp only [ne_eq, List.map_eq_nil_iff]
    exact encodeB26_ne_nil (Nat.succ_pos i)
  have hupper : (labelOfNat i).map pyUpperChar = labelOfNat i := by
    unfold labelOfNat
    rw [List.map_map]
    apply List.map_congr_left
    intro d hd
    have := hdig d hd
    exact pyUpperChar_letterOfDigit this.1 this.2
  have hfold : List.foldl (fun a d => a * 26 + d) 0 ((labelOfNat i).map digitOfChar)
      = i + 1 := by
    have hmapmap : (labelOfNat i).map digitOfChar = encodeB26 (i + 1) := by
      unfold labelOfNat
      rw [List.map_map]
      calc (encodeB26 (i + 1)).map (digitOfChar ∘ letterOfDigit)
          = (encodeB26 (i + 1)).map id := List.map_congr_left (by
            intro d hd
            have := hdig d hd
            exact digitOfChar_letterOfDigit this.1 this.2)
        _ = encodeB26 (i + 1) := List.map_id _
    rw [hmapmap]
    have := decodeB26_encodeB26 (i + 1)
    unfold decodeB26 at this
    exact this
  unfold column_index
  rw [strip_of_letters halpha, hupper, if_neg hne,
    columnIndexGo_spec _ hchars 0, hfold]
  simp

/-- For an all-letter, non-empty label: `column_index` succeeds and
`column_label` of the result is the uppercased label. -/
theorem column_label_column_index {L : Str} (hne : L ≠ [])
    (h : ∀ c ∈ L, pyIsAlpha c = true) :
    ∃ n : ℕ, column_index L = .ok n ∧
      column_label (n : ℤ) = .ok (L.map pyUpperChar) := by
  have hstrip : strip L = L := strip_of_letters h
  set U := L.map pyUpperChar with hU
  have hUchars : ∀ c ∈ U, 65 ≤ c.toNat ∧ c.toNat ≤ 90 := by
    intro c hc
    rcases List.mem_map.mp hc with ⟨x, hx, rfl⟩
    exact upper_toNat_bounds (h x hx)
  have hUne : U ≠ [] := by
    simp only [hU, ne_eq, List.map_eq_nil_iff]
    exact hne
  set ds := U.map digitOfChar with hds
  have hdsb : ∀ d ∈ ds, 1 ≤ d ∧ d ≤ 26 := by
    intro d hd
    rcases List.mem_map.mp hd with ⟨c, hc, rfl⟩
    have := hUchars c hc
    exact digitOfChar_bounds_upper this.1 this.2
  have hdsne : ds ≠ [] := by
    simp only [hds, ne_eq, List.map_eq_nil_iff]
    exact hUne
  have hpos : 1 ≤ decodeB26 ds :=
    decodeB26_pos hdsne (fun d hd => (hdsb d hd).1)
  refine ⟨decodeB26 ds - 1, ?_, ?_⟩
  · have hfold : List.foldl (fun a d => a * 26 + d) 0 (U.map digitOfChar)
        = decodeB26 ds := by
      rw [← hds]; rfl
    unfold column_index
    rw [hstrip, ← hU, if_neg hUne, columnIndexGo_spec _ hUchars 0, hfold]
  · unfold column_label
    rw [if_neg (by omega)]
    congr 1
    unfold labelOfNat
    have htn : ((decodeB26 ds - 1 : ℕ) : ℤ).toNat = decodeB26 ds - 1 := by
      omega
    rw [htn]
    have hsucc : decodeB26 ds - 1 + 1 = decodeB26 ds := by omega
    rw [hsucc, encodeB26_decodeB26 ds hdsb, hds, List.map_map]
    calc U.map (letterOfDigit ∘ digitOfChar)
        = U.map id := List.map_congr_left (by
          intro c hc
          have := hUchars c hc
          exact letterOfDigit_digitOfChar_upper this.1 this.2)
      _ = U := List.map_id _

/-- C9: for every valid column label `L` (non-empty, ASCII letters in either
case), `column_label (column_index L)` is `L` uppercased, and for every
non-negative index `i`, `column_index (column_label i)` is `i`. -/
theorem claim_C9_column_codec_roundtrip :
    (∀ L : Str, L ≠ [] → (∀ c ∈ L, isAsciiLetter c = true) →
      ∃ n : ℕ, column_index L = .ok n ∧
        column_label (n : ℤ) = .ok (L.map pyUpperChar)) ∧
    (∀ i : ℕ, ∃ s : Str, column_label (i : ℤ) = .ok s ∧
      column_index s = .ok i) := by
  constructor
  · intro L hne h
    exact column_label_column_index hne h
  · intro i
    refine ⟨labelOfNat i, ?_, column_index_labelOfNat i⟩
    unfold column_label
    rw [if_neg (by omega)]
    congr 1

/-- Witness for C9 at the concrete label `"ab"` and index `27`. -/
theorem claim_C9_witness :
    ((['a', 'b'] : Str) ≠ [] ∧
      ∃ n : ℕ, column_index ['a', 'b'] = .ok n ∧
        column_label (n : ℤ) = .ok (['a', 'b'].map pyUpperChar)) ∧
    (∃ s : Str, column_label ((27 : ℕ) : ℤ) = .ok s ∧
      column_index s = .ok 27) :=
  ⟨⟨by decide, claim_C9_column_codec_roundtrip.1 ['a', 'b'] (by decide) (by decide)⟩,
    claim_C9_column_codec_roundtrip.2 27⟩

/-! ## Decimal digits (`str(int)` / `int(str)` for non-negative values) -/

/-- Most-significant-first decimal digits of `n` (empty for `0`); the
`fuel` argument makes the recursion structural (any `fuel ≥ n` computes the
same list). -/
def decDigitsGo : ℕ → ℕ → List ℕ
  | _, 0 => []
  | 0, _ + 1 => []
  | fuel + 1, n + 1 => decDigitsGo fuel ((n + 1) / 10) ++ [(n + 1) % 10]

def decDigits (n : ℕ) : List ℕ := decDigitsGo n n

theorem decDigitsGo_fuel_irrel :
    ∀ (n fuel1 fuel2 : ℕ), n ≤ fuel1 → n ≤ fuel2 →
      decDigitsGo fuel1 n = decDigitsGo fuel2 n := by
  intro n
  induction n using Nat.strong_induction_on with
  | _ n ih =>
    intro fuel1 fuel2 h1 h2
    match n, fuel1, fuel2, h1, h2 with
    | 0, f1, f2, _, _ => cases f1 <;> cases f2 <;> rfl
    | m + 1, f1 + 1, f2 + 1, h1, h2 =>
      show decDigitsGo f1 ((m + 1) / 10) ++ _ = decDigitsGo f2 ((m + 1) / 10) ++ _
      rw [ih ((m + 1) / 10) (by omega) f1 f2 (by omega) (by omega)]

theorem decDigits_succ (m : ℕ) :
    decDigits (m + 1) = decDigits ((m + 1) / 10) ++ [(m + 1) % 10] := by
  show decDigitsGo m ((m + 1) / 10) ++ _ = decDigitsGo ((m + 1) / 10) ((m + 1) / 10) ++ _
  rw [decDigitsGo_fuel_irrel ((m + 1) / 10) m ((m + 1) / 10) (by omega) le_rfl]

def decodeDec (ds : List ℕ) : ℕ := ds.foldl (fun a d => a * 10 + d) 0

theorem decodeDec_from (ds : List ℕ) (v : ℕ) :
    ds.foldl (fun a d => a * 10 + d) v = v * 10 ^ ds.length + decodeDec ds := by
  induction ds generalizing v with
  | nil => simp [decodeDec]
  | cons d t ih =>
    have e1 : decodeDec (d :: t) = d * 10 ^ t.length + decodeDec t := by
      show List.foldl (fun a d => a * 10 + d) (0 * 10 + d) t = _
      rw [ih]
      norm_num
    rw [List.foldl_cons, ih, e1]
    simp only [List.length_cons]
    ring

theorem decodeDec_append_singleton (l : List ℕ) (d : ℕ) :
    decodeDec (l ++ [d]) = decodeDec l * 10 + d := by
  simp [decodeDec]

theorem decDigits_pos (n : ℕ) (h : 0 < n) :
    decDigits n = decDigits (n / 10) ++ [n % 10] := by
  match n, h with
  | m + 1, _ => rw [decDigits_succ]

theorem decodeDec_decDigits (n : ℕ) : decodeDec (decDigits n) = n := by
  induction n using Nat.strong_induction_on with
  | _ n ih =>
    match n with
    | 0 => simp [decDigits, decDigitsGo, decodeDec]
    | m + 1 =>
      rw [decDigits_succ, decodeDec_append_singleton,
        ih ((m + 1) / 10) (Nat.div_lt_self (Nat.succ_pos m) (by norm_num))]
      omega

theorem decDigits_bounds (n : ℕ) : ∀ d ∈ decDigits n, d ≤ 9 := by
  induction n using Nat.strong_induction_on with
  | _ n ih =>
    match n with
    | 0 => simp [decDigits, decDigitsGo]
    | m + 1 =>
      rw [decDigits_succ]
      intro d hd
      rcases List.mem_append.mp hd with h | h
      · exact ih ((m + 1) / 10) (Nat.div_lt_self (Nat.succ_pos m) (by norm_num)) d h
      · simp at h
        omega

theorem decDigits_ne_nil {n : ℕ} (h : 0 < n) : decDigits n ≠ [] := by
  rw [decDigits_pos n h]
  simp

/-- `chr(ord("0") + d)`. -/
def decDigitChar (d : ℕ) : Char := Char.ofNat (48 + d)

/-- Model of Python `str(n)` for a non-negative integer. -/
def natRepr (n : ℕ) : Str :=
  if n = 0 then ['0'] else (decDigits n).map decDigitChar

/-- Model of Python `int(s)` on an all-digit string. -/
def parseNatDigits (ds : Str) : ℕ :=
  ds.foldl (fun a c => a * 10 + (c.toNat - 48)) 0

theorem decDigitChar_toNat {d : ℕ} (h : d ≤ 9) :
    (decDigitChar d).toNat = 48 + d := by
  interval_cases d <;> decide

theorem pyIsDigit_decDigitChar {d : ℕ} (h : d ≤ 9) :
    pyIsDigit (decDigitChar d) = true := by
  interval_cases d <;> decide

theorem not_alpha_decDigitChar {d : ℕ} (h : d ≤ 9) :
    pyIsAlpha (decDigitChar d) = false := by
  interval_cases d <;> decide

theorem not_space_decDigitChar {d : ℕ} (h : d ≤ 9) :
    pyIsSpace (decDigitChar d) = false := by
  interval_cases d <;> decide

theorem natRepr_all_digits (n : ℕ) : ∀ c ∈ natRepr n, pyIsDigit c = true := by
  unfold natRepr
  by_cases h : n = 0
  · subst h; simp; decide
  · rw [if_neg h]
    intro c hc
    rcases List.mem_map.mp hc with ⟨d, hd, rfl⟩
    exact pyIsDigit_decDigitChar (decDigits_bounds n d hd)

theorem natRepr_ne_nil (n : ℕ) : natRepr n ≠ [] := by
  unfold natRepr
  by_cases h : n = 0
  · subst h; simp
  · rw [if_neg h]
    simp only [ne_eq, List.map_eq_nil_iff]
    exact decDigits_ne_nil (Nat.pos_of_ne_zero h)

theorem parseNatDigits_natRepr (n : ℕ) : parseNatDigits (natRepr n) = n := by
  unfold natRepr
  by_cases h : n = 0
  · subst h; decide
  · rw [if_neg h]
    unfold parseNatDigits
    have : ∀ ds : List ℕ, (∀ d ∈ ds, d ≤ 9) →
        List.foldl (fun a c => a * 10 + (c.toNat - 48)) 0 (ds.map decDigitChar)
          = decodeDec ds := by
      intro ds hds
      rw [List.foldl_map]
      have : ∀ (v : ℕ) (l : List ℕ), (∀ d ∈ l, d ≤ 9) →
          List.foldl (fun a d => a * 10 + ((decDigitChar d).toNat - 48)) v l
            = List.foldl (fun a d => a * 10 + d) v l := by
        intro v l
        induction l generalizing v with
        | nil => intro _; rfl
        | cons d t ih =>
          intro hl
          have hd := hl d (by simp)
          rw [List.foldl_cons, List.foldl_cons, decDigitChar_toNat hd, ih _
            (fun x hx => hl x (by simp [hx]))]
          congr 1
          omega
      exact this 0 ds hds
    rw [this (decDigits n) (decDigits_bounds n)]
    exact decodeDec_decDigits n

/-! ## `parse_cell`, `cell_label`, `address`, `parse_range` -/

/-- The letters/numbers splitting loop of `parse_cell`: a character goes to
`letters` while it is alphabetic and no `numbers` character has been seen
yet; afterwards every character goes to `numbers`. -/
def splitCellGo : Str → Str → Str → Str × Str
  | [], ls, ns => (ls, ns)
  | c :: rest, ls, ns =>
    if pyIsAlpha c && ns.isEmpty then splitCellGo rest (ls ++ [c]) ns
    else splitCellGo rest ls (ns ++ [c])

/-- `parse_cell(cell) -> (row, col)`. The `row_number < 0` check of the
source is omitted: `int` of an all-digit string is never negative, and the
model's `ℕ` result makes that explicit. -/
def parse_cell (cell : Str) : Except CodecErr (ℕ × ℕ) :=
  let trimmed := strip cell
  if trimmed = [] then .error .invalidCellReference
  else
    let pair := splitCellGo trimmed [] []
    let letters := pair.1
    let numbers := pair.2
    if letters = [] then .error .invalidCellReference
    else if numbers = [] then .error .invalidCellReference
    else if ¬ numbers.all pyIsDigit then .error .invalidCellReference
    else
      match column_index letters with
      | .error e => .error e
      | .ok colIndex => .ok (parseNatDigits numbers, colIndex)

/-- `cell_label(row, col)`: `column_label(col)` (both arguments are natural
numbers here, so the negative-column failure cannot fire) followed by
`str(row)`. -/
def cell_label (row col : ℕ) : Str := labelOfNat col ++ natRepr row

/-- `address(region, row, col)`: the canonical zero-based single-cell key. -/
def address (region : Str) (row col : ℕ) : Str :=
  region ++ '[' :: (cell_label row col ++ [']'])

/-- Python `s.split(sep, 1)` when `sep` occurs in `s` (the callers guard on
containment). -/
def splitOnFirst (sep : Char) : Str → Str × Str
  | [] => ([], [])
  | c :: cs =>
    if c = sep then ([], cs)
    else
      let (a, b) := splitOnFirst sep cs
      (c :: a, b)

/-- Python `s.split(sep)` (all occurrences; `""` yields `[""]`). -/
def splitAll (sep : Char) : Str → List Str
  | [] => [[]]
  | c :: cs =>
    if c = sep then [] :: splitAll sep cs
    else
      match splitAll sep cs with
      | [] => [[c]]
      | p :: ps => (c :: p) :: ps

/-- `parse_range(range_str) -> (region, startRow, startCol, endRow, endCol)`. -/
def parse_range (rangeStr : Str) :
    Except CodecErr (Str × ℕ × ℕ × ℕ × ℕ) :=
  let trimmed := strip rangeStr
  if ¬ trimmed.contains '[' then .error .invalidRangeFormat
  else if trimmed.getLast? ≠ some ']' then .error .invalidRangeFormat
  else
    let pair := splitOnFirst '[' trimmed
    let region := strip pair.1
    let inner := pair.2.dropLast
    if region = [] then .error .invalidRegion
    else
      match splitAll ':' inner with
      | [p] =>
        match parse_cell p with
        | .error e => .error e
        | .ok (r, c) => .ok (region, r, c, r, c)
      | [p, q] =>
        match parse_cell p with
        | .error e => .error e
        | .ok (sr, sc) =>
          match parse_cell q with
          | .error e => .error e
          | .ok (er, ec) => .ok (region, sr, sc, er, ec)
      | _ => .error .invalidRangeFormat

/-! ### Roundtrip: `parse_cell (cell_label r c) = (r, c)` -/

theorem splitCellGo_letters {ls : Str} (h : ∀ c ∈ ls, pyIsAlpha c = true) :
    ∀ rest acc, splitCellGo (ls ++ rest) acc [] = splitCellGo rest (acc ++ ls) [] := by
  induction ls with
  | nil => intro rest acc; simp
  | cons c t ih =>
    intro rest acc
    have hc : (pyIsAlpha c && List.isEmpty ([] : Str)) = true := by
      simp [h c (by simp)]
    rw [List.cons_append, splitCellGo, if_pos hc,
      ih (fun x hx => h x (by simp [hx])) rest (acc ++ [c])]
    simp

theorem splitCellGo_numbers : ∀ (rest ls ns : Str), ns ≠ [] →
    splitCellGo rest ls ns = (ls, ns ++ rest) := by
  intro rest
  induction rest with
  | nil => intro ls ns _; simp [splitCellGo]
  | cons c t ih =>
    intro ls ns hne
    have hcond : (pyIsAlpha c && ns.isEmpty) = false := by
      simp [List.isEmpty_iff, hne]
    rw [splitCellGo, if_neg (by simp [hcond]), ih ls (ns ++ [c]) (by simp)]
    simp

theorem splitCellGo_label_digits {ls ds : Str}
    (hl : ∀ c ∈ ls, pyIsAlpha c = true)
    (hd : ∀ c ∈ ds, pyIsAlpha c = false) (hdne : ds ≠ []) :
    splitCellGo (ls ++ ds) [] [] = (ls, ds) := by
  rw [splitCellGo_letters hl ds []]
  cases ds with
  | nil => exact absurd rfl hdne
  | cons d t =>
    have hcond : pyIsAlpha d = false := hd d (by simp)
    rw [splitCellGo, if_neg (by simp [hcond])]
    rw [splitCellGo_numbers t ([] ++ ls) ([] ++ [d]) (by simp)]
    simp

theorem labelOfNat_all_alpha (c : ℕ) : ∀ x ∈ labelOfNat c, pyIsAlpha x = true := by
  intro x hx
  rcases List.mem_map.mp hx with ⟨d, hd, rfl⟩
  have := encodeB26_digit_bounds (c + 1) d hd
  exact pyIsAlpha_letterOfDigit this.1 this.2

theorem labelOfNat_ne_nil (c : ℕ) : labelOfNat c ≠ [] := by
  unfold labelOfNat
  simp only [ne_eq, List.map_eq_nil_iff]
  exact encodeB26_ne_nil (Nat.succ_pos c)

theorem natRepr_not_alpha (n : ℕ) : ∀ c ∈ natRepr n, pyIsAlpha c = false := by
  unfold natRepr
  by_cases h : n = 0
  · subst h; simp; decide
  · rw [if_neg h]
    intro c hc
    rcases List.mem_map.mp hc with ⟨d, hd, rfl⟩
    exact not_alpha_decDigitChar (decDigits_bounds n d hd)

theorem natRepr_not_space (n : ℕ) : ∀ c ∈ natRepr n, pyIsSpace c = false := by
  unfold natRepr
  by_cases h : n = 0
  · subst h; simp; decide
  · rw [if_neg h]
    intro c hc
    rcases List.mem_map.mp hc with ⟨d, hd, rfl⟩
    exact not_space_decDigitChar (decDigits_bounds n d hd)

theorem strip_cell_label (r c : ℕ) : strip (cell_label r c) = cell_label r c := by
  have hno : ∀ x ∈ cell_label r c, pyIsSpace x = false := by
    intro x hx
    rcases List.mem_append.mp hx with h | h
    · exact not_space_of_letter (labelOfNat_all_alpha c x h)
    · exact natRepr_not_space r x h
  unfold strip lstrip rstrip
  rw [dropWhile_eq_self_of_none hno, dropWhile_eq_self_of_none
    (by intro x hx; exact hno x (List.mem_reverse.mp hx)), List.reverse_reverse]

theorem parse_cell_cell_label (r c : ℕ) :
    parse_cell (cell_label r c) = .ok (r, c) := by
  unfold parse_cell
  rw [strip_cell_label]
  have hne : cell_label r c ≠ [] := by
    unfold cell_label
    simp [labelOfNat_ne_nil c]
  rw [if_neg hne]
  unfold cell_label
  rw [splitCellGo_label_digits (labelOfNat_all_alpha c) (natRepr_not_alpha r)
    (natRepr_ne_nil r)]
  rw [if_neg (labelOfNat_ne_nil c), if_neg (natRepr_ne_nil r)]
  have hdig : (natRepr r).all pyIsDigit = true := by
    rw [List.all_eq_true]
    exact natRepr_all_digits r
  rw [if_neg (by simp [hdig])]
  rw [column_index_labelOfNat c, parseNatDigits_natRepr r]

/-- `cell_label` is injective — different cells have different keys. -/
theorem cell_label_injective {r₁ c₁ r₂ c₂ : ℕ}
    (h : cell_label r₁ c₁ = cell_label r₂ c₂) : r₁ = r₂ ∧ c₁ = c₂ := by
  have h1 := parse_cell_cell_label r₁ c₁
  have h2 := parse_cell_cell_label r₂ c₂
  rw [h] at h1
  rw [h1] at h2
  injection h2 with h3
  exact ⟨congrArg Prod.fst h3, congrArg Prod.snd h3⟩

/-- `address region` is injective in `(row, col)`. -/
theorem address_injective {region : Str} {r₁ c₁ r₂ c₂ : ℕ}
    (h : address region r₁ c₁ = address region r₂ c₂) : r₁ = r₂ ∧ c₁ = c₂ := by
  unfold address at h
  have h2 := List.append_cancel_left h
  injection h2 with _ h3
  exact cell_label_injective (List.append_cancel_right h3)

/-- Shorthand turning a Lean string literal into the `List Char` model. -/
def s2l (s : String) : Str := s.toList

/-! ## Values

Python `float` is modelled as an exact rational plus a separate `nan`
element (`QF`).  Rounding is not modelled; no claim depends on it. -/

inductive QF
  | nan
  | q (x : ℚ)
  deriving DecidableEq, Repr

/-- Addition on engine numbers; `nan` is absorbing, as in IEEE-754. -/
def qfAdd : QF → QF → QF
  | .q a, .q b => .q (a + b)
  | _, _ => .nan

/-- Strict `<` as Python compares floats: any comparison with `nan` is false. -/
def qfLt : QF → QF → Bool
  | .q a, .q b => a < b
  | _, _ => false

/-- Division by a non-zero count (used by `AVERAGE`). -/
def qfDivNat (a : QF) (n : ℕ) : QF :=
  match a with
  | .q x => .q (x / n)
  | .nan => .nan

def qfSub : QF → QF → QF
  | .q a, .q b => .q (a - b)
  | _, _ => .nan

def qfMul : QF → QF → QF
  | .q a, .q b => .q (a * b)
  | _, _ => .nan

def qfNeg : QF → QF
  | .q a => .q (-a)
  | .nan => .nan


/-- The Python value universe this embedding needs.  `tagged ty v` models the
serialized dict `{"type": ty, "value": v}`; `list` models Python lists (and
tuples); `nparray` models a 1-D `np.ndarray` of objects as produced by
column/row references. -/
inductive PyVal
  | none
  | num (x : QF)
  | str (s : Str)
  | bool (b : Bool)
  | date (s : Str)
  | time (s : Str)
  | tagged (ty : Str) (v : PyVal)
  | list (vs : List PyVal)
  | nparray (vs : List PyVal)

/-- Python `==` on engine numbers: `nan` compares unequal to everything. -/
def qfEq : QF → QF → Bool
  | .q a, .q b => a = b
  | _, _ => false

mutual

/-- Python `==` on the modelled value universe.  Booleans compare equal to
the numbers `0`/`1` (Python `bool` is an `int` subclass); `nan ≠ nan`;
lists and tuples compare elementwise; a numpy array on either side yields an
array in Python (ambiguous in boolean context), modelled as `false` — no
claim compares arrays. -/
def pyEq : PyVal → PyVal → Bool
  | .none, .none => true
  | .num a, .num b => qfEq a b
  | .num a, .bool b => qfEq a (.q (if b then 1 else 0))
  | .bool a, .num b => qfEq (.q (if a then 1 else 0)) b
  | .bool a, .bool b => a = b
  | .str a, .str b => a = b
  | .date a, .date b => a = b
  | .time a, .time b => a = b
  | .tagged ty v, .tagged ty2 v2 => ty = ty2 && pyEq v v2
  | .list a, .list b => pyEqList a b
  | _, _ => false

/-- Elementwise Python `==` for lists. -/
def pyEqList : List PyVal → List PyVal → Bool
  | [], [] => true
  | a :: as, b :: bs => pyEq a b && pyEqList as bs
  | _, _ => false

end

/-- The error sentinel `"#ERROR"` written for failed evaluations. -/
def errorSentinel : PyVal := .str (s2l ("#ERROR"))

/-- Model of `float(x)` where the source guarantees a numeric-ish payload
(`value.get("value", 0)` of a number tag).  Non-numeric payloads would raise
in Python; they are unreachable through this API's own writers and modelled
as `0`. -/
def pyFloatAttempt : PyVal → QF
  | .num x => x
  | .bool b => .q (if b then 1 else 0)
  | _ => .q 0

/-- Model of `str(value.get("value", ""))` for a string tag whose payload is
already a string (the only case this API produces). -/
def pyStrAttempt : PyVal → Str
  | .str s => s
  | _ => []

/-- Python truthiness, for `bool(value.get("value", False))`. -/
def pyTruthy : PyVal → Bool
  | .none => false
  | .num (.q x) => if x = 0 then false else true
  | .num .nan => true
  | .str s => !s.isEmpty
  | .bool b => b
  | .date _ => true
  | .time _ => true
  | .tagged _ _ => true
  | .list vs => !vs.isEmpty
  | .nparray vs => !vs.isEmpty

/-- A simple `YYYY-MM-DD` shape check modelling
`datetime.date.fromisoformat` (full calendar validation is not modelled;
no claim evaluates date values). -/
def isIsoDateShape (s : Str) : Bool :=
  match s with
  | [y1, y2, y3, y4, d1, m1, m2, d2, dd1, dd2] =>
    pyIsDigit y1 && pyIsDigit y2 && pyIsDigit y3 && pyIsDigit y4 &&
    d1 = '-' && pyIsDigit m1 && pyIsDigit m2 && d2 = '-' &&
    pyIsDigit dd1 && pyIsDigit dd2
  | _ => false

/-- A simple `HH:MM[:SS]` shape check modelling
`datetime.time.fromisoformat`. -/
def isIsoTimeShape (s : Str) : Bool :=
  match s with
  | [h1, h2, c1, m1, m2] => pyIsDigit h1 && pyIsDigit h2 && c1 = ':' &&
      pyIsDigit m1 && pyIsDigit m2
  | [h1, h2, c1, m1, m2, c2, s1, sec2] => pyIsDigit h1 && pyIsDigit h2 &&
      c1 = ':' && pyIsDigit m1 && pyIsDigit m2 && c2 = ':' &&
      pyIsDigit s1 && pyIsDigit sec2
  | _ => false

/-- `_unwrap_value`: unwrap a serialized tagged dict to a native scalar;
anything that is not a tagged dict passes through unchanged. -/
def unwrap_value (v : PyVal) : PyVal :=
  match v with
  | .tagged ty payload =>
    if ty = s2l ("number") then .num (pyFloatAttempt payload)
    else if ty = s2l ("string") then .str (pyStrAttempt payload)
    else if ty = s2l ("bool") then .bool (pyTruthy payload)
    else if ty = s2l ("date") then
      let raw := pyStrAttempt payload
      if isIsoDateShape raw then .date raw else .none
    else if ty = s2l ("time") then
      let raw := pyStrAttempt payload
      if isIsoTimeShape raw then .time raw else .none
    else .none
  | v => v

/-! ## Python dicts as insertion-ordered association lists -/

abbrev Dict (α : Type) := List (Str × α)

/-- `d.get(k)`. -/
def dget {α : Type} : Dict α → Str → Option α
  | [], _ => Option.none
  | (k', v) :: t, k => if k' = k then some v else dget t k

/-- `d[k] = v`: replaces in place, else appends (CPython insertion order). -/
def dset {α : Type} : Dict α → Str → α → Dict α
  | [], k, v => [(k, v)]
  | (k', v') :: t, k, v =>
    if k' = k then (k, v) :: t else (k', v') :: dset t k v

/-- `d.pop(k, None)`. -/
def dpop {α : Type} : Dict α → Str → Dict α
  | [], _ => []
  | (k', v') :: t, k => if k' = k then t else (k', v') :: dpop t k

theorem dget_dset_self {α : Type} (m : Dict α) (k : Str) (v : α) :
    dget (dset m k v) k = some v := by
  induction m with
  | nil => simp [dset, dget]
  | cons p t ih =>
    by_cases h : p.1 = k
    · simp [dset, h, dget]
    · simp [dset, h, dget, ih]

theorem dget_dset_ne {α : Type} (m : Dict α) (k k' : Str) (v : α)
    (h : k ≠ k') : dget (dset m k v) k' = dget m k' := by
  induction m with
  | nil => simp [dset, dget, h]
  | cons p t ih =>
    by_cases hp : p.1 = k
    · simp [dset, hp, dget, h]
    · simp [dset, hp, dget, ih]

theorem dget_dpop_ne {α : Type} (m : Dict α) (k k' : Str)
    (h : k ≠ k') : dget (dpop m k) k' = dget m k' := by
  induction m with
  | nil => rfl
  | cons p t ih =>
    rcases p with ⟨pk, pv⟩
    by_cases hp : pk = k
    · subst hp
      simp [dpop, dget, h]
    · simp [dpop, hp, dget, ih]

/-! ## Grid document model -/

structure Rect where
  x : ℚ
  y : ℚ
  width : ℚ
  height : ℚ
  deriving DecidableEq, Repr

structure LabelBands where
  topRows : ℤ
  bottomRows : ℤ
  leftCols : ℤ
  rightCols : ℤ
  deriving DecidableEq, Repr

structure GridSpec where
  bodyRows : ℤ
  bodyCols : ℤ
  labelBands : LabelBands
  deriving DecidableEq, Repr

structure SummaryValueSpec where
  col : ℕ
  agg : Str
  deriving DecidableEq, Repr

structure SummarySpec where
  source_table_id : Str
  group_by : List ℕ
  values : List SummaryValueSpec
  deriving DecidableEq, Repr

structure FormulaPayload where
  formula : Str
  mode : Str
  deriving DecidableEq, Repr

structure RangePayload where
  values : List (List PyVal)
  dtype : Option Str

structure Table where
  id : Str
  name : Str
  rect : Rect
  grid_spec : GridSpec
  body_column_types : List Str
  cell_values : Dict PyVal
  range_values : Dict RangePayload
  formulas : Dict FormulaPayload
  formula_order : Dict ℕ
  label_band_values : List (Str × Dict (List Str))
  summary_spec : Option SummarySpec
  summary_order : Option ℕ

def _DEFAULT_CELL_WIDTH : ℚ := 80
def _DEFAULT_CELL_HEIGHT : ℚ := 24

/-- `_normalize_column_types`: pad with `"number"` or truncate to
`bodyCols`.  Negative body sizes (reachable only by passing a negative
`resize` argument, which no claim exercises) are modelled as `0`. -/
def _normalize_column_types (t : Table) : Table :=
  let target := t.grid_spec.bodyCols.toNat
  if t.body_column_types.length < target then
    { t with body_column_types :=
        t.body_column_types ++ List.replicate (target - t.body_column_types.length) (s2l ("number")) }
  else if t.body_column_types.length > target then
    { t with body_column_types := t.body_column_types.take target }
  else t

/-- `_sync_rect_size`. -/
def _sync_rect_size (t : Table) : Table :=
  let bands := t.grid_spec.labelBands
  let totalCols := bands.leftCols + t.grid_spec.bodyCols + bands.rightCols
  let totalRows := bands.topRows + t.grid_spec.bodyRows + bands.bottomRows
  { t with rect := { t.rect with
      width := (totalCols : ℚ) * _DEFAULT_CELL_WIDTH,
      height := (totalRows : ℚ) * _DEFAULT_CELL_HEIGHT } }

/-- `_ensure_body_size(rows, cols)`: grow-only resize; on growth the column
types are re-normalized and the rect re-derived. -/
def _ensure_body_size (t : Table) (rows cols : ℤ) : Table :=
  let t1 :=
    if rows > t.grid_spec.bodyRows then
      { t with grid_spec := { t.grid_spec with bodyRows := rows } }
    else t
  let t2 :=
    if cols > t1.grid_spec.bodyCols then
      { t1 with grid_spec := { t1.grid_spec with bodyCols := cols } }
    else t1
  if rows > t.grid_spec.bodyRows ∨ cols > t1.grid_spec.bodyCols then
    _sync_rect_size (_normalize_column_types t2)
  else t2

/-- The first loop of `set_cells`: maximal body row/col touched by the keys
that parse as `body[...]` ranges. -/
def setCellsMax (keys : List Str) : Option ℕ × Option ℕ :=
  keys.foldl
    (fun acc key =>
      match parse_range key with
      | .error _ => acc
      | .ok (region, startRow, startCol, endRow, endCol) =>
        if region ≠ s2l ("body") then acc
        else
          let row := max startRow endRow
          let col := max startCol endCol
          (some (match acc.1 with | Option.none => row | some m => max m row),
           some (match acc.2 with | Option.none => col | some m => max m col)))
    (Option.none, Option.none)

/-- `set_cells(mapping)`: grow to fit the parseable body keys, then write
every pair verbatim. -/
def set_cells (t : Table) (mapping : List (Str × PyVal)) : Table :=
  let mm := setCellsMax (mapping.map (·.1))
  let t1 :=
    match mm with
    | (some maxRow, some maxCol) => _ensure_body_size t (maxRow + 1) (maxCol + 1)
    | _ => t
  { t1 with cell_values :=
      mapping.foldl (fun cv p => dset cv p.1 p.2) t1.cell_values }

/-- `set_range(range_str, values, dtype)`: store the payload verbatim, grow
if the range is a parseable body range with a non-empty payload, then expand
into individual cell writes. -/
def set_range (t : Table) (range_str : Str) (values : List (List PyVal))
    (dtype : Option Str) : Table :=
  let t0 := { t with
    range_values := dset t.range_values range_str ⟨values, dtype⟩ }
  match parse_range range_str with
  | .error _ => t0
  | .ok (region, start_row, start_col, _, _) =>
    let t1 :=
      if region = s2l ("body") then
        let value_rows := values.length
        let value_cols := (values.map (·.length)).foldl max 0
        if value_rows > 0 ∧ value_cols > 0 then
          _ensure_body_size t0 (start_row + value_rows - 1 + 1)
            (start_col + value_cols - 1 + 1)
        else t0
      else t0
    let writes :=
      (values.enum.map (fun rv =>
        rv.2.enum.map (fun cv =>
          (address region (start_row + rv.1) (start_col + cv.1), cv.2)))).flatten
    { t1 with cell_values :=
        writes.foldl (fun cv p => dset cv p.1 p.2) t1.cell_values }

/-- `set_formula(target_range, formula, mode)`.  The process-global
definition-order counter `_FORMULA_ORDER_COUNTER` is threaded explicitly:
the function takes its current value and returns the new one. -/
def set_formula (t : Table) (target_range : Str) (formula : Str) (mode : Str)
    (counter : ℕ) : Table × ℕ :=
  if strip formula = [] then
    ({ t with formulas := dpop t.formulas target_range,
              formula_order := dpop t.formula_order target_range }, counter)
  else
    let t1 :=
      match parse_range target_range with
      | .error _ => t
      | .ok (region, start_row, start_col, end_row, end_col) =>
        if region = s2l ("body") then
          _ensure_body_size t (max start_row end_row + 1)
            (max start_col end_col + 1)
        else t
    let order := counter + 1
    ({ t1 with formulas := dset t1.formulas target_range ⟨formula, mode⟩,
               formula_order := dset t1.formula_order target_range order },
     order)

/-- `_ensure_body_size` touches only the grid spec, the column types and the
rect — never the stored values or formula definitions. -/
theorem ensure_body_size_stores (t : Table) (rows cols : ℤ) :
    (_ensure_body_size t rows cols).cell_values = t.cell_values ∧
    (_ensure_body_size t rows cols).formulas = t.formulas ∧
    (_ensure_body_size t rows cols).formula_order = t.formula_order ∧
    (_ensure_body_size t rows cols).range_values = t.range_values := by
  unfold _ensure_body_size _normalize_column_types _sync_rect_size
  dsimp only
  split_ifs <;> exact ⟨rfl, rfl, rfl, rfl⟩

/-- The empty 1×1 table of the regression tests (`add_table` with
`rows=1, cols=1`, no label bands, position `(0, 0)`). -/
def testTable1x1 : Table where
  id := s2l ("table_1")
  name := s2l ("table_1")
  rect := ⟨0, 0, 80, 24⟩
  grid_spec := ⟨1, 1, ⟨0, 0, 0, 0⟩⟩
  body_column_types := [s2l ("number")]
  cell_values := []
  range_values := []
  formulas := []
  formula_order := []
  label_band_values := [(s2l ("top"), []), (s2l ("bottom"), []),
    (s2l ("left"), []), (s2l ("right"), [])]
  summary_spec := Option.none
  summary_order := Option.none

/-- C1 (code divergence): after `set_formula("body[A0]", "=1+1")` followed by
`set_range("body[A0:A0]", [[5]])`, the formula definition and its order
entry are STILL in the table's maps (the cell does hold `5`).  The claim —
and the repository's own test `test_set_range_clears_overlapping_formula` —
require the definition to be removed. -/
def c1Table1 : Table :=
  (set_formula testTable1x1 (s2l ("body[A0]")) (s2l ("=1+1"))
    (s2l ("spreadsheet")) 0).1

def c1Table2 : Table :=
  set_range c1Table1 (s2l ("body[A0:A0]")) [[PyVal.num (.q 5)]] Option.none

theorem claim_C1_overlap_not_cleared :
    dget c1Table2.formulas (s2l ("body[A0]")) =
      some ⟨s2l ("=1+1"), s2l ("spreadsheet")⟩ ∧
    dget c1Table2.formula_order (s2l ("body[A0]")) = some 1 ∧
    dget c1Table2.cell_values (s2l ("body[A0]")) = some (PyVal.num (.q 5)) := by
  exact ⟨rfl, rfl, rfl⟩

/-- C2 (code divergence): `set_formula` with `mode="python"` succeeds (it is
a total function — the source raises nothing) and stores the definition with
the foreign mode; the claim — and the repository's own test
`test_unsupported_formula_mode_raises` — require an UnsupportedMode failure
at definition time with nothing written. -/
def c2Result : Table × ℕ :=
  set_formula testTable1x1 (s2l ("body[A0]")) (s2l ("x+1")) (s2l ("python")) 0

theorem claim_C2_mode_not_rejected :
    dget c2Result.1.formulas (s2l ("body[A0]")) =
      some ⟨s2l ("x+1"), s2l ("python")⟩ ∧
    dget c2Result.1.formula_order (s2l ("body[A0]")) = some 1 ∧
    c2Result.2 = 1 := by
  exact ⟨rfl, rfl, rfl⟩

/-- C3 counterexample: `set_formula` with the unparseable target `"oops"`
stores a definition under that key, so the formula map holds a key on which
`parse_range` fails — the claimed invariant is violated by a table reachable
through the public mutation API. -/
theorem claim_C3_counterexample :
    let t1 := (set_formula testTable1x1 (s2l ("oops")) (s2l ("=1"))
      (s2l ("spreadsheet")) 0).1
    dget t1.formulas (s2l ("oops")) = some ⟨s2l ("=1"), s2l ("spreadsheet")⟩ ∧
    parse_range (s2l ("oops")) = .error CodecErr.invalidRangeFormat := by
  exact ⟨rfl, rfl⟩

/-- C3 amended: `set_formula` with non-empty formula text always stores the
definition (and a fresh order value) under the given key, whether or not the
key parses as an Address/Range; unparseable targets merely skip the
grid-growth step.  Formula-map keys are therefore not guaranteed to parse. -/
theorem claim_C3_amended (t : Table) (target_range formula mode : Str)
    (counter : ℕ) (h : strip formula ≠ []) :
    dget (set_formula t target_range formula mode counter).1.formulas
        target_range = some ⟨formula, mode⟩ ∧
    dget (set_formula t target_range formula mode counter).1.formula_order
        target_range = some (counter + 1) ∧
    (set_formula t target_range formula mode counter).2 = counter + 1 := by
  unfold set_formula
  rw [if_neg h]
  refine ⟨?_, ?_, rfl⟩
  · exact dget_dset_self _ _ _
  · exact dget_dset_self _ _ _

/-- Witness for the amended C3 at a concrete unparseable key. -/
theorem claim_C3_amended_witness :
    strip (s2l ("oops")) ≠ [] ∧
    dget (set_formula testTable1x1 (s2l ("oops")) (s2l ("=2"))
        (s2l ("spreadsheet")) 5).1.formulas (s2l ("oops")) =
      some ⟨s2l ("=2"), s2l ("spreadsheet")⟩ :=
  ⟨by decide,
    (claim_C3_amended testTable1x1 (s2l ("oops")) (s2l ("=2"))
      (s2l ("spreadsheet")) 5 (by decide)).1⟩

/-! ## Formula tokenizer

Errors raised while tokenizing or parsing are all `FormulaError` in the
source; the constructors below record which raise site fired (messages are
dropped).  `fuelExhausted` is a model artifact of the fuel-structural
recursion; the initial fuel is always sufficient for the inputs any claim
evaluates. -/

inductive FormulaErr
  | unexpectedCharacter (pos : ℕ)
  | unexpectedToken (pos : ℕ)
  | emptyFormula
  | expectedSyntax
  | invalidReference
  | invalidTableReference
  | invalidCellReferenceF
  | invalidColumnReference
  | invalidRowReference
  | unknownFunction
  | arityError
  | fuelExhausted
  deriving DecidableEq, Repr

inductive TokType
  | OP
  | lparen
  | rparen
  | comma
  | colon
  | lbrack
  | rbrack
  | CELL
  | NUMBER
  | IDENT
  | EOF
  deriving DecidableEq, Repr

structure Token where
  type : TokType
  value : Str
  pos : ℕ
  deriving DecidableEq, Repr

/-- Greedy match of `_CELL_TOKEN_RE = \$?[A-Za-z]+\$?\d+` at the head of
`s`; returns the matched text and the rest. -/
def matchCellToken (s : Str) : Option (Str × Str) :=
  let d1 : Str × Str := match s with
    | '$' :: r => (['$'], r)
    | _ => ([], s)
  let letters := d1.2.takeWhile pyIsAlpha
  if letters = [] then Option.none
  else
    let s2 := d1.2.drop letters.length
    let d2 : Str × Str := match s2 with
      | '$' :: r => (['$'], r)
      | _ => ([], s2)
    let digits := d2.2.takeWhile pyIsDigit
    if digits = [] then Option.none
    else some (d1.1 ++ letters ++ d2.1 ++ digits, d2.2.drop digits.length)

/-- Greedy match of `_NUMBER_TOKEN_RE = (?:\d+\.\d*|\d+|\.\d+)`. -/
def matchNumberToken (s : Str) : Option (Str × Str) :=
  match s with
  | '.' :: r =>
    let digits := r.takeWhile pyIsDigit
    if digits = [] then Option.none
    else some ('.' :: digits, r.drop digits.length)
  | _ =>
    let digits := s.takeWhile pyIsDigit
    if digits = [] then Option.none
    else
      let s1 := s.drop digits.length
      match s1 with
      | '.' :: r2 =>
        let frac := r2.takeWhile pyIsDigit
        some (digits ++ '.' :: frac, r2.drop frac.length)
      | _ => some (digits, s1)

def isIdentStart (c : Char) : Bool := pyIsAlpha c || c = '_'

def isIdentCont (c : Char) : Bool :=
  pyIsAlpha c || pyIsDigit c || c = '_' || c = '.' || c = '$'

/-- Greedy match of `_IDENT_TOKEN_RE = [A-Za-z_][A-Za-z0-9_\.\$]*`. -/
def matchIdentToken (s : Str) : Option (Str × Str) :=
  match s with
  | [] => Option.none
  | c :: r =>
    if isIdentStart c then
      let rest := r.takeWhile isIdentCont
      some (c :: rest, r.drop rest.length)
    else Option.none

/-- The `next_non_space` helper of `_tokenize_formula`: first non-space
character at or after the given point, `Option.none` at end of input. -/
def firstNonSpace (s : Str) : Option Char := (s.dropWhile pyIsSpace).head?

def tokenizeGo : ℕ → Str → ℕ → Except FormulaErr (List Token)
  | _, [], pos => .ok [⟨.EOF, [], pos⟩]
  | 0, _ :: _, _ => .error .fuelExhausted
  | fuel + 1, c :: rest, pos =>
    if pyIsSpace c then tokenizeGo fuel rest (pos + 1)
    else if c = '+' ∨ c = '-' ∨ c = '*' ∨ c = '/' ∨ c = '^' then
      match tokenizeGo fuel rest (pos + 1) with
      | .error e => .error e
      | .ok ts => .ok (⟨.OP, [c], pos⟩ :: ts)
    else if c = '(' ∨ c = ')' ∨ c = ',' ∨ c = ':' ∨ c = '[' ∨ c = ']' then
      let ty : TokType :=
        if c = '(' then .lparen else if c = ')' then .rparen
        else if c = ',' then .comma else if c = ':' then .colon
        else if c = '[' then .lbrack else .rbrack
      match tokenizeGo fuel rest (pos + 1) with
      | .error e => .error e
      | .ok ts => .ok (⟨ty, [c], pos⟩ :: ts)
    else
      match matchCellToken (c :: rest) with
      | some (tok, rem) =>
        let tokType : TokType :=
          if firstNonSpace rem = some '(' then .IDENT else .CELL
        (match tokenizeGo fuel rem (pos + tok.length) with
        | .error e => .error e
        | .ok ts => .ok (⟨tokType, tok, pos⟩ :: ts))
      | Option.none =>
        match matchNumberToken (c :: rest) with
        | some (tok, rem) =>
          (match tokenizeGo fuel rem (pos + tok.length) with
          | .error e => .error e
          | .ok ts => .ok (⟨.NUMBER, tok, pos⟩ :: ts))
        | Option.none =>
          match matchIdentToken (c :: rest) with
          | some (tok, rem) =>
            (match tokenizeGo fuel rem (pos + tok.length) with
            | .error e => .error e
            | .ok ts => .ok (⟨.IDENT, tok, pos⟩ :: ts))
          | Option.none => .error (.unexpectedCharacter pos)

/-- `_tokenize_formula(text)`; every loop iteration consumes at least one
character, so `text.length` is always enough fuel. -/
def _tokenize_formula (text : Str) : Except FormulaErr (List Token) :=
  tokenizeGo text.length text 0

/-! ## Formula AST and recursive-descent parser -/

structure CellRef where
  row : ℕ
  col : ℕ
  row_abs : Bool
  col_abs : Bool
  deriving DecidableEq, Repr

mutual

/-- The typed AST (`NumberNode`, `BoolNode`, `UnaryOpNode`, `BinaryOpNode`,
`FuncCallNode`, `CellRefNode`, `RangeRefNode`, `ColumnRefNode`,
`RowRefNode`).  Argument lists use the companion `AstList` so recursion
over the tree stays structural. -/
inductive Ast
  | number (value : ℚ)
  | boolLit (value : Bool)
  | unaryOp (op : Char) (operand : Ast)
  | binaryOp (op : Char) (left : Ast) (right : Ast)
  | funcCall (name : Str) (args : AstList)
  | cellRefNode (table_id : Option Str) (region : Str) (cell : CellRef)
  | rangeRefNode (table_id : Option Str) (region : Str)
      (startCell : CellRef) (endCell : CellRef)
  | columnRefNode (table_id : Option Str) (region : Str) (col : ℕ)
  | rowRefNode (table_id : Option Str) (region : Str) (row : ℕ)

inductive AstList
  | nil
  | cons (head : Ast) (tail : AstList)

end

/-- Exact value of a numeric token (`float(token.value)` on the shapes the
number regex admits: `\d+`, `\d+\.\d*`, `\.\d+`). -/
def parseDecimalToken (s : Str) : ℚ :=
  let intPart := s.takeWhile pyIsDigit
  let rest := s.drop intPart.length
  match rest with
  | '.' :: frac =>
    (parseNatDigits intPart : ℚ) + (parseNatDigits frac : ℚ) / (10 ^ frac.length)
  | _ => (parseNatDigits intPart : ℚ)

/-- `self.tokens[self.index + offset]`.  The EOF sentinel is returned past
the end; the Python list never over-runs because the parser stops at the
EOF token. -/
def peekTok (toks : List Token) (i : ℕ) : Token :=
  toks.getD i ⟨.EOF, [], 0⟩

/-- `_CELL_REF_RE.fullmatch` + decoding of `_parse_cell_string`. -/
def parseCellString (value : Str) : Except FormulaErr CellRef :=
  let d1 : Str × Str := match value with
    | '$' :: r => (['$'], r)
    | _ => ([], value)
  let letters := d1.2.takeWhile pyIsAlpha
  let s2 := d1.2.drop letters.length
  let d2 : Str × Str := match s2 with
    | '$' :: r => (['$'], r)
    | _ => ([], s2)
  let digits := d2.2.takeWhile pyIsDigit
  if letters = [] ∨ digits = [] ∨ d2.2.drop digits.length ≠ [] then
    .error .invalidCellReferenceF
  else
    match column_index letters with
    | .error _ => .error .invalidCellReferenceF
    | .ok colIndex =>
      .ok ⟨parseNatDigits digits, colIndex, d2.1 ≠ [], d1.1 ≠ []⟩

/-- `_parse_column_label`: the token text must be alphabetic. -/
def parseColumnLabelTok (t : Token) : Except FormulaErr ℕ :=
  if t.value ≠ [] ∧ t.value.all pyIsAlpha then
    match column_index t.value with
    | .error _ => .error .invalidColumnReference
    | .ok c => .ok c
  else .error .invalidColumnReference

/-- `_parse_row_number`: the token text must be all digits. -/
def parseRowNumberTok (t : Token) : Except FormulaErr ℕ :=
  if t.value ≠ [] ∧ t.value.all pyIsDigit then .ok (parseNatDigits t.value)
  else .error .invalidRowReference

/-- Split a dotted identifier at the FIRST dot (`dotted.split(".", 1)`). -/
def splitFirstDot (s : Str) : Str × Str := splitOnFirst '.' s

mutual

/-- `_parse_expression`: left-associative `+ -` layer. -/
def parseExpression : ℕ → List Token → ℕ → Except FormulaErr (Ast × ℕ)
  | 0, _, _ => .error .fuelExhausted
  | fuel + 1, toks, i =>
    match parseTerm fuel toks i with
    | .error e => .error e
    | .ok (node, i1) => parseExpressionLoop fuel toks node i1
termination_by structural fuel _ _ => fuel

def parseExpressionLoop : ℕ → List Token → Ast → ℕ → Except FormulaErr (Ast × ℕ)
  | 0, _, _, _ => .error .fuelExhausted
  | fuel + 1, toks, node, i =>
    let t := peekTok toks i
    if t.type = .OP ∧ (t.value = ['+'] ∨ t.value = ['-']) then
      match parseTerm fuel toks (i + 1) with
      | .error e => .error e
      | .ok (right, i1) =>
        parseExpressionLoop fuel toks
          (.binaryOp (t.value.headD '+') node right) i1
    else .ok (node, i)
termination_by structural fuel _ _ _ => fuel

/-- `_parse_term`: left-associative `* /` layer. -/
def parseTerm : ℕ → List Token → ℕ → Except FormulaErr (Ast × ℕ)
  | 0, _, _ => .error .fuelExhausted
  | fuel + 1, toks, i =>
    match parsePower fuel toks i with
    | .error e => .error e
    | .ok (node, i1) => parseTermLoop fuel toks node i1
termination_by structural fuel _ _ => fuel

def parseTermLoop : ℕ → List Token → Ast → ℕ → Except FormulaErr (Ast × ℕ)
  | 0, _, _, _ => .error .fuelExhausted
  | fuel + 1, toks, node, i =>
    let t := peekTok toks i
    if t.type = .OP ∧ (t.value = ['*'] ∨ t.value = ['/']) then
      match parsePower fuel toks (i + 1) with
      | .error e => .error e
      | .ok (right, i1) =>
        parseTermLoop fuel toks (.binaryOp (t.value.headD '*') node right) i1
    else .ok (node, i)
termination_by structural fuel _ _ _ => fuel

/-- `_parse_power`: right-associative `^`. -/
def parsePower : ℕ → List Token → ℕ → Except FormulaErr (Ast × ℕ)
  | 0, _, _ => .error .fuelExhausted
  | fuel + 1, toks, i =>
    match parseUnary fuel toks i with
    | .error e => .error e
    | .ok (node, i1) =>
      let t := peekTok toks i1
      if t.type = .OP ∧ t.value = ['^'] then
        match parsePower fuel toks (i1 + 1) with
        | .error e => .error e
        | .ok (right, i2) => .ok (.binaryOp '^' node right, i2)
      else .ok (node, i1)
termination_by structural fuel _ _ => fuel

/-- `_parse_unary`. -/
def parseUnary : ℕ → List Token → ℕ → Except FormulaErr (Ast × ℕ)
  | 0, _, _ => .error .fuelExhausted
  | fuel + 1, toks, i =>
    let t := peekTok toks i
    if t.type = .OP ∧ (t.value = ['+'] ∨ t.value = ['-']) then
      match parseUnary fuel toks (i + 1) with
      | .error e => .error e
      | .ok (operand, i1) => .ok (.unaryOp (t.value.headD '+') operand, i1)
    else parsePrimary fuel toks i
termination_by structural fuel _ _ => fuel

/-- `_parse_primary`. -/
def parsePrimary : ℕ → List Token → ℕ → Except FormulaErr (Ast × ℕ)
  | 0, _, _ => .error .fuelExhausted
  | fuel + 1, toks, i =>
    let t := peekTok toks i
    if t.type = .NUMBER then .ok (.number (parseDecimalToken t.value), i + 1)
    else if t.type = .CELL then parseReference fuel toks i Option.none
    else if t.type = .IDENT then
      let upper := t.value.map pyUpperChar
      if (upper = s2l ("COL") ∨ upper = s2l ("ROW")) ∧
          (peekTok toks (i + 1)).type = .lparen then
        parseColRowFunction fuel toks i
      else if (peekTok toks (i + 1)).type = .lparen then
        parseFunctionCall fuel toks i
      else if t.value.contains '.' then
        let pair := splitFirstDot t.value
        if pair.1 = [] ∨ pair.2 = [] then .error .invalidTableReference
        else if (peekTok toks (i + 1)).type = .lbrack then
          parseTableRegionReference fuel toks (i + 1) pair.1 pair.2
        else parseTableDotReference fuel toks (i + 1) pair.1 pair.2
      else if (peekTok toks (i + 1)).type = .lbrack then
        parseReference fuel toks i Option.none
      else if upper = s2l ("TRUE") ∨ upper = s2l ("FALSE") then
        .ok (.boolLit (upper = s2l ("TRUE")), i + 1)
      else if t.type = .lparen then .error (.unexpectedToken t.pos)
      else .error (.unexpectedToken t.pos)
    else if t.type = .lparen then
      match parseExpression fuel toks (i + 1) with
      | .error e => .error e
      | .ok (expr, i1) =>
        if (peekTok toks i1).type = .rparen then .ok (expr, i1 + 1)
        else .error .expectedSyntax
    else .error (.unexpectedToken t.pos)
termination_by structural fuel _ _ => fuel

/-- `_parse_function_call`. -/
def parseFunctionCall (fuel : ℕ) (toks : List Token) (i : ℕ) :
    Except FormulaErr (Ast × ℕ) :=
  match fuel with
  | 0 => .error .fuelExhausted
  | fuel + 1 =>
    let name := (peekTok toks i).value
    if (peekTok toks (i + 1)).type ≠ .lparen then .error .expectedSyntax
    else if (peekTok toks (i + 2)).type = .rparen then
      .ok (.funcCall name .nil, i + 3)
    else
      match parseFuncArgs fuel toks (i + 2) with
      | .error e => .error e
      | .ok (args, i1) => .ok (.funcCall name args, i1)
termination_by structural fuel

/-- The argument loop of `_parse_function_call` (at least one argument). -/
def parseFuncArgs (fuel : ℕ) (toks : List Token) (i : ℕ) :
    Except FormulaErr (AstList × ℕ) :=
  match fuel with
  | 0 => .error .fuelExhausted
  | fuel + 1 =>
    match parseExpression fuel toks i with
    | .error e => .error e
    | .ok (arg, i1) =>
      if (peekTok toks i1).type = .rparen then .ok (.cons arg .nil, i1 + 1)
      else if (peekTok toks i1).type = .comma then
        match parseFuncArgs fuel toks (i1 + 1) with
        | .error e => .error e
        | .ok (args, i2) => .ok (.cons arg args, i2)
      else .error .expectedSyntax
termination_by structural fuel

/-- `_parse_reference` (no table qualifier set by `_parse_primary` in this
code base; the `table_id` parameter mirrors the Python default). -/
def parseReference (fuel : ℕ) (toks : List Token) (i : ℕ)
    (table_id : Option Str) : Except FormulaErr (Ast × ℕ) :=
  match fuel with
  | 0 => .error .fuelExhausted
  | fuel + 1 =>
    let t := peekTok toks i
    if t.type = .IDENT ∧ (peekTok toks (i + 1)).type = .lbrack then
      let region := t.value
      match parseCellTokenAt fuel toks (i + 2) with
      | .error e => .error e
      | .ok (startCell, i1) =>
        if (peekTok toks i1).type = .colon then
          match parseCellTokenAt fuel toks (i1 + 1) with
          | .error e => .error e
          | .ok (endCell, i2) =>
            if (peekTok toks i2).type = .rbrack then
              if startCell = endCell then
                .ok (.cellRefNode table_id region startCell, i2 + 1)
              else
                .ok (.rangeRefNode table_id region startCell endCell, i2 + 1)
            else .error .expectedSyntax
        else if (peekTok toks i1).type = .rbrack then
          .ok (.cellRefNode table_id region startCell, i1 + 1)
        else .error .expectedSyntax
    else if t.type = .IDENT ∧ (peekTok toks (i + 1)).type ≠ .lbrack ∧
        table_id.isSome then
      match parseColumnLabelTok t with
      | .error e => .error e
      | .ok col => .ok (.columnRefNode table_id (s2l ("body")) col, i + 1)
    else if t.type = .CELL then
      match parseCellTokenAt fuel toks i with
      | .error e => .error e
      | .ok (startCell, i1) =>
        if (peekTok toks i1).type = .colon then
          match parseCellTokenAt fuel toks (i1 + 1) with
          | .error e => .error e
          | .ok (endCell, i2) =>
            if startCell = endCell then
              .ok (.cellRefNode table_id (s2l ("body")) startCell, i2)
            else
              .ok (.rangeRefNode table_id (s2l ("body")) startCell endCell, i2)
        else .ok (.cellRefNode table_id (s2l ("body")) startCell, i1)
    else .error .invalidReference

/-- `_parse_table_region_reference`. -/
def parseTableRegionReference (fuel : ℕ) (toks : List Token) (i : ℕ)
    (table_id : Str) (region : Str) : Except FormulaErr (Ast × ℕ) :=
  match fuel with
  | 0 => .error .fuelExhausted
  | fuel + 1 =>
    if (peekTok toks i).type ≠ .lbrack then .error .expectedSyntax
    else
      match parseCellTokenAt fuel toks (i + 1) with
      | .error e => .error e
      | .ok (startCell, i1) =>
        if (peekTok toks i1).type = .colon then
          match parseCellTokenAt fuel toks (i1 + 1) with
          | .error e => .error e
          | .ok (endCell, i2) =>
            if (peekTok toks i2).type = .rbrack then
              if startCell = endCell then
                .ok (.cellRefNode (some table_id) region startCell, i2 + 1)
              else
                .ok (.rangeRefNode (some table_id) region startCell endCell,
                  i2 + 1)
            else .error .expectedSyntax
        else if (peekTok toks i1).type = .rbrack then
          .ok (.cellRefNode (some table_id) region startCell, i1 + 1)
        else .error .expectedSyntax

/-- `_parse_table_dot_reference`. -/
def parseTableDotReference (fuel : ℕ) (toks : List Token) (i : ℕ)
    (table_id : Str) (ref : Str) : Except FormulaErr (Ast × ℕ) :=
  match fuel with
  | 0 => .error .fuelExhausted
  | fuel + 1 =>
    match parseCellString ref with
    | .ok startCell =>
      if (peekTok toks i).type = .colon then
        match parseCellTokenAt fuel toks (i + 1) with
        | .error e => .error e
        | .ok (endCell, i1) =>
          if startCell = endCell then
            .ok (.cellRefNode (some table_id) (s2l ("body")) startCell, i1)
          else
            .ok (.rangeRefNode (some table_id) (s2l ("body")) startCell endCell,
              i1)
      else .ok (.cellRefNode (some table_id) (s2l ("body")) startCell, i)
    | .error _ =>
      if ref ≠ [] ∧ ref.all pyIsAlpha then
        match column_index ref with
        | .error _ => .error .invalidReference
        | .ok col => .ok (.columnRefNode (some table_id) (s2l ("body")) col, i)
      else if ref ≠ [] ∧ ref.all pyIsDigit then
        .ok (.rowRefNode (some table_id) (s2l ("body")) (parseNatDigits ref), i)
      else .error .invalidReference

/-- `_parse_cell_token`: advance and decode a CELL token. -/
def parseCellTokenAt (fuel : ℕ) (toks : List Token) (i : ℕ) :
    Except FormulaErr (CellRef × ℕ) :=
  match fuel with
  | 0 => .error .fuelExhausted
  | _ + 1 =>
    let t := peekTok toks i
    if t.type ≠ .CELL then .error .invalidCellReferenceF
    else
      match parseCellString t.value with
      | .error e => .error e
      | .ok cell => .ok (cell, i + 1)

/-- `_parse_col_row_function`. -/
def parseColRowFunction (fuel : ℕ) (toks : List Token) (i : ℕ) :
    Except FormulaErr (Ast × ℕ) :=
  match fuel with
  | 0 => .error .fuelExhausted
  | fuel + 1 =>
    let name := (peekTok toks i).value.map pyUpperChar
    if (peekTok toks (i + 1)).type ≠ .lparen then .error .expectedSyntax
    else
      let t := peekTok toks (i + 2)
      if name = s2l ("COL") then
        if t.type = .CELL then
          match parseCellTokenAt fuel toks (i + 2) with
          | .error e => .error e
          | .ok (cell, i1) =>
            if (peekTok toks i1).type = .rparen then
              .ok (.columnRefNode Option.none (s2l ("body")) cell.col, i1 + 1)
            else .error .expectedSyntax
        else if t.type = .IDENT then
          match parseColumnLabelTok t with
          | .error e => .error e
          | .ok col =>
            if (peekTok toks (i + 3)).type = .rparen then
              .ok (.columnRefNode Option.none (s2l ("body")) col, i + 4)
            else .error .expectedSyntax
        else .error .invalidColumnReference
      else if name = s2l ("ROW") then
        if t.type = .CELL then
          match parseCellTokenAt fuel toks (i + 2) with
          | .error e => .error e
          | .ok (cell, i1) =>
            if (peekTok toks i1).type = .rparen then
              .ok (.rowRefNode Option.none (s2l ("body")) cell.row, i1 + 1)
            else .error .expectedSyntax
        else if t.type = .NUMBER then
          match parseRowNumberTok t with
          | .error e => .error e
          | .ok row =>
            if (peekTok toks (i + 3)).type = .rparen then
              .ok (.rowRefNode Option.none (s2l ("body")) row, i + 4)
            else .error .expectedSyntax
        else .error .invalidRowReference
      else .error .unknownFunction

end

/-- Strip a leading `=` (and surrounding whitespace), as the
`FormulaParser` constructor does. -/
def formulaBody (text : Str) : Str :=
  let trimmed := strip text
  match trimmed with
  | '=' :: rest => strip rest
  | _ => trimmed

/-- `FormulaParser(text).parse()`: tokenize, parse one expression, reject
trailing tokens.  The fuel `8 * (tokens + 1)` over-approximates the call
depth of the recursive-descent parser, which consumes at least one token
for every constant number of nested calls. -/
def parse_formula (text : Str) : Except FormulaErr Ast :=
  let body := formulaBody text
  match _tokenize_formula body with
  | .error e => .error e
  | .ok toks =>
    if (peekTok toks 0).type = .EOF then .error .emptyFormula
    else
      match parseExpression (8 * (toks.length + 1)) toks 0 with
      | .error e => .error e
      | .ok (expr, i1) =>
        if (peekTok toks i1).type ≠ .EOF then
          .error (.unexpectedToken (peekTok toks i1).pos)
        else .ok expr

/-! ## Document model: sheets and projects -/

structure Sheet where
  id : Str
  name : Str
  tables : List Table

/-- A project.  The `counter` field carries the process-global
`_FORMULA_ORDER_COUNTER` (one logical counter per run). -/
structure Project where
  sheets : List Sheet
  counter : ℕ

/-- `Project.table(table_id)`: first table with the given id, scanning
sheets in order (`KeyError` if absent, modelled as `Option.none`). -/
def findTable (p : Project) (table_id : Str) : Option Table :=
  (p.sheets.flatMap (fun s => s.tables)).find? (fun t => t.id == table_id)

/-- A table position inside the project: (sheet index, table index).
Mutation of `self` in Python is modelled as in-place update at the home
table's position. -/
abbrev Loc := ℕ × ℕ

def listModify {α : Type} : List α → ℕ → (α → α) → List α
  | [], _, _ => []
  | a :: t, 0, f => f a :: t
  | a :: t, n + 1, f => a :: listModify t n f

def tableAt (p : Project) (loc : Loc) : Option Table :=
  (p.sheets.get? loc.1).bind (fun s => s.tables.get? loc.2)

def modifyTableAt (p : Project) (loc : Loc) (f : Table → Table) : Project :=
  let newSheets := listModify p.sheets loc.1
    (fun s => { s with tables := listModify s.tables loc.2 f })
  { p with sheets := newSheets }

/-! ## Evaluation context and reference resolution -/

/-- Errors that can occur while evaluating an already-parsed formula
(`apply_formula_entry` catches them all per target cell). -/
inductive EvalErr
  | outOfBounds
  | unknownTable
  | expectedNumeric
  | expectedScalar
  | divisionByZero
  | arityError
  | unknownFunction
  | domainError
  | columnNeedsBody
  | rowNeedsBody
  | invalidFormula
  | missingHomeTable
  deriving DecidableEq, Repr

/-- `FormulaContext`: the project and home table are threaded separately
(the home table as a position, so that writes during a formula pass are
visible to subsequent reads exactly as Python's object aliasing makes
them). -/
structure FormulaContext where
  homeLoc : Loc
  anchor_row : ℕ
  anchor_col : ℕ
  target_row : ℕ
  target_col : ℕ
  deriving DecidableEq, Repr

/-- `_resolve_cell_ref`: relative coordinates shift by
`target - anchor`, absolute ones do not; a negative resolved coordinate
fails with the out-of-bounds `FormulaError`. -/
def _resolve_cell_ref (cell : CellRef) (context : FormulaContext) :
    Except EvalErr (ℕ × ℕ) :=
  let row_offset : ℤ := (context.target_row : ℤ) - (context.anchor_row : ℤ)
  let col_offset : ℤ := (context.target_col : ℤ) - (context.anchor_col : ℤ)
  let row : ℤ := if cell.row_abs then (cell.row : ℤ) else (cell.row : ℤ) + row_offset
  let col : ℤ := if cell.col_abs then (cell.col : ℤ) else (cell.col : ℤ) + col_offset
  if row < 0 ∨ col < 0 then .error .outOfBounds
  else .ok (row.toNat, col.toNat)

/-- `_resolve_table`: unqualified references use the context's home table;
qualified ones look the id up in the project. -/
def _resolve_table (p : Project) (context : FormulaContext)
    (table_id : Option Str) : Except EvalErr Table :=
  match table_id with
  | Option.none =>
    match tableAt p context.homeLoc with
    | some t => .ok t
    | Option.none => .error .missingHomeTable
  | some tid =>
    match findTable p tid with
    | some t => .ok t
    | Option.none => .error .unknownTable

/-- `_cell_value`: read and unwrap; a missing key reads as Python `None`
(the empty value). -/
def _cell_value (t : Table) (region : Str) (row col : ℕ) : PyVal :=
  unwrap_value ((dget t.cell_values (address region row col)).getD .none)

/-- `List.range'`-based row of reads for `_range_values`. -/
def rangeReadRow (t : Table) (region : Str) (row colStart colEnd : ℕ) :
    List PyVal :=
  (List.range' colStart (colEnd + 1 - colStart)).map
    (fun col => _cell_value t region row col)

/-- `_range_values`: resolve both endpoints, sort each axis, read the
rectangle. -/
def _range_values (t : Table) (region : Str) (startCell endCell : CellRef)
    (context : FormulaContext) : Except EvalErr (List (List PyVal)) :=
  match _resolve_cell_ref startCell context with
  | .error e => .error e
  | .ok (start_row, start_col) =>
    match _resolve_cell_ref endCell context with
    | .error e => .error e
    | .ok (end_row, end_col) =>
      let row_start := min start_row end_row
      let row_end := max start_row end_row
      let col_start := min start_col end_col
      let col_end := max start_col end_col
      .ok ((List.range' row_start (row_end + 1 - row_start)).map
        (fun row => rangeReadRow t region row col_start col_end))

/-- `_column_values`: only the body region, over the current `bodyRows`. -/
def _column_values (t : Table) (region : Str) (col : ℕ) :
    Except EvalErr (List PyVal) :=
  if region ≠ s2l ("body") then .error .columnNeedsBody
  else .ok ((List.range t.grid_spec.bodyRows.toNat).map
    (fun row => _cell_value t region row col))

/-- `_row_values`. -/
def _row_values (t : Table) (region : Str) (row : ℕ) :
    Except EvalErr (List PyVal) :=
  if region ≠ s2l ("body") then .error .rowNeedsBody
  else .ok ((List.range t.grid_spec.bodyCols.toNat).map
    (fun col => _cell_value t region row col))

/-! ### C5 / C10: reference resolution and reads -/

/-- The row the spec says a cell reference resolves to:
`cell.row if rowAbsolute else cell.row + (targetRow - anchorRow)`. -/
def specResolvedRow (cell : CellRef) (c : FormulaContext) : ℤ :=
  if cell.row_abs then (cell.row : ℤ)
  else (cell.row : ℤ) + ((c.target_row : ℤ) - (c.anchor_row : ℤ))

/-- Symmetric column form. -/
def specResolvedCol (cell : CellRef) (c : FormulaContext) : ℤ :=
  if cell.col_abs then (cell.col : ℤ)
  else (cell.col : ℤ) + ((c.target_col : ℤ) - (c.anchor_col : ℤ))

theorem resolve_cell_ref_spec (cell : CellRef) (context : FormulaContext) :
    (specResolvedRow cell context < 0 ∨ specResolvedCol cell context < 0 →
      _resolve_cell_ref cell context = .error .outOfBounds) ∧
    (0 ≤ specResolvedRow cell context → 0 ≤ specResolvedCol cell context →
      _resolve_cell_ref cell context =
        .ok ((specResolvedRow cell context).toNat,
          (specResolvedCol cell context).toNat)) := by
  unfold _resolve_cell_ref specResolvedRow specResolvedCol
  constructor
  · intro h
    rw [if_pos h]
  · intro h1 h2
    rw [if_neg (by omega)]

/-- C5: a cell reference resolves to `cell.row` when the row is absolute and
to `cell.row + (targetRow - anchorRow)` otherwise (symmetrically for the
column); a negative resolved coordinate fails with the out-of-bounds error;
a range reference resolves both endpoints this way and normalizes them so
start ≤ end on each axis before reading the rectangle of (unwrapped) cell
values. -/
theorem claim_C5_reference_resolution :
    (∀ (cell : CellRef) (context : FormulaContext),
      (_resolve_cell_ref cell context = .error .outOfBounds ↔
        specResolvedRow cell context < 0 ∨ specResolvedCol cell context < 0) ∧
      (∀ r c : ℕ, _resolve_cell_ref cell context = .ok (r, c) ↔
        ((r : ℤ) = specResolvedRow cell context ∧
         (c : ℤ) = specResolvedCol cell context ∧
         0 ≤ specResolvedRow cell context ∧
         0 ≤ specResolvedCol cell context))) ∧
    (∀ (t : Table) (region : Str) (startCell endCell : CellRef)
        (context : FormulaContext) (r1 c1 r2 c2 : ℕ),
      _resolve_cell_ref startCell context = .ok (r1, c1) →
      _resolve_cell_ref endCell context = .ok (r2, c2) →
      ∃ m : List (List PyVal),
        _range_values t region startCell endCell context = .ok m ∧
        m.length = max r1 r2 + 1 - min r1 r2 ∧
        (∀ i : ℕ, ∀ hi : i < m.length,
          (m.get ⟨i, hi⟩).length = max c1 c2 + 1 - min c1 c2 ∧
          (∀ j : ℕ, ∀ hj : j < (m.get ⟨i, hi⟩).length,
            (m.get ⟨i, hi⟩).get ⟨j, hj⟩ =
              _cell_value t region (min r1 r2 + i) (min c1 c2 + j)))) := by
  constructor
  · intro cell context
    have hspec := resolve_cell_ref_spec cell context
    constructor
    · constructor
      · intro h
        by_contra hneg
        push_neg at hneg
        rw [hspec.2 (by omega) (by omega)] at h
        exact Except.noConfusion h
      · exact hspec.1
    · intro r c
      constructor
      · intro h
        by_cases hneg : specResolvedRow cell context < 0 ∨
            specResolvedCol cell context < 0
        · rw [hspec.1 hneg] at h
          exact Except.noConfusion h
        · push_neg at hneg
          rw [hspec.2 (by omega) (by omega)] at h
          injection h with h2
          injection h2 with ha hb
          subst ha
          subst hb
          refine ⟨by omega, by omega, by omega, by omega⟩
      · intro ⟨ha, hb, hc, hd⟩
        have hr : (specResolvedRow cell context).toNat = r := by omega
        have hcn : (specResolvedCol cell context).toNat = c := by omega
        rw [hspec.2 hc hd, hr, hcn]
  · intro t region startCell endCell context r1 c1 r2 c2 h1 h2
    unfold _range_values
    rw [h1, h2]
    refine ⟨_, rfl, ?_, ?_⟩
    · simp [List.length_range']
    · intro i hi
      simp only [List.length_map, List.length_range'] at hi
      constructor
      · simp [rangeReadRow, List.get_eq_getElem, List.getElem_map,
          List.length_range']
      · intro j hj
        simp only [List.get_eq_getElem, List.getElem_map, List.getElem_range',
          rangeReadRow]
        simp only [rangeReadRow, List.get_eq_getElem, List.getElem_map,
          List.length_range', List.length_map] at hj
        simp [List.getElem_map, List.getElem_range']

/-- Witness for C5: a relative reference `B1` evaluated at anchor `(0,0)`,
target `(2,0)` resolves to row 3, col 1; a 2×1 range read on an empty table
reads empty values. -/
theorem claim_C5_witness :
    (_resolve_cell_ref ⟨1, 1, false, false⟩ ⟨(0, 0), 0, 0, 2, 0⟩ =
        .ok (3, 1) ↔
      ((3 : ℕ) : ℤ) = specResolvedRow ⟨1, 1, false, false⟩ ⟨(0, 0), 0, 0, 2, 0⟩ ∧
      ((1 : ℕ) : ℤ) = specResolvedCol ⟨1, 1, false, false⟩ ⟨(0, 0), 0, 0, 2, 0⟩ ∧
      0 ≤ specResolvedRow ⟨1, 1, false, false⟩ ⟨(0, 0), 0, 0, 2, 0⟩ ∧
      0 ≤ specResolvedCol ⟨1, 1, false, false⟩ ⟨(0, 0), 0, 0, 2, 0⟩) ∧
    ∃ m : List (List PyVal),
      _range_values testTable1x1 (s2l ("body")) ⟨1, 0, false, false⟩
          ⟨0, 0, false, false⟩ ⟨(0, 0), 0, 0, 0, 0⟩ = .ok m ∧
      m.length = 2 := by
  constructor
  · exact (claim_C5_reference_resolution.1 ⟨1, 1, false, false⟩
      ⟨(0, 0), 0, 0, 2, 0⟩).2 3 1
  · rcases claim_C5_reference_resolution.2 testTable1x1 (s2l ("body"))
      ⟨1, 0, false, false⟩ ⟨0, 0, false, false⟩ ⟨(0, 0), 0, 0, 0, 0⟩
      1 0 0 0 rfl rfl with ⟨m, hm, hlen, _⟩
    exact ⟨m, hm, by omega⟩

/-- C10: reading a resolved reference never fails for non-negative
coordinates — resolution rejects only negative resolved coordinates, a
missing stored value reads as the empty value `None`, and neither
single-cell nor rectangle reads consult the grid's current
`bodyRows`/`bodyCols` (a position beyond the current bounds reads like any
other missing key). -/
theorem claim_C10_reads_total :
    (∀ (cell : CellRef) (context : FormulaContext) (e : EvalErr),
      _resolve_cell_ref cell context = .error e →
      e = .outOfBounds ∧
        (specResolvedRow cell context < 0 ∨ specResolvedCol cell context < 0)) ∧
    (∀ (t : Table) (region : Str) (row col : ℕ),
      dget t.cell_values (address region row col) = Option.none →
      _cell_value t region row col = .none) ∧
    (∀ (t : Table) (g : GridSpec) (region : Str) (row col : ℕ),
      _cell_value { t with grid_spec := g } region row col =
        _cell_value t region row col) ∧
    (∀ (t : Table) (g : GridSpec) (region : Str) (startCell endCell : CellRef)
        (context : FormulaContext),
      _range_values { t with grid_spec := g } region startCell endCell context =
        _range_values t region startCell endCell context) ∧
    (∀ (t : Table) (region : Str) (startCell endCell : CellRef)
        (context : FormulaContext) (rs cs : ℕ × ℕ),
      _resolve_cell_ref startCell context = .ok rs →
      _resolve_cell_ref endCell context = .ok cs →
      ∃ m, _range_values t region startCell endCell context = .ok m) := by
  refine ⟨?_, ?_, ?_, ?_, ?_⟩
  · intro cell context e h
    have hspec := resolve_cell_ref_spec cell context
    by_cases hneg : specResolvedRow cell context < 0 ∨
        specResolvedCol cell context < 0
    · rw [hspec.1 hneg] at h
      injection h with he
      exact ⟨he.symm, hneg⟩
    · push_neg at hneg
      rw [hspec.2 (by omega) (by omega)] at h
      exact Except.noConfusion h
  · intro t region row col h
    unfold _cell_value
    rw [h]
    rfl
  · intro t g region row col
    rfl
  · intro t g region startCell endCell context
    rfl
  · intro t region startCell endCell context rs cs h1 h2
    rcases rs with ⟨r1, c1⟩
    rcases cs with ⟨r2, c2⟩
    rcases claim_C5_reference_resolution.2 t region startCell endCell context
      r1 c1 r2 c2 h1 h2 with ⟨m, hm, _⟩
    exact ⟨m, hm⟩

/-- Witness for C10 at a concrete out-of-bounds-free read: a cell far
beyond the 1×1 test grid reads as the empty value. -/
theorem claim_C10_witness :
    dget testTable1x1.cell_values (address (s2l ("body")) 7 9) = Option.none ∧
    _cell_value testTable1x1 (s2l ("body")) 7 9 = .none :=
  ⟨rfl, claim_C10_reads_total.2.1 testTable1x1 (s2l ("body")) 7 9 rfl⟩

/-! ## Numeric coercion and the function library -/

/-- Float division; a zero divisor raises `ZeroDivisionError` (also when
the dividend is `nan`). -/
def qfDivE : QF → QF → Except EvalErr QF
  | _, .q 0 => .error .divisionByZero
  | .q a, .q b => .ok (.q (a / b))
  | _, _ => .ok .nan

mutual

/-- `_iter_values`: flatten an argument.  A numpy array yields its items
without recursion (`.flat` over a 1-D object array); lists and tuples
recurse; scalars yield themselves. -/
def flattenVal : PyVal → List PyVal
  | .nparray vs => vs
  | .list vs => flattenList vs
  | v => [v]

def flattenList : List PyVal → List PyVal
  | [] => []
  | v :: t => flattenVal v ++ flattenList t

end

def pyLowerChar (c : Char) : Char :=
  if 'A' ≤ c && c ≤ 'Z' then Char.ofNat (c.toNat + 32) else c

/-- Model of `float(s)` for strings: optional sign, decimal digits with an
optional point and an optional exponent; `nan` (any case) parses to `nan`.
Not modelled (parse as failure): `inf`/`infinity` (no IEEE infinity in the
rational model) and underscore separators — no claim evaluates them. -/
def pyParseFloat (s : Str) : Option QF :=
  let t := strip s
  let sign : ℚ × Str := match t with
    | '+' :: r => (1, r)
    | '-' :: r => (-1, r)
    | _ => (1, t)
  let body := sign.2
  if body.map pyLowerChar = s2l ("nan") then some .nan
  else
    let intPart := body.takeWhile pyIsDigit
    let r1 := body.drop intPart.length
    let hasDot : Bool := match r1 with
      | '.' :: _ => true
      | _ => false
    let fracPart := (if hasDot then r1.drop 1 else r1).takeWhile pyIsDigit
    let r2 := if hasDot then (r1.drop 1).drop fracPart.length else r1
    if intPart = [] ∧ (¬ hasDot ∨ fracPart = []) then Option.none
    else
      let mantissa : ℚ :=
        sign.1 * ((parseNatDigits intPart : ℚ) +
          (parseNatDigits fracPart : ℚ) / (10 ^ fracPart.length))
      match r2 with
      | [] => some (.q mantissa)
      | e :: r3 =>
        if e = 'e' ∨ e = 'E' then
          let esign : ℤ × Str := match r3 with
            | '+' :: r => (1, r)
            | '-' :: r => (-1, r)
            | _ => (1, r3)
          let eDigits := esign.2.takeWhile pyIsDigit
          if eDigits = [] ∨ esign.2.drop eDigits.length ≠ [] then Option.none
          else some (.q (mantissa * (10 : ℚ) ^ (esign.1 * parseNatDigits eDigits)))
        else Option.none

/-- `_coerce_number`: `None`, dates, times, dicts, lists and non-numeric
strings coerce to nothing; booleans to 0/1; numbers to themselves (`nan` is
a float and therefore coercible). -/
def _coerce_number : PyVal → Option QF
  | .none => Option.none
  | .bool b => some (.q (if b then 1 else 0))
  | .num x => some x
  | .str s => pyParseFloat s
  | _ => Option.none

/-- `_require_number`. -/
def _require_number (v : PyVal) : Except EvalErr QF :=
  match _coerce_number v with
  | some x => .ok x
  | Option.none => .error .expectedNumeric

/-- `_numeric_values` on one argument object. -/
def _numeric_values (v : PyVal) : List QF :=
  (flattenVal v).filterMap _coerce_number

/-- `args[0] if len(args) == 1 else list(args)` — the argument-collapsing
prelude shared by the reducers. -/
def argValues (args : List PyVal) : PyVal :=
  match args with
  | [v] => v
  | vs => .list vs

def qfSum (l : List QF) : QF := l.foldl qfAdd (.q 0)

/-- Python `min(iterable)` on floats: first element, then replace whenever
a later element compares `<` (so a leading `nan` sticks). -/
def pyMinList (x : QF) (rest : List QF) : QF :=
  rest.foldl (fun cur y => if qfLt y cur then y else cur) x

def pyMaxList (x : QF) (rest : List QF) : QF :=
  rest.foldl (fun cur y => if qfLt cur y then y else cur) x

/-- `cs_sum` (the `axis=None` path; the evaluator never passes `axis`). -/
def cs_sum (args : List PyVal) : PyVal :=
  .num (qfSum (_numeric_values (argValues args)))

/-- `cs_avg`: `nan` on an empty numeric set. -/
def cs_avg (args : List PyVal) : PyVal :=
  let numbers := _numeric_values (argValues args)
  if numbers.isEmpty then .num .nan
  else .num (qfDivNat (qfSum numbers) numbers.length)

/-- `cs_min`: `None` on an empty numeric set. -/
def cs_min (args : List PyVal) : PyVal :=
  match _numeric_values (argValues args) with
  | [] => .none
  | x :: rest => .num (pyMinList x rest)

/-- `cs_max`. -/
def cs_max (args : List PyVal) : PyVal :=
  match _numeric_values (argValues args) with
  | [] => .none
  | x :: rest => .num (pyMaxList x rest)

/-- `cs_count`: number of numeric-coercible flattened elements. -/
def cs_count (args : List PyVal) : PyVal :=
  .num (.q (((flattenVal (argValues args)).filter
    (fun v => (_coerce_number v).isSome)).length))

/-- `cs_counta`: elements that are neither `None` nor `""` (Python `in`
compares with `==`). -/
def cs_counta (args : List PyVal) : PyVal :=
  .num (.q (((flattenVal (argValues args)).filter
    (fun v => ¬ (pyEq v .none || pyEq v (.str [])))).length))

/-- `cs_if`; for an array condition `np.where` selects elementwise. -/
def cs_if (condition true_value false_value : PyVal) : PyVal :=
  match condition with
  | .nparray vs =>
    .nparray (vs.map (fun c => if pyTruthy c then true_value else false_value))
  | c => if pyTruthy c then true_value else false_value

def cs_and (args : List PyVal) : PyVal :=
  .bool ((flattenVal (argValues args)).all pyTruthy)

def cs_or (args : List PyVal) : PyVal :=
  .bool ((flattenVal (argValues args)).any pyTruthy)

def cs_not (v : PyVal) : PyVal := .bool (! pyTruthy v)

/-- Float exponentiation `a ** b` / `math.pow`.  Exact for integer
exponents; `0 ** negative` raises; a negative base with a fractional
exponent raises; other fractional powers are irrational in general and
modelled as `nan` (no claim evaluates one). -/
def qfPowE : QF → QF → Except EvalErr QF
  | .q a, .q b =>
    if b.den = 1 then
      if a = 0 ∧ b.num < 0 then .error .divisionByZero
      else .ok (.q (a ^ b.num))
    else
      if a < 0 then .error .domainError
      else .ok .nan
  | _, .q b => if b = 0 then .ok (.q 1) else .ok .nan
  | _, _ => .ok .nan

/-- `int(x)` on a float: truncation toward zero; `int(nan)` raises. -/
def intOfQF : QF → Except EvalErr ℤ
  | .nan => .error .domainError
  | .q x => .ok (if 0 ≤ x then ⌊x⌋ else -⌊-x⌋)

/-- `cs_pmt`. -/
def cs_pmt (rate nper pv fv when_ : PyVal) : Except EvalErr PyVal := do
  let rate_num ← _require_number rate
  let nper_num ← _require_number nper
  let pv_num ← _require_number pv
  let fv_num ← _require_number fv
  let when_num ← _require_number when_
  if qfEq nper_num (.q 0) then .error .divisionByZero
  else if qfEq rate_num (.q 0) then
    match pv_num, fv_num, nper_num with
    | .q p, .q f, .q n => .ok (.num (.q (-(p + f) / n)))
    | _, _, _ => .ok (.num .nan)
  else do
    let factor ← qfPowE (qfAdd (.q 1) rate_num) nper_num
    let denom := qfMul (qfAdd (.q 1) (qfMul rate_num when_num))
      (qfSub factor (.q 1))
    if qfEq denom (.q 0) then .error .divisionByZero
    else
      match qfMul rate_num (qfAdd fv_num (qfMul pv_num factor)), denom with
      | .q num, .q den => .ok (.num (.q (-num / den)))
      | _, _ => .ok (.num .nan)

/-- `_ensure_scalar`: a 1-element array unwraps to its item; a 1-element
list to its element unless that element is itself list-like; anything else
multi-element fails. -/
def _ensure_scalar (v : PyVal) : Except EvalErr PyVal :=
  match v with
  | .nparray [x] => .ok x
  | .nparray _ => .error .expectedScalar
  | .list [x] =>
    match x with
    | .list _ => .error .expectedScalar
    | .nparray _ => .error .expectedScalar
    | x => .ok x
  | .list _ => .error .expectedScalar
  | v => .ok v

/-! ### Scalar/array math (`cs_abs` … `cs_tan`)

The array branches model `_to_numeric_array` as an elementwise coercion
with `nan` for non-coercible entries (shape covenants of numpy are
irrelevant to the claims).  For irrational values the rational model
returns `nan` — see each function's comment; no claim evaluates one. -/

mutual

def mapNums (f : QF → QF) : PyVal → PyVal
  | .list vs => .list (mapNumsList f vs)
  | .nparray vs => .nparray (mapNumsList f vs)
  | v => .num (f ((_coerce_number v).getD .nan))

def mapNumsList (f : QF → QF) : List PyVal → List PyVal
  | [] => []
  | v :: t => mapNums f v :: mapNumsList f t

end

/-- All coerced numbers of an array argument (`nan` for non-coercible). -/
def arrNums (v : PyVal) : List QF :=
  (flattenVal v).map (fun x => (_coerce_number x).getD .nan)

def isArrayLike : PyVal → Bool
  | .list _ => true
  | .nparray _ => true
  | _ => false

def qfAbs : QF → QF
  | .q a => .q |a|
  | .nan => .nan

def cs_abs (v : PyVal) : Except EvalErr PyVal :=
  if isArrayLike v then .ok (mapNums qfAbs v)
  else
    match _require_number v with
    | .error e => .error e
    | .ok n => .ok (.num (qfAbs n))

/-- Banker's rounding of `x` to `d` decimal digits (Python `round`). -/
def bankersRound (x : ℚ) (d : ℤ) : ℚ :=
  let scale : ℚ := (10 : ℚ) ^ d
  let y := x * scale
  let f : ℤ := ⌊y⌋
  let frac := y - f
  let r : ℤ :=
    if frac < 1 / 2 then f
    else if 1 / 2 < frac then f + 1
    else if f % 2 = 0 then f else f + 1
  (r : ℚ) / scale

def qfRound (d : ℤ) : QF → QF
  | .nan => .nan
  | .q x => .q (bankersRound x d)

def cs_round (v digits : PyVal) : Except EvalErr PyVal := do
  let dq ← _require_number digits
  let d ← intOfQF dq
  if isArrayLike v then .ok (mapNums (qfRound d) v)
  else
    match (← _require_number v) with
    | .nan => .ok (.num .nan)
    | .q x => .ok (.num (.q (bankersRound x d)))

/-- `math.floor(nan)` raises; `np.floor` keeps `nan`. -/
def cs_floor (v : PyVal) : Except EvalErr PyVal :=
  if isArrayLike v then
    .ok (mapNums (fun q => match q with | .nan => .nan | .q x => .q (⌊x⌋ : ℤ)) v)
  else
    match _require_number v with
    | .error e => .error e
    | .ok .nan => .error .domainError
    | .ok (.q x) => .ok (.num (.q (⌊x⌋ : ℤ)))

def cs_ceil (v : PyVal) : Except EvalErr PyVal :=
  if isArrayLike v then
    .ok (mapNums (fun q => match q with | .nan => .nan | .q x => .q (⌈x⌉ : ℤ)) v)
  else
    match _require_number v with
    | .error e => .error e
    | .ok .nan => .error .domainError
    | .ok (.q x) => .ok (.num (.q (⌈x⌉ : ℤ)))

/-- Exact square root where the rational is a perfect square, `nan`
otherwise (the irrational case; modelled value, no claim evaluates it). -/
def qfSqrtVal (x : ℚ) : QF :=
  let ns := Nat.sqrt x.num.toNat
  let ds := Nat.sqrt x.den
  if (ns : ℤ) * ns = x.num ∧ ds * ds = x.den then .q ((ns : ℚ) / ds) else .nan

def cs_sqrt (v : PyVal) : Except EvalErr PyVal :=
  if isArrayLike v then
    if (arrNums v).any (fun q => qfLt q (.q 0)) then .error .domainError
    else .ok (mapNums (fun q => match q with | .nan => .nan | .q x => qfSqrtVal x) v)
  else
    match _require_number v with
    | .error e => .error e
    | .ok .nan => .ok (.num .nan)
    | .ok (.q x) =>
      if x < 0 then .error .domainError
      else .ok (.num (qfSqrtVal x))

def cs_pow (base exponent : PyVal) : Except EvalErr PyVal :=
  if isArrayLike base ∨ isArrayLike exponent then
    .ok (mapNums id base)
  else do
    let b ← _require_number base
    let e ← _require_number exponent
    let r ← qfPowE b e
    .ok (.num r)

/-- Natural log: exact only at `1` (modelled `nan` elsewhere). -/
def qfLogVal (x : ℚ) : QF := if x = 1 then .q 0 else .nan

def cs_log (v : PyVal) (base : Option PyVal) : Except EvalErr PyVal :=
  if isArrayLike v then
    if (arrNums v).any (fun q => match q with | .q x => x ≤ 0 | .nan => false) then
      .error .domainError
    else
      match base with
      | Option.none =>
        .ok (mapNums (fun q => match q with | .nan => .nan | .q x => qfLogVal x) v)
      | some b =>
        match _require_number b with
        | .error e => .error e
        | .ok .nan => .ok (mapNums (fun _ => .nan) v)
        | .ok (.q bq) =>
          if bq ≤ 0 ∨ bq = 1 then .error .domainError
          else .ok (mapNums (fun _ => .nan) v)
  else
    match _require_number v with
    | .error e => .error e
    | .ok .nan =>
      (match base with
      | Option.none => .ok (.num .nan)
      | some b =>
        match _require_number b with
        | .error e => .error e
        | .ok .nan => .ok (.num .nan)
        | .ok (.q bq) =>
          if bq ≤ 0 ∨ bq = 1 then .error .domainError else .ok (.num .nan))
    | .ok (.q x) =>
      if x ≤ 0 then .error .domainError
      else
        match base with
        | Option.none => .ok (.num (qfLogVal x))
        | some b =>
          match _require_number b with
          | .error e => .error e
          | .ok .nan => .ok (.num .nan)
          | .ok (.q bq) =>
            if bq ≤ 0 ∨ bq = 1 then .error .domainError
            else .ok (.num (if x = 1 then .q 0 else .nan))

def cs_log10 (v : PyVal) : Except EvalErr PyVal :=
  if isArrayLike v then
    if (arrNums v).any (fun q => match q with | .q x => x ≤ 0 | .nan => false) then
      .error .domainError
    else .ok (mapNums (fun q => match q with | .nan => .nan | .q x => qfLogVal x) v)
  else
    match _require_number v with
    | .error e => .error e
    | .ok .nan => .ok (.num .nan)
    | .ok (.q x) =>
      if x ≤ 0 then .error .domainError
      else .ok (.num (qfLogVal x))

/-- `exp`: exact only at `0`. -/
def qfExpVal : QF → QF
  | .nan => .nan
  | .q x => if x = 0 then .q 1 else .nan

def cs_exp (v : PyVal) : Except EvalErr PyVal :=
  if isArrayLike v then .ok (mapNums qfExpVal v)
  else
    match _require_number v with
    | .error e => .error e
    | .ok n => .ok (.num (qfExpVal n))

def qfSinVal : QF → QF
  | .nan => .nan
  | .q x => if x = 0 then .q 0 else .nan

def qfCosVal : QF → QF
  | .nan => .nan
  | .q x => if x = 0 then .q 1 else .nan

def qfTanVal : QF → QF
  | .nan => .nan
  | .q x => if x = 0 then .q 0 else .nan

def cs_sin (v : PyVal) : Except EvalErr PyVal :=
  if isArrayLike v then .ok (mapNums qfSinVal v)
  else
    match _require_number v with
    | .error e => .error e
    | .ok n => .ok (.num (qfSinVal n))

def cs_cos (v : PyVal) : Except EvalErr PyVal :=
  if isArrayLike v then .ok (mapNums qfCosVal v)
  else
    match _require_number v with
    | .error e => .error e
    | .ok n => .ok (.num (qfCosVal n))

def cs_tan (v : PyVal) : Except EvalErr PyVal :=
  if isArrayLike v then .ok (mapNums qfTanVal v)
  else
    match _require_number v with
    | .error e => .error e
    | .ok n => .ok (.num (qfTanVal n))

/-! ## The evaluator (`_evaluate_formula`) -/

/-- Function-name normalization: uppercase, take the part after the last
dot, alias `MEAN` to `AVERAGE`. -/
def normalizeFuncName (name : Str) : Str :=
  let upper := name.map pyUpperChar
  let base := if upper.contains '.' then (splitAll '.' upper).getLastD []
    else upper
  if base = s2l ("MEAN") then s2l ("AVERAGE") else base

/-- The name-based dispatch (arity checks fire after argument
evaluation). -/
def dispatchFunc (name : Str) (args : List PyVal) : Except EvalErr PyVal :=
  if name = s2l ("SUM") then .ok (cs_sum args)
  else if name = s2l ("AVERAGE") then .ok (cs_avg args)
  else if name = s2l ("MIN") then .ok (cs_min args)
  else if name = s2l ("MAX") then .ok (cs_max args)
  else if name = s2l ("COUNT") then .ok (cs_count args)
  else if name = s2l ("COUNTA") then .ok (cs_counta args)
  else if name = s2l ("IF") then
    match args with
    | [c, a, b] => .ok (cs_if c a b)
    | _ => .error .arityError
  else if name = s2l ("AND") then .ok (cs_and args)
  else if name = s2l ("OR") then .ok (cs_or args)
  else if name = s2l ("NOT") then
    match args with
    | [v] => .ok (cs_not v)
    | _ => .error .arityError
  else if name = s2l ("PMT") then
    match args with
    | [r, n, pv] => cs_pmt r n pv (.num (.q 0)) (.num (.q 0))
    | [r, n, pv, fv] => cs_pmt r n pv fv (.num (.q 0))
    | [r, n, pv, fv, w] => cs_pmt r n pv fv w
    | _ => .error .arityError
  else if name = s2l ("ABS") then
    match args with
    | [v] => cs_abs v
    | _ => .error .arityError
  else if name = s2l ("ROUND") then
    match args with
    | [v] => cs_round v (.num (.q 0))
    | [v, d] => cs_round v d
    | _ => .error .arityError
  else if name = s2l ("FLOOR") then
    match args with
    | [v] => cs_floor v
    | _ => .error .arityError
  else if name = s2l ("CEIL") then
    match args with
    | [v] => cs_ceil v
    | _ => .error .arityError
  else if name = s2l ("SQRT") then
    match args with
    | [v] => cs_sqrt v
    | _ => .error .arityError
  else if name = s2l ("POWER") then
    match args with
    | [b, e] => cs_pow b e
    | _ => .error .arityError
  else if name = s2l ("LOG") then
    match args with
    | [v] => cs_log v Option.none
    | [v, b] => cs_log v (some b)
    | _ => .error .arityError
  else if name = s2l ("LOG10") then
    match args with
    | [v] => cs_log10 v
    | _ => .error .arityError
  else if name = s2l ("EXP") then
    match args with
    | [v] => cs_exp v
    | _ => .error .arityError
  else if name = s2l ("SIN") then
    match args with
    | [v] => cs_sin v
    | _ => .error .arityError
  else if name = s2l ("COS") then
    match args with
    | [v] => cs_cos v
    | _ => .error .arityError
  else if name = s2l ("TAN") then
    match args with
    | [v] => cs_tan v
    | _ => .error .arityError
  else .error .unknownFunction

mutual

/-- `_evaluate_formula(node, context)`. -/
def _evaluate_formula (p : Project) (context : FormulaContext) :
    Ast → Except EvalErr PyVal
  | .number v => .ok (.num (.q v))
  | .boolLit b => .ok (.bool b)
  | .unaryOp op operand =>
    (match _evaluate_formula p context operand with
    | .error e => .error e
    | .ok v0 =>
      match _ensure_scalar v0 with
      | .error e => .error e
      | .ok v =>
        match _require_number v with
        | .error e => .error e
        | .ok n =>
          if op = '-' then .ok (.num (qfNeg n))
          else if op = '+' then .ok (.num n)
          else .error .invalidFormula)
  | .binaryOp op l r =>
    (match _evaluate_formula p context l with
    | .error e => .error e
    | .ok lv0 =>
      match _ensure_scalar lv0 with
      | .error e => .error e
      | .ok lv =>
        match _evaluate_formula p context r with
        | .error e => .error e
        | .ok rv0 =>
          match _ensure_scalar rv0 with
          | .error e => .error e
          | .ok rv =>
            match _require_number lv with
            | .error e => .error e
            | .ok ln =>
              match _require_number rv with
              | .error e => .error e
              | .ok rn =>
                if op = '+' then .ok (.num (qfAdd ln rn))
                else if op = '-' then .ok (.num (qfSub ln rn))
                else if op = '*' then .ok (.num (qfMul ln rn))
                else if op = '/' then
                  (match qfDivE ln rn with
                  | .error e => .error e
                  | .ok d => .ok (.num d))
                else if op = '^' then
                  (match qfPowE ln rn with
                  | .error e => .error e
                  | .ok d => .ok (.num d))
                else .error .invalidFormula)
  | .funcCall name args =>
    (match evalArgs p context args with
    | .error e => .error e
    | .ok argv => dispatchFunc (normalizeFuncName name) argv)
  | .cellRefNode table_id region cell =>
    (match _resolve_table p context table_id with
    | .error e => .error e
    | .ok t =>
      match _resolve_cell_ref cell context with
      | .error e => .error e
      | .ok (row, col) => .ok (_cell_value t region row col))
  | .rangeRefNode table_id region startCell endCell =>
    (match _resolve_table p context table_id with
    | .error e => .error e
    | .ok t =>
      match _range_values t region startCell endCell context with
      | .error e => .error e
      | .ok m => .ok (.list (m.map .list)))
  | .columnRefNode table_id region col =>
    (match _resolve_table p context table_id with
    | .error e => .error e
    | .ok t =>
      match _column_values t region col with
      | .error e => .error e
      | .ok vs => .ok (.nparray vs))
  | .rowRefNode table_id region row =>
    (match _resolve_table p context table_id with
    | .error e => .error e
    | .ok t =>
      match _row_values t region row with
      | .error e => .error e
      | .ok vs => .ok (.nparray vs))

def evalArgs (p : Project) (context : FormulaContext) :
    AstList → Except EvalErr (List PyVal)
  | .nil => .ok []
  | .cons a t =>
    (match _evaluate_formula p context a with
    | .error e => .error e
    | .ok v =>
      match evalArgs p context t with
      | .error e => .error e
      | .ok vs => .ok (v :: vs))

end

/-! ## `apply_formula_entry` -/

/-- `_normalize_ref`: bare references default to the `body` region. -/
def _normalize_ref (ref : Str) : Str :=
  let trimmed := strip ref
  if trimmed.contains '[' then trimmed
  else s2l ("body") ++ '[' :: (trimmed ++ [']'])

/-- The row-major list of target cells `(row, col)` the nested
`for row … for col …` loops visit. -/
def rectCells (start_row start_col end_row end_col : ℕ) : List (ℕ × ℕ) :=
  (List.range' start_row (end_row + 1 - start_row)).flatMap
    (fun row => (List.range' start_col (end_col + 1 - start_col)).map
      (fun col => (row, col)))

/-- One tracked cell write: `changed` is set when the previous value
(`None` when the key is absent) compares `!=` to the written one. -/
def writeCellTracked (p : Project) (loc : Loc) (key : Str) (v : PyVal) :
    Project × Bool :=
  match tableAt p loc with
  | Option.none => (p, false)
  | some t =>
    let ch := ! pyEq ((dget t.cell_values key).getD .none) v
    (modifyTableAt p loc
      (fun tt => { tt with cell_values := dset tt.cell_values key v }), ch)

/-- The parse-failure loop: every target cell receives the error
sentinel. -/
def applyPoisonLoop (loc : Loc) (region : Str) :
    List (ℕ × ℕ) → Project × Bool → Project × Bool
  | [], acc => acc
  | (row, col) :: rest, (p, changed) =>
    let w := writeCellTracked p loc (address region row col) errorSentinel
    applyPoisonLoop loc region rest (w.1, changed || w.2)

/-- The per-cell evaluation loop: each target cell is evaluated against the
CURRENT project state (earlier writes of the same pass are visible, as in
Python, where `context.table` aliases the mutating table) and receives its
value, or the error sentinel if its own evaluation raised. -/
def applyEvalLoop (ast : Ast) (loc : Loc) (region : Str)
    (start_row start_col : ℕ) :
    List (ℕ × ℕ) → Project × Bool → Project × Bool
  | [], acc => acc
  | (row, col) :: rest, (p, changed) =>
    let context : FormulaContext := ⟨loc, start_row, start_col, row, col⟩
    let value :=
      match _evaluate_formula p context ast with
      | .error _ => errorSentinel
      | .ok v => v
    let w := writeCellTracked p loc (address region row col) value
    applyEvalLoop ast loc region start_row start_col rest (w.1, changed || w.2)

/-- `Table.apply_formula_entry(project, target_range, payload)`.  The home
table is given by its position `loc` in the project. -/
def apply_formula_entry (p : Project) (loc : Loc) (target_range : Str)
    (payload : FormulaPayload) : Project × Bool :=
  let formula := strip payload.formula
  if formula = [] then (p, false)
  else
    match parse_range (_normalize_ref target_range) with
    | .error _ => (p, false)
    | .ok (region, start_row, start_col, end_row, end_col) =>
      if payload.mode ≠ s2l ("spreadsheet") then (p, false)
      else
        match parse_formula formula with
        | .error _ =>
          applyPoisonLoop loc region
            (rectCells start_row start_col end_row end_col) (p, false)
        | .ok ast =>
          applyEvalLoop ast loc region start_row start_col
            (rectCells start_row start_col end_row end_col) (p, false)

/-! ## Summary/aggregation engine -/

mutual

/-- `_summary_key_component`: unwrap, then tuple-ize lists recursively.
(Raw dicts without a `"type"` key and numpy scalars do not occur in the
modelled value universe; numpy arrays pass through unchanged, as in the
source, where they would be unhashable.) -/
def summary_key_component (v : PyVal) : PyVal :=
  match v with
  | .list vs => .list (summaryKeyList vs)
  | .tagged ty payload => unwrap_value (.tagged ty payload)
  | v => v

def summaryKeyList : List PyVal → List PyVal
  | [] => []
  | v :: t => summary_key_component v :: summaryKeyList t

end

/-- `_is_summary_empty`: `None`, the empty string, an `empty`-typed tagged
dict, or the error sentinel. -/
def _is_summary_empty : PyVal → Bool
  | .none => true
  | .str s => s.isEmpty || s = s2l ("#ERROR")
  | .tagged ty _ => ty = s2l ("empty")
  | _ => false

/-- `_summary_number`: unwrap, then booleans count as 0/1, numbers as
themselves. -/
def _summary_number (v : PyVal) : Option QF :=
  match unwrap_value v with
  | .bool b => some (.q (if b then 1 else 0))
  | .num x => some x
  | _ => Option.none

/-- `_SummaryAccumulator` state. -/
structure SummaryAccumulator where
  agg : Str
  count : ℕ
  total : QF
  minimum : Option QF
  maximum : Option QF
  deriving DecidableEq, Repr

def newAccumulator (agg : Str) : SummaryAccumulator :=
  ⟨agg, 0, .q 0, Option.none, Option.none⟩

/-- `_SummaryAccumulator.add`. -/
def accAdd (a : SummaryAccumulator) (value : PyVal) : SummaryAccumulator :=
  if _is_summary_empty value then a
  else if a.agg = s2l ("count") then { a with count := a.count + 1 }
  else
    match _summary_number value with
    | Option.none => a
    | some numeric =>
      if a.agg = s2l ("sum") ∨ a.agg = s2l ("avg") then
        { a with total := qfAdd a.total numeric, count := a.count + 1 }
      else if a.agg = s2l ("min") then
        { a with minimum := some (match a.minimum with
            | Option.none => numeric
            | some m => if qfLt numeric m then numeric else m) }
      else if a.agg = s2l ("max") then
        { a with maximum := some (match a.maximum with
            | Option.none => numeric
            | some m => if qfLt m numeric then numeric else m) }
      else a

/-- `_SummaryAccumulator.finalize`. -/
def accFinalize (a : SummaryAccumulator) : PyVal :=
  if a.agg = s2l ("count") then .num (.q a.count)
  else if a.agg = s2l ("sum") then
    (if 0 < a.count then .num a.total else .none)
  else if a.agg = s2l ("avg") then
    (if 0 < a.count then .num (qfDivNat a.total a.count) else .none)
  else if a.agg = s2l ("min") then
    (match a.minimum with | some m => .num m | Option.none => .none)
  else if a.agg = s2l ("max") then
    (match a.maximum with | some m => .num m | Option.none => .none)
  else .none

/-- Group keys are tuples compared with Python `==`. -/
def keyLookup {α : Type} (m : List (List PyVal × α)) (k : List PyVal) :
    Option α :=
  (m.find? (fun e => pyEqList e.1 k)).map (·.2)

/-- Dict update keyed by tuple equality; an existing entry keeps its stored
key object, as CPython does. -/
def keySet {α : Type} : List (List PyVal × α) → List PyVal → α →
    List (List PyVal × α)
  | [], k, v => [(k, v)]
  | (k', v') :: t, k, v =>
    if pyEqList k' k then (k', v) :: t else (k', v') :: keySet t k v

structure SummaryScanState where
  group_order : List (List PyVal)
  aggregates : List (List PyVal × List SummaryAccumulator)
  group_values_map : List (List PyVal × List PyVal)

/-- One row of the `_apply_summary_table` scan. -/
def summaryScanRow (source : Table) (group_by : List ℕ)
    (value_specs : List SummaryValueSpec) (st : SummaryScanState) (row : ℕ) :
    SummaryScanState :=
  let group_values := group_by.map (fun col =>
    unwrap_value ((dget source.cell_values
      (address (s2l ("body")) row col)).getD .none))
  if group_by ≠ [] ∧ group_values.all _is_summary_empty then st
  else
    let key := group_values.map summary_key_component
    let st1 :=
      match keyLookup st.aggregates key with
      | some _ => st
      | Option.none =>
        { group_order := st.group_order ++ [key],
          aggregates := keySet st.aggregates key
            (value_specs.map (fun (vs : SummaryValueSpec) =>
              newAccumulator vs.agg)),
          group_values_map := keySet st.group_values_map key group_values }
    let accs := (keyLookup st1.aggregates key).getD []
    let accs2 := List.zipWith
      (fun (acc : SummaryAccumulator) (vs : SummaryValueSpec) =>
        accAdd acc (unwrap_value ((dget source.cell_values
          (address (s2l ("body")) row vs.col)).getD .none)))
      accs value_specs
    { st1 with aggregates := keySet st1.aggregates key accs2 }

/-- The final state of the scan over rows `0 .. body_rows - 1`. -/
def summaryScan (source : Table) (group_by : List ℕ)
    (value_specs : List SummaryValueSpec) (body_rows : ℕ) :
    SummaryScanState :=
  (List.range body_rows).foldl (summaryScanRow source group_by value_specs)
    ⟨[], [], []⟩

def summaryResultRows (st : SummaryScanState)
    (value_specs : List SummaryValueSpec) : List (List PyVal) :=
  (if st.group_order.isEmpty then [([] : List PyVal)] else st.group_order).map
    (fun key =>
      ((keyLookup st.group_values_map key).getD []) ++
      (((keyLookup st.aggregates key).getD
        (value_specs.map (fun vs => newAccumulator vs.agg))).map accFinalize))

/-- `startswith` on char lists. -/
def strStartsWith : Str → Str → Bool
  | [], _ => true
  | _ :: _, [] => false
  | a :: pa, b :: sb => a = b && strStartsWith pa sb

/-- Rewrite the summary table in place: drop old `body[` cell values, set
the grid to the result size, write the result rows. -/
def summaryWriteBack (tt : Table) (result_rows : List (List PyVal))
    (group_by : List ℕ) (value_specs : List SummaryValueSpec) : Table :=
  let kept := tt.cell_values.filter
    (fun kv => ! strStartsWith (s2l ("body[")) kv.1)
  let cols : ℕ :=
    match result_rows with
    | r0 :: _ => r0.length
    | [] => group_by.length + value_specs.length
  let t1 := { tt with
    cell_values := kept,
    grid_spec := { tt.grid_spec with
      bodyRows := (max 1 result_rows.length : ℕ),
      bodyCols := (max 1 cols : ℕ) } }
  let t2 := _sync_rect_size (_normalize_column_types t1)
  let writes :=
    (result_rows.enum.map (fun rv =>
      rv.2.enum.map (fun cv =>
        (address (s2l ("body")) rv.1 cv.1, cv.2)))).flatten
  { t2 with cell_values :=
      writes.foldl (fun cv pr => dset cv pr.1 pr.2) t2.cell_values }

/-- `_apply_summary_table(project, summary_table)`.  A missing source table
raises `KeyError` in Python; no claim reaches that case, and it is modelled
as leaving the project unchanged. -/
def _apply_summary_table (p : Project) (loc : Loc) : Project :=
  match tableAt p loc with
  | Option.none => p
  | some summary_table =>
    match summary_table.summary_spec with
    | Option.none => p
    | some spec =>
      match findTable p spec.source_table_id with
      | Option.none => p
      | some source =>
        let group_by := spec.group_by
        let value_specs := spec.values
        if value_specs = [] then p
        else
          let body_rows : ℕ :=
            if source.grid_spec.bodyRows ≤ 0 then 0
            else source.grid_spec.bodyRows.toNat
          let st := summaryScan source group_by value_specs body_rows
          let result_rows := summaryResultRows st value_specs
          modifyTableAt p loc
            (fun tt => summaryWriteBack tt result_rows group_by value_specs)

/-! ## `Project.apply_formulas` -/

inductive ApplyEntry
  | summary (loc : Loc)
  | formulaE (loc : Loc) (target_range : Str) (payload : FormulaPayload)

/-- Entry collection for one table, with the lazy assignment of missing
order values (which bumps the global counter and mutates the table). -/
def collectTable (acc : Project × List (ℕ × ApplyEntry)) (si ti : ℕ) :
    Project × List (ℕ × ApplyEntry) :=
  let p := acc.1
  match tableAt p (si, ti) with
  | Option.none => acc
  | some t =>
    let s1 : Project × List (ℕ × ApplyEntry) :=
      if t.summary_spec.isSome then
        match t.summary_order with
        | some o => (p, acc.2 ++ [(o, ApplyEntry.summary (si, ti))])
        | Option.none =>
          let o := p.counter + 1
          ({ modifyTableAt p (si, ti)
              (fun tt => { tt with summary_order := some o }) with counter := o },
            acc.2 ++ [(o, ApplyEntry.summary (si, ti))])
      else (p, acc.2)
    t.formulas.foldl
      (fun acc2 pair =>
        let p2 := acc2.1
        match tableAt p2 (si, ti) with
        | Option.none => acc2
        | some t2 =>
          match dget t2.formula_order pair.1 with
          | some o =>
            (p2, acc2.2 ++ [(o, ApplyEntry.formulaE (si, ti) pair.1 pair.2)])
          | Option.none =>
            let o := p2.counter + 1
            ({ modifyTableAt p2 (si, ti)
                (fun tt => { tt with
                  formula_order := dset tt.formula_order pair.1 o }) with
                counter := o },
              acc2.2 ++ [(o, ApplyEntry.formulaE (si, ti) pair.1 pair.2)]))
      s1

/-- The collection pass of `Project.apply_formulas`: every summary-bearing
table contributes one summary entry, every formula definition one formula
entry.  (Table list lengths never change during collection, so the index
ranges are taken from the input project.) -/
def collectEntries (p : Project) : Project × List (ℕ × ApplyEntry) :=
  (List.range p.sheets.length).foldl
    (fun acc si =>
      match p.sheets.get? si with
      | Option.none => acc
      | some s =>
        (List.range s.tables.length).foldl
          (fun acc2 ti => collectTable acc2 si ti) acc)
    (p, [])

/-- `Project.apply_formulas()`: collect, sort ascending by order value,
execute sequentially. -/
def project_apply_formulas (p : Project) : Project :=
  let collected := collectEntries p
  let sorted := List.insertionSort (fun a b => a.1 ≤ b.1) collected.2
  sorted.foldl
    (fun pc e =>
      match e.2 with
      | .summary loc => _apply_summary_table pc loc
      | .formulaE loc tr payload => (apply_formula_entry pc loc tr payload).1)
    collected.1

/-! ## C8: the reducers' treatment of non-numeric elements -/

theorem flattenList_append (l r : List PyVal) :
    flattenList (l ++ r) = flattenList l ++ flattenList r := by
  induction l with
  | nil => rfl
  | cons a t ih =>
    rw [List.cons_append, flattenList, ih, flattenList, List.append_assoc]

theorem flatten_argValues (args : List PyVal) :
    flattenVal (argValues args) = flattenList args := by
  match args with
  | [] => rfl
  | [v] =>
    show flattenVal v = flattenVal v ++ flattenList []
    rw [flattenList, List.append_nil]
  | a :: b :: t => rfl

theorem filterMap_coerce_none {l : List PyVal}
    (h : ∀ x ∈ l, _coerce_number x = Option.none) :
    l.filterMap _coerce_number = [] := by
  induction l with
  | nil => rfl
  | cons a t ih =>
    rw [List.filterMap_cons, h a (by simp)]
    exact ih (fun x hx => h x (by simp [hx]))

theorem numeric_values_skip_insert (v : PyVal)
    (hv : ∀ x ∈ flattenVal v, _coerce_number x = Option.none)
    (l r : List PyVal) :
    _numeric_values (argValues (l ++ v :: r)) =
      _numeric_values (argValues (l ++ r)) := by
  unfold _numeric_values
  rw [flatten_argValues, flatten_argValues, flattenList_append,
    flattenList_append, flattenList]
  rw [List.filterMap_append, List.filterMap_append, List.filterMap_append,
    filterMap_coerce_none hv]
  simp

/-- C8: with no numeric-coercible element among the flattened arguments,
`AVERAGE` returns `nan` while `MIN` and `MAX` return the empty value
(`None`); and inserting a non-numeric element anywhere in the argument list
leaves `SUM`/`AVERAGE`/`MIN`/`MAX` unchanged (non-numeric elements are
ignored, only the numeric ones are aggregated). -/
theorem claim_C8_reducer_coercion :
    (∀ args : List PyVal, _numeric_values (argValues args) = [] →
      cs_avg args = .num .nan ∧ cs_min args = .none ∧ cs_max args = .none) ∧
    (∀ v : PyVal, (∀ x ∈ flattenVal v, _coerce_number x = Option.none) →
      ∀ l r : List PyVal,
        cs_sum (l ++ v :: r) = cs_sum (l ++ r) ∧
        cs_avg (l ++ v :: r) = cs_avg (l ++ r) ∧
        cs_min (l ++ v :: r) = cs_min (l ++ r) ∧
        cs_max (l ++ v :: r) = cs_max (l ++ r)) := by
  constructor
  · intro args h
    refine ⟨?_, ?_, ?_⟩
    · unfold cs_avg
      rw [h]
      rfl
    · unfold cs_min
      rw [h]
    · unfold cs_max
      rw [h]
  · intro v hv l r
    have key := numeric_values_skip_insert v hv l r
    refine ⟨?_, ?_, ?_, ?_⟩
    · unfold cs_sum
      rw [key]
    · unfold cs_avg
      rw [key]
    · unfold cs_min
      rw [key]
    · unfold cs_max
      rw [key]

/-- Witness for C8: `AVERAGE("x")` is `nan`, `MIN`/`MAX` are empty, and
inserting the string `"x"` into `[1, 2]` changes no reducer. -/
theorem claim_C8_witness :
    (_numeric_values (argValues [PyVal.str (s2l ("x"))]) = [] ∧
      cs_avg [PyVal.str (s2l ("x"))] = .num .nan ∧
      cs_min [PyVal.str (s2l ("x"))] = .none ∧
      cs_max [PyVal.str (s2l ("x"))] = .none) ∧
    ((∀ x ∈ flattenVal (PyVal.str (s2l ("x"))), _coerce_number x = Option.none) ∧
      cs_sum ([PyVal.num (.q 1)] ++ PyVal.str (s2l ("x")) :: [PyVal.num (.q 2)]) =
        cs_sum ([PyVal.num (.q 1)] ++ [PyVal.num (.q 2)])) :=
  ⟨⟨rfl, claim_C8_reducer_coercion.1 [PyVal.str (s2l ("x"))] rfl⟩,
    ⟨by decide,
      (claim_C8_reducer_coercion.2 (PyVal.str (s2l ("x"))) (by decide)
        [PyVal.num (.q 1)] [PyVal.num (.q 2)]).1⟩⟩

/-! ## C6 counterexample: `apply_formulas` is not idempotent -/

/-- A 1×2 table whose `A0` formula (defined first) reads `B0`, whose own
formula (defined second) writes `5` — the classic stale-read chain of the
definition-order scheduler. -/
def c6Table0 : Table where
  id := s2l ("t1")
  name := s2l ("t1")
  rect := ⟨0, 0, 160, 24⟩
  grid_spec := ⟨1, 2, ⟨0, 0, 0, 0⟩⟩
  body_column_types := [s2l ("number"), s2l ("number")]
  cell_values := []
  range_values := []
  formulas := []
  formula_order := []
  label_band_values := [(s2l ("top"), []), (s2l ("bottom"), []),
    (s2l ("left"), []), (s2l ("right"), [])]
  summary_spec := Option.none
  summary_order := Option.none

def c6Step1 : Table × ℕ :=
  set_formula c6Table0 (s2l ("body[A0]")) (s2l ("=B0")) (s2l ("spreadsheet")) 0

def c6Step2 : Table × ℕ :=
  set_formula c6Step1.1 (s2l ("body[B0]")) (s2l ("=5")) (s2l ("spreadsheet"))
    c6Step1.2

def c6Project : Project :=
  ⟨[⟨s2l ("sheet_1"), s2l ("Sheet 1"), [c6Step2.1]⟩], c6Step2.2⟩

def c6Once : Project := project_apply_formulas c6Project

def c6Twice : Project := project_apply_formulas c6Once

/-- C6 counterexample: after the first `apply_formulas()` call `A0` holds
the empty value (its formula read `B0` before `B0`'s own formula ran);
after the second call `A0` holds `5` — the two passes do NOT yield
identical cell values. -/
theorem claim_C6_counterexample :
    (tableAt c6Once (0, 0)).map
        (fun t => dget t.cell_values (s2l ("body[A0]"))) =
      some (some PyVal.none) ∧
    (tableAt c6Twice (0, 0)).map
        (fun t => dget t.cell_values (s2l ("body[A0]"))) =
      some (some (PyVal.num (.q 5))) ∧
    PyVal.none ≠ PyVal.num (.q 5) := by
  refine ⟨rfl, rfl, ?_⟩
  intro h
  exact PyVal.noConfusion h

/-! ## C4: per-cell error containment of `apply_formula_entry` -/

/-- What one target cell receives: its own evaluation's value, or the error
sentinel if that evaluation raised. -/
def evalOutcome (ast : Ast) (loc : Loc) (sr sc : ℕ) (rc : ℕ × ℕ)
    (p : Project) : PyVal :=
  match _evaluate_formula p ⟨loc, sr, sc, rc.1, rc.2⟩ ast with
  | .error _ => errorSentinel
  | .ok v => v

theorem listModify_get_self {α : Type} (l : List α) (i : ℕ) (f : α → α) :
    (listModify l i f).get? i = (l.get? i).map f := by
  induction l generalizing i with
  | nil => cases i <;> rfl
  | cons a t ih =>
    cases i with
    | zero => rfl
    | succ j => exact ih j

theorem listModify_get_ne {α : Type} (l : List α) (i j : ℕ) (f : α → α)
    (h : i ≠ j) : (listModify l i f).get? j = l.get? j := by
  induction l generalizing i j with
  | nil => cases i <;> rfl
  | cons a t ih =>
    cases i with
    | zero =>
      cases j with
      | zero => exact absurd rfl h
      | succ j2 => rfl
    | succ i2 =>
      cases j with
      | zero => rfl
      | succ j2 => exact ih i2 j2 (by omega)

theorem tableAt_modify_self (p : Project) (loc : Loc) (f : Table → Table) :
    tableAt (modifyTableAt p loc f) loc = (tableAt p loc).map f := by
  unfold tableAt modifyTableAt
  rw [listModify_get_self]
  cases p.sheets.get? loc.1 with
  | none => rfl
  | some s =>
    show (listModify s.tables loc.2 f).get? loc.2 = (s.tables.get? loc.2).map f
    rw [listModify_get_self]

theorem tableAt_modify_ne (p : Project) (loc loc' : Loc) (f : Table → Table)
    (h : loc' ≠ loc) :
    tableAt (modifyTableAt p loc f) loc' = tableAt p loc' := by
  unfold tableAt modifyTableAt
  by_cases hs : loc.1 = loc'.1
  · have ht : loc.2 ≠ loc'.2 := by
      intro hc
      exact h (Prod.ext hs.symm hc.symm)
    rw [← hs, listModify_get_self]
    cases p.sheets.get? loc.1 with
    | none => rfl
    | some s =>
      show (listModify s.tables loc.2 f).get? loc'.2 = s.tables.get? loc'.2
      rw [listModify_get_ne _ _ _ _ ht]
  · rw [listModify_get_ne _ _ _ _ hs]

theorem modifyTableAt_counter (p : Project) (loc : Loc) (f : Table → Table) :
    (modifyTableAt p loc f).counter = p.counter := rfl

theorem writeCellTracked_fst {p : Project} {loc : Loc} {t : Table}
    (k : Str) (v : PyVal) (h : tableAt p loc = some t) :
    (writeCellTracked p loc k v).1 =
      modifyTableAt p loc
        (fun tt => { tt with cell_values := dset tt.cell_values k v }) := by
  unfold writeCellTracked
  rw [h]

theorem mem_rectCells (sr sc er ec r c : ℕ) :
    (r, c) ∈ rectCells sr sc er ec ↔
      (sr ≤ r ∧ r ≤ er ∧ sc ≤ c ∧ c ≤ ec) := by
  unfold rectCells
  simp only [List.mem_flatMap, List.mem_map, List.mem_range']
  constructor
  · rintro ⟨row, ⟨i, hi, rfl⟩, col, ⟨j, hj, rfl⟩, hpair⟩
    injection hpair with h1 h2
    omega
  · rintro ⟨h1, h2, h3, h4⟩
    exact ⟨r, ⟨r - sr, by omega, by omega⟩, c, ⟨c - sc, by omega, by omega⟩, rfl⟩

theorem rectCells_nodup (sr sc er ec : ℕ) : (rectCells sr sc er ec).Nodup := by
  unfold rectCells
  rw [List.nodup_flatMap]
  constructor
  · intro r _
    exact (List.nodup_range' _ _).map
      (fun a b h => congrArg Prod.snd h)
  · have hr := List.nodup_range' sr (er + 1 - sr)
    refine List.Pairwise.imp ?_ hr
    intro a b hab
    intro x hxa hxb
    rcases List.mem_map.mp hxa with ⟨c1, _, rfl⟩
    rcases List.mem_map.mp hxb with ⟨c2, _, h2⟩
    injection h2 with h3 _
    exact absurd h3.symm hab

/-- Characterization of the per-cell evaluation loop: only the home table's
cell values change; each visited cell receives the outcome of its own
evaluation against the state reached just before its turn; everything else
is untouched. -/
theorem applyEvalLoop_spec (ast : Ast) (loc : Loc) (region : Str)
    (sr sc : ℕ) :
    ∀ (cells : List (ℕ × ℕ)) (p : Project) (ch : Bool) (t : Table),
    tableAt p loc = some t →
    ∃ t' : Table,
      tableAt (applyEvalLoop ast loc region sr sc cells (p, ch)).1 loc =
        some t' ∧
      (∀ loc', loc' ≠ loc →
        tableAt (applyEvalLoop ast loc region sr sc cells (p, ch)).1 loc' =
          tableAt p loc') ∧
      (applyEvalLoop ast loc region sr sc cells (p, ch)).1.counter =
        p.counter ∧
      t'.formulas = t.formulas ∧ t'.formula_order = t.formula_order ∧
      t'.grid_spec = t.grid_spec ∧ t'.summary_spec = t.summary_spec ∧
      t'.summary_order = t.summary_order ∧ t'.id = t.id ∧
      (∀ k : Str, (∀ rc ∈ cells, k ≠ address region rc.1 rc.2) →
        dget t'.cell_values k = dget t.cell_values k) ∧
      (cells.Nodup →
        ∀ i, ∀ hi : i < cells.length,
          dget t'.cell_values
              (address region (cells.get ⟨i, hi⟩).1 (cells.get ⟨i, hi⟩).2) =
            some (evalOutcome ast loc sr sc (cells.get ⟨i, hi⟩)
              (applyEvalLoop ast loc region sr sc (cells.take i) (p, ch)).1)) := by
  intro cells
  induction cells with
  | nil =>
    intro p ch t ht
    exact ⟨t, ht, fun _ _ => rfl, rfl, rfl, rfl, rfl, rfl, rfl, rfl,
      fun _ _ => rfl, fun _ i hi => absurd hi (by simp)⟩
  | cons c0 rest ih =>
    intro p ch t ht
    rcases c0 with ⟨r0, cl0⟩
    rcases hpb : writeCellTracked p loc (address region r0 cl0)
        (evalOutcome ast loc sr sc (r0, cl0) p) with ⟨p1, b1⟩
    have hp1 : p1 = modifyTableAt p loc (fun tt =>
        { tt with
            cell_values := dset tt.cell_values (address region r0 cl0)
              (evalOutcome ast loc sr sc (r0, cl0) p) }) := by
      have hww := writeCellTracked_fst (address region r0 cl0)
        (evalOutcome ast loc sr sc (r0, cl0) p) ht
      rw [hpb] at hww
      exact hww
    have hstep : ∀ (l : List (ℕ × ℕ)) (ch2 : Bool),
        applyEvalLoop ast loc region sr sc ((r0, cl0) :: l) (p, ch2) =
          applyEvalLoop ast loc region sr sc l (p1, ch2 || b1) := by
      intro l ch2
      show applyEvalLoop ast loc region sr sc l
          ((writeCellTracked p loc (address region r0 cl0)
              (evalOutcome ast loc sr sc (r0, cl0) p)).1,
            ch2 || (writeCellTracked p loc (address region r0 cl0)
              (evalOutcome ast loc sr sc (r0, cl0) p)).2) =
          applyEvalLoop ast loc region sr sc l (p1, ch2 || b1)
      rw [hpb]
    have ht1 : tableAt p1 loc = some
        { t with
            cell_values := dset t.cell_values (address region r0 cl0)
              (evalOutcome ast loc sr sc (r0, cl0) p) } := by
      rw [hp1, tableAt_modify_self, ht]
      rfl
    rcases ih p1 (ch || b1) _ ht1 with
      ⟨t', htt, hother, hcounter, hf1, hf2, hf3, hf4, hf5, hf6, huntouched, hidx⟩
    refine ⟨t', ?_, ?_, ?_, ?_, ?_, ?_, ?_, ?_, ?_, ?_, ?_⟩
    · rw [hstep]; exact htt
    · intro loc' hne
      rw [hstep, hother loc' hne, hp1, tableAt_modify_ne _ _ _ _ hne]
    · rw [hstep, hcounter, hp1, modifyTableAt_counter]
    · exact hf1
    · exact hf2
    · exact hf3
    · exact hf4
    · exact hf5
    · exact hf6
    · intro k hk
      have hrest : ∀ rc ∈ rest, k ≠ address region rc.1 rc.2 :=
        fun rc hrc => hk rc (by simp [hrc])
      rw [huntouched k hrest]
      exact dget_dset_ne _ _ _ _
        (fun hkk => hk (r0, cl0) (by simp) (by rw [← hkk]))
    · intro hnodup i hi
      have hnd := List.nodup_cons.mp hnodup
      cases i with
      | zero =>
        have hnotrest : ∀ rc ∈ rest,
            address region r0 cl0 ≠ address region rc.1 rc.2 := by
          intro rc hrc hkk
          rcases rc with ⟨r2, c2⟩
          have h2 := @address_injective region r0 cl0 r2 c2 hkk
          apply hnd.1
          rw [show r0 = r2 from h2.1, show cl0 = c2 from h2.2]
          exact hrc
        show dget t'.cell_values (address region r0 cl0) = _
        rw [huntouched _ hnotrest]
        show dget (dset t.cell_values (address region r0 cl0)
          (evalOutcome ast loc sr sc (r0, cl0) p)) (address region r0 cl0) = _
        rw [dget_dset_self]
        rfl
      | succ j =>
        have hj : j < rest.length := by
          simp only [List.length_cons] at hi
          omega
        have hx := hidx hnd.2 j hj
        have htake : applyEvalLoop ast loc region sr sc
            (List.take (j + 1) ((r0, cl0) :: rest)) (p, ch) =
            applyEvalLoop ast loc region sr sc (List.take j rest) (p1, ch || b1) :=
          hstep (List.take j rest) ch
        show dget t'.cell_values
            (address region (rest.get ⟨j, hj⟩).1 (rest.get ⟨j, hj⟩).2) =
          some (evalOutcome ast loc sr sc (rest.get ⟨j, hj⟩)
            (applyEvalLoop ast loc region sr sc
              (List.take (j + 1) ((r0, cl0) :: rest)) (p, ch)).1)
        rw [htake]
        exact hx

/-- Characterization of the parse-failure poison loop: every visited cell
holds the error sentinel afterwards; everything else is untouched. -/
theorem applyPoisonLoop_spec (loc : Loc) (region : Str) :
    ∀ (cells : List (ℕ × ℕ)) (p : Project) (ch : Bool) (t : Table),
    tableAt p loc = some t →
    ∃ t' : Table,
      tableAt (applyPoisonLoop loc region cells (p, ch)).1 loc = some t' ∧
      (∀ loc', loc' ≠ loc →
        tableAt (applyPoisonLoop loc region cells (p, ch)).1 loc' =
          tableAt p loc') ∧
      (applyPoisonLoop loc region cells (p, ch)).1.counter = p.counter ∧
      t'.formulas = t.formulas ∧ t'.formula_order = t.formula_order ∧
      t'.grid_spec = t.grid_spec ∧ t'.summary_spec = t.summary_spec ∧
      t'.summary_order = t.summary_order ∧ t'.id = t.id ∧
      (∀ k : Str, (∀ rc ∈ cells, k ≠ address region rc.1 rc.2) →
        dget t'.cell_values k = dget t.cell_values k) ∧
      (∀ rc ∈ cells,
        dget t'.cell_values (address region rc.1 rc.2) = some errorSentinel) := by
  intro cells
  induction cells with
  | nil =>
    intro p ch t ht
    exact ⟨t, ht, fun _ _ => rfl, rfl, rfl, rfl, rfl, rfl, rfl, rfl,
      fun _ _ => rfl, fun rc hrc => absurd hrc (by simp)⟩
  | cons c0 rest ih =>
    intro p ch t ht
    rcases c0 with ⟨r0, cl0⟩
    rcases hpb : writeCellTracked p loc (address region r0 cl0) errorSentinel
      with ⟨p1, b1⟩
    have hp1 : p1 = modifyTableAt p loc (fun tt =>
        { tt with
            cell_values :=
              dset tt.cell_values (address region r0 cl0) errorSentinel }) := by
      have hww := writeCellTracked_fst (address region r0 cl0) errorSentinel ht
      rw [hpb] at hww
      exact hww
    have hstep : ∀ (l : List (ℕ × ℕ)) (ch2 : Bool),
        applyPoisonLoop loc region ((r0, cl0) :: l) (p, ch2) =
          applyPoisonLoop loc region l (p1, ch2 || b1) := by
      intro l ch2
      show applyPoisonLoop loc region l
          ((writeCellTracked p loc (address region r0 cl0) errorSentinel).1,
            ch2 ||
              (writeCellTracked p loc (address region r0 cl0) errorSentinel).2) =
          applyPoisonLoop loc region l (p1, ch2 || b1)
      rw [hpb]
    have ht1 : tableAt p1 loc = some
        { t with
            cell_values :=
              dset t.cell_values (address region r0 cl0) errorSentinel } := by
      rw [hp1, tableAt_modify_self, ht]
      rfl
    rcases ih p1 (ch || b1) _ ht1 with
      ⟨t', htt, hother, hcounter, hf1, hf2, hf3, hf4, hf5, hf6, huntouched, hmem⟩
    refine ⟨t', ?_, ?_, ?_, ?_, ?_, ?_, ?_, ?_, ?_, ?_, ?_⟩
    · rw [hstep]; exact htt
    · intro loc' hne
      rw [hstep, hother loc' hne, hp1, tableAt_modify_ne _ _ _ _ hne]
    · rw [hstep, hcounter, hp1, modifyTableAt_counter]
    · exact hf1
    · exact hf2
    · exact hf3
    · exact hf4
    · exact hf5
    · exact hf6
    · intro k hk
      have hrest : ∀ rc ∈ rest, k ≠ address region rc.1 rc.2 :=
        fun rc hrc => hk rc (by simp [hrc])
      rw [huntouched k hrest]
      exact dget_dset_ne _ _ _ _
        (fun hkk => hk (r0, cl0) (by simp) (by rw [← hkk]))
    · intro rc hrc
      rcases List.mem_cons.mp hrc with heq | hmem2
      · subst heq
        show dget t'.cell_values (address region r0 cl0) = some errorSentinel
        by_cases hin : ∀ rc2 ∈ rest,
            address region r0 cl0 ≠ address region rc2.1 rc2.2
        · rw [huntouched _ hin]
          show dget (dset t.cell_values (address region r0 cl0) errorSentinel)
            (address region r0 cl0) = _
          rw [dget_dset_self]
        · push_neg at hin
          rcases hin with ⟨rc2, hrc2, hkeq⟩
          have hgot := hmem rc2 hrc2
          rw [hkeq]
          exact hgot
      · exact hmem rc hmem2

/-- With a non-empty formula, a parseable target and spreadsheet mode,
`apply_formula_entry` reduces to the poison loop when the formula text
fails to parse. -/
theorem apply_formula_entry_poison (p : Project) (loc : Loc)
    (target_range : Str) (payload : FormulaPayload) (region : Str)
    (sr sc er ec : ℕ) (e : FormulaErr)
    (hf : strip payload.formula ≠ [])
    (hm : payload.mode = s2l ("spreadsheet"))
    (hr : parse_range (_normalize_ref target_range) =
      Except.ok (region, sr, sc, er, ec))
    (he : parse_formula (strip payload.formula) = Except.error e) :
    apply_formula_entry p loc target_range payload =
      applyPoisonLoop loc region (rectCells sr sc er ec) (p, false) := by
  simp only [apply_formula_entry]
  rw [if_neg hf]
  split
  · rename_i x heq
    rw [hr] at heq
    cases heq
  · rename_i region2 sr2 sc2 er2 ec2 heq
    rw [hr] at heq
    injection heq with h5
    injection h5 with ha h5
    injection h5 with hb h5
    injection h5 with hc2 h5
    injection h5 with hd h5
    subst ha
    subst hb
    subst hc2
    subst hd
    subst h5
    rw [if_neg (fun hcon => hcon hm), he]

/-- With a non-empty formula, a parseable target and spreadsheet mode,
`apply_formula_entry` reduces to the per-cell evaluation loop when the
formula text parses. -/
theorem apply_formula_entry_eval (p : Project) (loc : Loc)
    (target_range : Str) (payload : FormulaPayload) (region : Str)
    (sr sc er ec : ℕ) (ast : Ast)
    (hf : strip payload.formula ≠ [])
    (hm : payload.mode = s2l ("spreadsheet"))
    (hr : parse_range (_normalize_ref target_range) =
      Except.ok (region, sr, sc, er, ec))
    (ho : parse_formula (strip payload.formula) = Except.ok ast) :
    apply_formula_entry p loc target_range payload =
      applyEvalLoop ast loc region sr sc (rectCells sr sc er ec) (p, false) := by
  simp only [apply_formula_entry]
  rw [if_neg hf]
  split
  · rename_i x heq
    rw [hr] at heq
    cases heq
  · rename_i region2 sr2 sc2 er2 ec2 heq
    rw [hr] at heq
    injection heq with h5
    injection h5 with ha h5
    injection h5 with hb h5
    injection h5 with hc2 h5
    injection h5 with hd h5
    subst ha
    subst hb
    subst hc2
    subst hd
    subst h5
    rw [if_neg (fun hcon => hcon hm), ho]

/-- C4: once the target range of a formula entry parses (and the entry is a
non-empty spreadsheet-mode formula), errors are contained per cell.  If the
formula text itself fails to parse, every cell of the rectangle receives the
`"#ERROR"` sentinel and nothing else changes.  If it parses, each target
cell receives exactly the outcome of its own evaluation — its value, or the
sentinel if that one evaluation raised — against the state left by the
previous cells, and no key outside the rectangle, no other field, and no
other table is touched. -/
theorem claim_C4_error_containment
    (p : Project) (loc : Loc) (target_range : Str) (payload : FormulaPayload)
    (t0 : Table) (region : Str) (sr sc er ec : ℕ)
    (ht : tableAt p loc = some t0)
    (hf : strip payload.formula ≠ [])
    (hm : payload.mode = s2l ("spreadsheet"))
    (hr : parse_range (_normalize_ref target_range) =
      Except.ok (region, sr, sc, er, ec)) :
    (∀ e, parse_formula (strip payload.formula) = Except.error e →
      ∃ t', tableAt (apply_formula_entry p loc target_range payload).1 loc =
          some t' ∧
        (∀ r c, sr ≤ r → r ≤ er → sc ≤ c → c ≤ ec →
          dget t'.cell_values (address region r c) = some errorSentinel) ∧
        (∀ k : Str,
          (∀ rc ∈ rectCells sr sc er ec, k ≠ address region rc.1 rc.2) →
          dget t'.cell_values k = dget t0.cell_values k) ∧
        t'.formulas = t0.formulas ∧
        (∀ loc', loc' ≠ loc →
          tableAt (apply_formula_entry p loc target_range payload).1 loc' =
            tableAt p loc')) ∧
    (∀ ast, parse_formula (strip payload.formula) = Except.ok ast →
      ∃ t', tableAt (apply_formula_entry p loc target_range payload).1 loc =
          some t' ∧
        (∀ i, ∀ hi : i < (rectCells sr sc er ec).length,
          dget t'.cell_values
              (address region ((rectCells sr sc er ec).get ⟨i, hi⟩).1
                ((rectCells sr sc er ec).get ⟨i, hi⟩).2) =
            some (evalOutcome ast loc sr sc ((rectCells sr sc er ec).get ⟨i, hi⟩)
              (applyEvalLoop ast loc region sr sc
                ((rectCells sr sc er ec).take i) (p, false)).1)) ∧
        (∀ k : Str,
          (∀ rc ∈ rectCells sr sc er ec, k ≠ address region rc.1 rc.2) →
          dget t'.cell_values k = dget t0.cell_values k) ∧
        t'.formulas = t0.formulas ∧
        (∀ loc', loc' ≠ loc →
          tableAt (apply_formula_entry p loc target_range payload).1 loc' =
            tableAt p loc')) := by
  constructor
  · intro e he
    rw [apply_formula_entry_poison p loc target_range payload region
      sr sc er ec e hf hm hr he]
    rcases applyPoisonLoop_spec loc region (rectCells sr sc er ec) p false t0
        ht with
      ⟨t', htt, hother, _, hform, _, _, _, _, _, huntouched, hmem⟩
    refine ⟨t', htt, ?_, huntouched, hform, hother⟩
    intro r c h1 h2 h3 h4
    exact hmem (r, c) ((mem_rectCells sr sc er ec r c).mpr ⟨h1, h2, h3, h4⟩)
  · intro ast ho
    rw [apply_formula_entry_eval p loc target_range payload region
      sr sc er ec ast hf hm hr ho]
    rcases applyEvalLoop_spec ast loc region sr sc (rectCells sr sc er ec) p
        false t0 ht with
      ⟨t', htt, hother, _, hform, _, _, _, _, _, huntouched, hidx⟩
    exact ⟨t', htt, hidx (rectCells_nodup sr sc er ec), huntouched, hform,
      hother⟩

/-! ## C6 (amended): reference-free formulas make `apply_formulas` idempotent -/

mutual

/-- An AST is reference-free when it contains no cell, range, column or row
reference; its evaluation then touches neither the project nor the
context. -/
def astPure : Ast → Bool
  | .number _ => true
  | .boolLit _ => true
  | .unaryOp _ operand => astPure operand
  | .binaryOp _ l r => astPure l && astPure r
  | .funcCall _ args => astListPure args
  | .cellRefNode _ _ _ => false
  | .rangeRefNode _ _ _ _ => false
  | .columnRefNode _ _ _ => false
  | .rowRefNode _ _ _ => false

def astListPure : AstList → Bool
  | .nil => true
  | .cons a t => astPure a && astListPure t

end

mutual

/-- Evaluating a reference-free AST is independent of the project state and
of the evaluation context. -/
theorem evalPure (ast : Ast) (p1 p2 : Project) (c1 c2 : FormulaContext)
    (h : astPure ast = true) :
    _evaluate_formula p1 c1 ast = _evaluate_formula p2 c2 ast := by
  cases ast with
  | number v => rfl
  | boolLit b => rfl
  | unaryOp op operand =>
    have hop : astPure operand = true := h
    simp only [_evaluate_formula]
    rw [evalPure operand p1 p2 c1 c2 hop]
  | binaryOp op l r =>
    have hlr := Bool.and_eq_true_iff.mp h
    simp only [_evaluate_formula]
    rw [evalPure l p1 p2 c1 c2 hlr.1, evalPure r p1 p2 c1 c2 hlr.2]
  | funcCall name args =>
    have hargs : astListPure args = true := h
    simp only [_evaluate_formula]
    rw [evalArgsPure args p1 p2 c1 c2 hargs]
  | cellRefNode a b c => exact absurd h (by simp [astPure])
  | rangeRefNode a b c d => exact absurd h (by simp [astPure])
  | columnRefNode a b c => exact absurd h (by simp [astPure])
  | rowRefNode a b c => exact absurd h (by simp [astPure])

theorem evalArgsPure (l : AstList) (p1 p2 : Project) (c1 c2 : FormulaContext)
    (h : astListPure l = true) :
    evalArgs p1 c1 l = evalArgs p2 c2 l := by
  cases l with
  | nil => rfl
  | cons a t =>
    have hat := Bool.and_eq_true_iff.mp h
    simp only [evalArgs]
    rw [evalPure a p1 p2 c1 c2 hat.1, evalArgsPure t p1 p2 c1 c2 hat.2]

end

/-- The fixed value a reference-free formula writes into every target
cell. -/
def constOutcome (ast : Ast) : PyVal :=
  evalOutcome ast (0, 0) 0 0 (0, 0) ⟨[], 0⟩

theorem evalOutcome_pure (ast : Ast) (loc : Loc) (sr sc : ℕ) (rc : ℕ × ℕ)
    (p : Project) (h : astPure ast = true) :
    evalOutcome ast loc sr sc rc p = constOutcome ast := by
  unfold evalOutcome constOutcome evalOutcome
  rw [evalPure ast p ⟨[], 0⟩ ⟨loc, sr, sc, rc.1, rc.2⟩
    ⟨(0, 0), 0, 0, (0, 0).1, (0, 0).2⟩ h]

/-- Replay a list of key/value writes on a dict. -/
def dsetList (cv : Dict PyVal) (ws : List (Str × PyVal)) : Dict PyVal :=
  ws.foldl (fun acc w => dset acc w.1 w.2) cv

theorem dsetList_append (cv : Dict PyVal) (a b : List (Str × PyVal)) :
    dsetList cv (a ++ b) = dsetList (dsetList cv a) b := by
  unfold dsetList
  rw [List.foldl_append]

/-- One batched table update: set the listed keys on the table at `loc`
(no-op when the table is absent). -/
def applyBatch (p : Project) (b : Loc × List (Str × PyVal)) : Project :=
  match tableAt p b.1 with
  | Option.none => p
  | some _ =>
    modifyTableAt p b.1
      (fun tt => { tt with cell_values := dsetList tt.cell_values b.2 })

theorem listModify_length {α : Type} (l : List α) (i : ℕ) (f : α → α) :
    (listModify l i f).length = l.length := by
  induction l generalizing i with
  | nil => cases i <;> rfl
  | cons a t ih =>
    cases i with
    | zero => rfl
    | succ j =>
      show (a :: listModify t j f).length = t.length + 1
      simp [ih j]

theorem listModify_congr {α : Type} (l : List α) (i : ℕ) (f g : α → α)
    (h : ∀ a, f a = g a) : listModify l i f = listModify l i g := by
  induction l generalizing i with
  | nil => cases i <;> rfl
  | cons a t ih =>
    cases i with
    | zero => simp [listModify, h a]
    | succ j => simp [listModify, ih j]

theorem listModify_id {α : Type} (l : List α) (i : ℕ) :
    listModify l i (fun a => a) = l := by
  induction l generalizing i with
  | nil => cases i <;> rfl
  | cons a t ih =>
    cases i with
    | zero => rfl
    | succ j => simp [listModify, ih j]

theorem listModify_comp {α : Type} (l : List α) (i : ℕ) (f g : α → α) :
    listModify (listModify l i f) i g = listModify l i (fun a => g (f a)) := by
  induction l generalizing i with
  | nil => cases i <;> rfl
  | cons a t ih =>
    cases i with
    | zero => rfl
    | succ j => simp [listModify, ih j]

theorem modifyTableAt_id (p : Project) (loc : Loc) :
    modifyTableAt p loc (fun t => t) = p := by
  unfold modifyTableAt
  have h1 : listModify p.sheets loc.1
      (fun s => { s with tables := listModify s.tables loc.2 (fun t => t) }) =
      p.sheets := by
    rw [listModify_congr p.sheets loc.1 _ (fun s => s)
      (fun s => by rw [listModify_id])]
    exact listModify_id p.sheets loc.1
  rw [h1]

theorem modifyTableAt_comp (p : Project) (loc : Loc) (f g : Table → Table) :
    modifyTableAt (modifyTableAt p loc f) loc g =
      modifyTableAt p loc (fun t => g (f t)) := by
  unfold modifyTableAt
  have h1 : listModify
      (listModify p.sheets loc.1
        (fun s => { s with tables := listModify s.tables loc.2 f })) loc.1
      (fun s => { s with tables := listModify s.tables loc.2 g }) =
      listModify p.sheets loc.1
        (fun s => { s with
          tables := listModify s.tables loc.2 (fun t => g (f t)) }) := by
    rw [listModify_comp]
    exact listModify_congr _ _ _ _ (fun s => by
      show ({ { s with tables := listModify s.tables loc.2 f } with
        tables := listModify (listModify s.tables loc.2 f) loc.2 g }) = _
      rw [listModify_comp])
  rw [h1]

theorem applyBatch_nil (p : Project) (loc : Loc) :
    applyBatch p (loc, []) = p := by
  unfold applyBatch
  cases htp : tableAt p loc with
  | none => rfl
  | some t =>
    exact modifyTableAt_id p loc

theorem applyBatch_some {p : Project} {loc : Loc} {t : Table}
    (ws : List (Str × PyVal)) (h : tableAt p loc = some t) :
    applyBatch p (loc, ws) =
      modifyTableAt p loc
        (fun tt => { tt with cell_values := dsetList tt.cell_values ws }) := by
  unfold applyBatch
  rw [h]

theorem applyBatch_none {p : Project} {loc : Loc}
    (ws : List (Str × PyVal)) (h : tableAt p loc = Option.none) :
    applyBatch p (loc, ws) = p := by
  unfold applyBatch
  rw [h]

/-- For a reference-free formula, the evaluation loop is one batched update
writing the same constant into every target cell. -/
theorem applyEvalLoop_batch (ast : Ast) (loc : Loc) (region : Str)
    (sr sc : ℕ) (hpure : astPure ast = true) :
    ∀ (cells : List (ℕ × ℕ)) (p : Project) (ch : Bool),
    (applyEvalLoop ast loc region sr sc cells (p, ch)).1 =
      applyBatch p (loc,
        cells.map (fun rc => (address region rc.1 rc.2, constOutcome ast))) := by
  intro cells
  induction cells with
  | nil =>
    intro p ch
    show p = applyBatch p (loc, [])
    rw [applyBatch_nil]
  | cons c0 rest ih =>
    intro p ch
    rcases c0 with ⟨r0, cl0⟩
    rcases hpb : writeCellTracked p loc (address region r0 cl0)
        (evalOutcome ast loc sr sc (r0, cl0) p) with ⟨p1, b1⟩
    have hstep : applyEvalLoop ast loc region sr sc ((r0, cl0) :: rest) (p, ch) =
        applyEvalLoop ast loc region sr sc rest (p1, ch || b1) := by
      show applyEvalLoop ast loc region sr sc rest
          ((writeCellTracked p loc (address region r0 cl0)
              (evalOutcome ast loc sr sc (r0, cl0) p)).1,
            ch || (writeCellTracked p loc (address region r0 cl0)
              (evalOutcome ast loc sr sc (r0, cl0) p)).2) = _
      rw [hpb]
    rw [hstep, ih p1 (ch || b1)]
    cases htp : tableAt p loc with
    | none =>
      have hwn : writeCellTracked p loc (address region r0 cl0)
          (evalOutcome ast loc sr sc (r0, cl0) p) = (p, false) := by
        unfold writeCellTracked
        rw [htp]
      rw [hwn] at hpb
      injection hpb with hpeq _
      rw [← hpeq, applyBatch_none _ htp, applyBatch_none _ htp]
    | some t =>
      have hw1 : p1 = modifyTableAt p loc (fun tt =>
          { tt with
              cell_values := dset tt.cell_values (address region r0 cl0)
                (constOutcome ast) }) := by
        have hww := writeCellTracked_fst (address region r0 cl0)
          (evalOutcome ast loc sr sc (r0, cl0) p) htp
        rw [hpb, evalOutcome_pure ast loc sr sc (r0, cl0) p hpure] at hww
        exact hww
      have ht1 : tableAt p1 loc = some
          { t with
              cell_values := dset t.cell_values (address region r0 cl0)
                (constOutcome ast) } := by
        rw [hw1, tableAt_modify_self, htp]
        rfl
      rw [applyBatch_some _ ht1, applyBatch_some _ htp, hw1, modifyTableAt_comp]
      exact congrArg (modifyTableAt p loc) (funext (fun tt => rfl))

/-- The poison loop is one batched update writing the error sentinel into
every target cell. -/
theorem applyPoisonLoop_batch (loc : Loc) (region : Str) :
    ∀ (cells : List (ℕ × ℕ)) (p : Project) (ch : Bool),
    (applyPoisonLoop loc region cells (p, ch)).1 =
      applyBatch p (loc,
        cells.map (fun rc => (address region rc.1 rc.2, errorSentinel))) := by
  intro cells
  induction cells with
  | nil =>
    intro p ch
    show p = applyBatch p (loc, [])
    rw [applyBatch_nil]
  | cons c0 rest ih =>
    intro p ch
    rcases c0 with ⟨r0, cl0⟩
    rcases hpb : writeCellTracked p loc (address region r0 cl0) errorSentinel
      with ⟨p1, b1⟩
    have hstep : applyPoisonLoop loc region ((r0, cl0) :: rest) (p, ch) =
        applyPoisonLoop loc region rest (p1, ch || b1) := by
      show applyPoisonLoop loc region rest
          ((writeCellTracked p loc (address region r0 cl0) errorSentinel).1,
            ch ||
              (writeCellTracked p loc (address region r0 cl0) errorSentinel).2) =
          _
      rw [hpb]
    rw [hstep, ih p1 (ch || b1)]
    cases htp : tableAt p loc with
    | none =>
      have hwn : writeCellTracked p loc (address region r0 cl0) errorSentinel =
          (p, false) := by
        unfold writeCellTracked
        rw [htp]
      rw [hwn] at hpb
      injection hpb with hpeq _
      rw [← hpeq, applyBatch_none _ htp, applyBatch_none _ htp]
    | some t =>
      have hw1 : p1 = modifyTableAt p loc (fun tt =>
          { tt with
              cell_values :=
                dset tt.cell_values (address region r0 cl0) errorSentinel }) := by
        have hww := writeCellTracked_fst (address region r0 cl0) errorSentinel htp
        rw [hpb] at hww
        exact hww
      have ht1 : tableAt p1 loc = some
          { t with
              cell_values :=
                dset t.cell_values (address region r0 cl0) errorSentinel } := by
        rw [hw1, tableAt_modify_self, htp]
        rfl
      rw [applyBatch_some _ ht1, applyBatch_some _ htp, hw1, modifyTableAt_comp]
      exact congrArg (modifyTableAt p loc) (funext (fun tt => rfl))

/-- An entry is "pure" when its formula text, if it parses at all, parses to
a reference-free AST. -/
def pureEntry (payload : FormulaPayload) : Bool :=
  match parse_formula (strip payload.formula) with
  | Except.ok ast => astPure ast
  | Except.error _ => true

/-- The fixed key/value writes a formula entry performs, independent of the
project state. -/
def entryKeyVals (target_range : Str) (payload : FormulaPayload) :
    List (Str × PyVal) :=
  if strip payload.formula = [] then []
  else
    match parse_range (_normalize_ref target_range) with
    | Except.error _ => []
    | Except.ok (region, sr, sc, er, ec) =>
      if payload.mode ≠ s2l ("spreadsheet") then []
      else
        match parse_formula (strip payload.formula) with
        | Except.error _ =>
          (rectCells sr sc er ec).map
            (fun rc => (address region rc.1 rc.2, errorSentinel))
        | Except.ok ast =>
          (rectCells sr sc er ec).map
            (fun rc => (address region rc.1 rc.2, constOutcome ast))

theorem apply_formula_entry_empty (p : Project) (loc : Loc) (tr : Str)
    (payload : FormulaPayload) (hf : strip payload.formula = []) :
    apply_formula_entry p loc tr payload = (p, false) := by
  simp only [apply_formula_entry]
  rw [if_pos hf]

theorem apply_formula_entry_noRange (p : Project) (loc : Loc) (tr : Str)
    (payload : FormulaPayload) (e : CodecErr)
    (hf : strip payload.formula ≠ [])
    (hr : parse_range (_normalize_ref tr) = Except.error e) :
    apply_formula_entry p loc tr payload = (p, false) := by
  simp only [apply_formula_entry]
  rw [if_neg hf]
  split
  · rfl
  · rename_i region2 sr2 sc2 er2 ec2 heq
    rw [hr] at heq
    cases heq

theorem apply_formula_entry_badMode (p : Project) (loc : Loc) (tr : Str)
    (payload : FormulaPayload) (region : Str) (sr sc er ec : ℕ)
    (hf : strip payload.formula ≠ [])
    (hr : parse_range (_normalize_ref tr) =
      Except.ok (region, sr, sc, er, ec))
    (hm : payload.mode ≠ s2l ("spreadsheet")) :
    apply_formula_entry p loc tr payload = (p, false) := by
  simp only [apply_formula_entry]
  rw [if_neg hf]
  split
  · rfl
  · rename_i region2 sr2 sc2 er2 ec2 heq
    rw [hr] at heq
    injection heq with h5
    injection h5 with ha h5
    injection h5 with hb h5
    injection h5 with hc2 h5
    injection h5 with hd h5
    subst ha
    subst hb
    subst hc2
    subst hd
    subst h5
    rw [if_pos hm]

/-- A pure formula entry acts on the project as one state-independent
batched update. -/
theorem apply_formula_entry_batch (p : Project) (loc : Loc) (tr : Str)
    (payload : FormulaPayload) (hp : pureEntry payload = true) :
    (apply_formula_entry p loc tr payload).1 =
      applyBatch p (loc, entryKeyVals tr payload) := by
  by_cases hf : strip payload.formula = []
  · rw [apply_formula_entry_empty p loc tr payload hf]
    show p = applyBatch p (loc, entryKeyVals tr payload)
    unfold entryKeyVals
    rw [if_pos hf, applyBatch_nil]
  · cases hr : parse_range (_normalize_ref tr) with
    | error e =>
      rw [apply_formula_entry_noRange p loc tr payload e hf hr]
      show p = applyBatch p (loc, entryKeyVals tr payload)
      unfold entryKeyVals
      rw [if_neg hf, hr]
      show p = applyBatch p (loc, [])
      rw [applyBatch_nil]
    | ok quint =>
      rcases quint with ⟨region, sr, sc, er, ec⟩
      by_cases hm : payload.mode = s2l ("spreadsheet")
      · cases hpf : parse_formula (strip payload.formula) with
        | error e2 =>
          rw [apply_formula_entry_poison p loc tr payload region sr sc er ec e2
            hf hm hr hpf]
          rw [applyPoisonLoop_batch loc region (rectCells sr sc er ec) p false]
          show applyBatch p (loc, (rectCells sr sc er ec).map
              (fun rc => (address region rc.1 rc.2, errorSentinel))) =
            applyBatch p (loc, entryKeyVals tr payload)
          unfold entryKeyVals
          rw [if_neg hf, hr]
          show _ = applyBatch p (loc,
            if payload.mode ≠ s2l ("spreadsheet") then []
            else match parse_formula (strip payload.formula) with
              | Except.error _ =>
                (rectCells sr sc er ec).map
                  (fun rc => (address region rc.1 rc.2, errorSentinel))
              | Except.ok ast =>
                (rectCells sr sc er ec).map
                  (fun rc => (address region rc.1 rc.2, constOutcome ast)))
          rw [if_neg (fun hc => hc hm), hpf]
        | ok ast =>
          have hpa : astPure ast = true := by
            unfold pureEntry at hp
            rw [hpf] at hp
            exact hp
          rw [apply_formula_entry_eval p loc tr payload region sr sc er ec ast
            hf hm hr hpf]
          rw [applyEvalLoop_batch ast loc region sr sc hpa
            (rectCells sr sc er ec) p false]
          show applyBatch p (loc, (rectCells sr sc er ec).map
              (fun rc => (address region rc.1 rc.2, constOutcome ast))) =
            applyBatch p (loc, entryKeyVals tr payload)
          unfold entryKeyVals
          rw [if_neg hf, hr]
          show _ = applyBatch p (loc,
            if payload.mode ≠ s2l ("spreadsheet") then []
            else match parse_formula (strip payload.formula) with
              | Except.error _ =>
                (rectCells sr sc er ec).map
                  (fun rc => (address region rc.1 rc.2, errorSentinel))
              | Except.ok ast2 =>
                (rectCells sr sc er ec).map
                  (fun rc => (address region rc.1 rc.2, constOutcome ast2)))
          rw [if_neg (fun hc => hc hm), hpf]
      · rw [apply_formula_entry_badMode p loc tr payload region sr sc er ec
          hf hr hm]
        show p = applyBatch p (loc, entryKeyVals tr payload)
        unfold entryKeyVals
        rw [if_neg hf, hr]
        show p = applyBatch p (loc,
          if payload.mode ≠ s2l ("spreadsheet") then []
          else match parse_formula (strip payload.formula) with
            | Except.error _ =>
              (rectCells sr sc er ec).map
                (fun rc => (address region rc.1 rc.2, errorSentinel))
            | Except.ok ast =>
              (rectCells sr sc er ec).map
                (fun rc => (address region rc.1 rc.2, constOutcome ast)))
        rw [if_pos hm, applyBatch_nil]

/-- The writes a batch list performs on the table at `loc`, in order. -/
def writesAt : List (Loc × List (Str × PyVal)) → Loc → List (Str × PyVal)
  | [], _ => []
  | b :: rest, loc => (if b.1 = loc then b.2 else []) ++ writesAt rest loc

theorem foldBatch_tableAt :
    ∀ (bs : List (Loc × List (Str × PyVal))) (p : Project) (loc : Loc),
    tableAt (bs.foldl applyBatch p) loc =
      (tableAt p loc).map (fun t =>
        { t with cell_values := dsetList t.cell_values (writesAt bs loc) }) := by
  intro bs
  induction bs with
  | nil =>
    intro p loc
    show tableAt p loc = (tableAt p loc).map _
    cases tableAt p loc <;> rfl
  | cons b rest ih =>
    intro p loc
    rcases b with ⟨bl, ws⟩
    show tableAt (rest.foldl applyBatch (applyBatch p (bl, ws))) loc = _
    rw [ih (applyBatch p (bl, ws)) loc]
    cases htb : tableAt p bl with
    | none =>
      rw [applyBatch_none _ htb]
      by_cases hl : bl = loc
      · subst hl
        rw [htb]
        rfl
      · have hws : writesAt ((bl, ws) :: rest) loc = writesAt rest loc := by
          show (if bl = loc then ws else []) ++ writesAt rest loc = _
          rw [if_neg hl, List.nil_append]
        rw [hws]
    | some t =>
      rw [applyBatch_some _ htb]
      by_cases hl : bl = loc
      · subst hl
        rw [tableAt_modify_self, htb]
        have hws : writesAt ((bl, ws) :: rest) bl = ws ++ writesAt rest bl := by
          show (if bl = bl then ws else []) ++ writesAt rest bl = _
          rw [if_pos rfl]
        rw [hws]
        simp only [dsetList_append]
        rfl
      · rw [tableAt_modify_ne _ _ _ _ (fun hc => hl hc.symm)]
        have hws : writesAt ((bl, ws) :: rest) loc = writesAt rest loc := by
          show (if bl = loc then ws else []) ++ writesAt rest loc = _
          rw [if_neg hl, List.nil_append]
        rw [hws]

theorem applyBatch_counter (p : Project) (b : Loc × List (Str × PyVal)) :
    (applyBatch p b).counter = p.counter := by
  unfold applyBatch
  cases tableAt p b.1 <;> rfl

theorem foldBatch_counter :
    ∀ (bs : List (Loc × List (Str × PyVal))) (p : Project),
    (bs.foldl applyBatch p).counter = p.counter := by
  intro bs
  induction bs with
  | nil => intro p; rfl
  | cons b rest ih =>
    intro p
    show (rest.foldl applyBatch (applyBatch p b)).counter = p.counter
    rw [ih, applyBatch_counter]

theorem modifyTableAt_shape (p : Project) (loc : Loc) (f : Table → Table) :
    (modifyTableAt p loc f).sheets.length = p.sheets.length ∧
    ∀ si, ((modifyTableAt p loc f).sheets.get? si).map
        (fun s => s.tables.length) =
      (p.sheets.get? si).map (fun s => s.tables.length) := by
  constructor
  · exact listModify_length _ _ _
  · intro si
    by_cases hs : loc.1 = si
    · subst hs
      show ((listModify p.sheets loc.1 _).get? loc.1).map _ = _
      rw [listModify_get_self]
      cases p.sheets.get? loc.1 with
      | none => rfl
      | some s =>
        show some (listModify s.tables loc.2 f).length = some s.tables.length
        rw [listModify_length]
    · show ((listModify p.sheets loc.1 _).get? si).map _ = _
      rw [listModify_get_ne _ _ _ _ hs]

theorem applyBatch_shape (p : Project) (b : Loc × List (Str × PyVal)) :
    (applyBatch p b).sheets.length = p.sheets.length ∧
    ∀ si, ((applyBatch p b).sheets.get? si).map (fun s => s.tables.length) =
      (p.sheets.get? si).map (fun s => s.tables.length) := by
  unfold applyBatch
  cases tableAt p b.1 with
  | none => exact ⟨rfl, fun _ => rfl⟩
  | some t => exact modifyTableAt_shape p b.1 _

theorem foldBatch_shape :
    ∀ (bs : List (Loc × List (Str × PyVal))) (p : Project),
    (bs.foldl applyBatch p).sheets.length = p.sheets.length ∧
    ∀ si, ((bs.foldl applyBatch p).sheets.get? si).map
        (fun s => s.tables.length) =
      (p.sheets.get? si).map (fun s => s.tables.length) := by
  intro bs
  induction bs with
  | nil => intro p; exact ⟨rfl, fun _ => rfl⟩
  | cons b rest ih =>
    intro p
    have h1 := applyBatch_shape p b
    have h2 := ih (applyBatch p b)
    refine ⟨?_, ?_⟩
    · show (rest.foldl applyBatch (applyBatch p b)).sheets.length = _
      rw [h2.1, h1.1]
    · intro si
      show ((rest.foldl applyBatch (applyBatch p b)).sheets.get? si).map _ = _
      rw [h2.2 si, h1.2 si]

/-- The value of the last write to key `k` in a write list, if any. -/
def lastWrite : List (Str × PyVal) → Str → Option PyVal
  | [], _ => Option.none
  | w :: rest, k =>
    match lastWrite rest k with
    | some v => some v
    | Option.none => if w.1 = k then some w.2 else Option.none

theorem dget_dsetList (ws : List (Str × PyVal)) (cv : Dict PyVal) (k : Str) :
    dget (dsetList cv ws) k =
      match lastWrite ws k with
      | some v => some v
      | Option.none => dget cv k := by
  induction ws generalizing cv with
  | nil => rfl
  | cons w rest ih =>
    show dget (dsetList (dset cv w.1 w.2) rest) k = _
    rw [ih (dset cv w.1 w.2)]
    show _ = (match (match lastWrite rest k with
      | some v => some v
      | Option.none => if w.1 = k then some w.2 else Option.none) with
      | some v => some v
      | Option.none => dget cv k)
    cases hlw : lastWrite rest k with
    | some v => rfl
    | none =>
      show dget (dset cv w.1 w.2) k =
        (match (if w.1 = k then some w.2 else Option.none) with
          | some v => some v
          | Option.none => dget cv k)
      by_cases hk : w.1 = k
      · rw [if_pos hk, ← hk, dget_dset_self]
      · rw [if_neg hk, dget_dset_ne _ _ _ _ hk]

/-- Replaying a write list leaves every key's value unchanged. -/
theorem dsetList_replay (cv : Dict PyVal) (ws : List (Str × PyVal)) (k : Str) :
    dget (dsetList (dsetList cv ws) ws) k = dget (dsetList cv ws) k := by
  rw [dget_dsetList ws (dsetList cv ws) k]
  cases hlw : lastWrite ws k with
  | none => rfl
  | some v =>
    show some v = _
    rw [dget_dsetList ws cv k, hlw]

/-- The static collection data is in order: no summaries, and every formula
key already has an order value. -/
def staticOk (p : Project) : Prop :=
  ∀ loc t, tableAt p loc = some t →
    t.summary_spec = Option.none ∧
    ∀ pair ∈ t.formulas, (dget t.formula_order pair.1).isSome = true

/-- The entries one table contributes to the collection pass when its
orders are already assigned. -/
def entriesOf (p : Project) (si ti : ℕ) : List (ℕ × ApplyEntry) :=
  match tableAt p (si, ti) with
  | Option.none => []
  | some t => t.formulas.map (fun pair =>
      ((dget t.formula_order pair.1).getD 0,
        ApplyEntry.formulaE (si, ti) pair.1 pair.2))

theorem collectTable_pure (p : Project) (si ti : ℕ) (h : staticOk p)
    (es : List (ℕ × ApplyEntry)) :
    collectTable (p, es) si ti = (p, es ++ entriesOf p si ti) := by
  simp only [collectTable]
  split
  · rename_i hnone
    unfold entriesOf
    rw [hnone, List.append_nil]
  · rename_i t ht
    obtain ⟨hsum, hord⟩ := h (si, ti) t ht
    rw [hsum]
    have hrhs : entriesOf p si ti = t.formulas.map (fun pair =>
        ((dget t.formula_order pair.1).getD 0,
          ApplyEntry.formulaE (si, ti) pair.1 pair.2)) := by
      unfold entriesOf
      rw [ht]
    rw [hrhs]
    have main : ∀ (fl : List (Str × FormulaPayload)),
        (∀ pair ∈ fl, (dget t.formula_order pair.1).isSome = true) →
        ∀ es2 : List (ℕ × ApplyEntry),
        List.foldl
          (fun acc2 pair =>
            let p2 := acc2.1
            match tableAt p2 (si, ti) with
            | Option.none => acc2
            | some t2 =>
              match dget t2.formula_order pair.1 with
              | some o =>
                (p2, acc2.2 ++ [(o, ApplyEntry.formulaE (si, ti) pair.1 pair.2)])
              | Option.none =>
                let o := p2.counter + 1
                ({ modifyTableAt p2 (si, ti)
                    (fun tt => { tt with
                      formula_order := dset tt.formula_order pair.1 o }) with
                    counter := o },
                  acc2.2 ++ [(o, ApplyEntry.formulaE (si, ti) pair.1 pair.2)]))
          ((p, es2) : Project × List (ℕ × ApplyEntry)) fl =
        (p, es2 ++ fl.map (fun pair =>
          ((dget t.formula_order pair.1).getD 0,
            ApplyEntry.formulaE (si, ti) pair.1 pair.2))) := by
      intro fl
      induction fl with
      | nil =>
        intro _ es2
        rw [List.map_nil, List.append_nil]
        rfl
      | cons pair fl ih =>
        intro hall es2
        rcases Option.isSome_iff_exists.mp (hall pair (by simp)) with ⟨o, ho⟩
        show List.foldl _
          (match tableAt p (si, ti) with
            | Option.none => ((p, es2) : Project × List (ℕ × ApplyEntry))
            | some t2 =>
              match dget t2.formula_order pair.1 with
              | some o =>
                (p, es2 ++ [(o, ApplyEntry.formulaE (si, ti) pair.1 pair.2)])
              | Option.none =>
                ({ modifyTableAt p (si, ti)
                    (fun tt => { tt with
                      formula_order :=
                        dset tt.formula_order pair.1 (p.counter + 1) }) with
                    counter := p.counter + 1 },
                  es2 ++ [(p.counter + 1,
                    ApplyEntry.formulaE (si, ti) pair.1 pair.2)])) fl = _
        rw [ht]
        show List.foldl _
          (match dget t.formula_order pair.1 with
            | some o =>
              ((p, es2 ++ [(o, ApplyEntry.formulaE (si, ti) pair.1 pair.2)]) :
                Project × List (ℕ × ApplyEntry))
            | Option.none =>
              ({ modifyTableAt p (si, ti)
                  (fun tt => { tt with
                    formula_order :=
                      dset tt.formula_order pair.1 (p.counter + 1) }) with
                  counter := p.counter + 1 },
                es2 ++ [(p.counter + 1,
                  ApplyEntry.formulaE (si, ti) pair.1 pair.2)])) fl = _
        rw [ho]
        have hrec := ih (fun p2 hp2 => hall p2 (by simp [hp2]))
          (es2 ++ [(o, ApplyEntry.formulaE (si, ti) pair.1 pair.2)])
        simp only [List.map_cons]
        rw [ho]
        rw [← List.append_cons] at hrec
        exact hrec
    exact main t.formulas hord es

/-- The full entry list the collection pass produces when every order is
already assigned. -/
def allEntries (p : Project) : List (ℕ × ApplyEntry) :=
  (List.range p.sheets.length).flatMap (fun si =>
    match p.sheets.get? si with
    | Option.none => []
    | some s => (List.range s.tables.length).flatMap (fun ti => entriesOf p si ti))

theorem collectEntries_pure (p : Project) (h : staticOk p) :
    collectEntries p = (p, allEntries p) := by
  have inner : ∀ (si : ℕ) (tis : List ℕ) (es : List (ℕ × ApplyEntry)),
      List.foldl (fun acc2 ti => collectTable acc2 si ti)
        ((p, es) : Project × List (ℕ × ApplyEntry)) tis =
      (p, es ++ tis.flatMap (fun ti => entriesOf p si ti)) := by
    intro si tis
    induction tis with
    | nil =>
      intro es
      rw [List.flatMap_nil, List.append_nil]
      rfl
    | cons ti tis ih =>
      intro es
      show List.foldl _ (collectTable (p, es) si ti) tis = _
      rw [collectTable_pure p si ti h es, ih, List.flatMap_cons,
        List.append_assoc]
  have outer : ∀ (sis : List ℕ) (es : List (ℕ × ApplyEntry)),
      List.foldl
        (fun acc si =>
          match p.sheets.get? si with
          | Option.none => acc
          | some s =>
            List.foldl (fun acc2 ti => collectTable acc2 si ti) acc
              (List.range s.tables.length))
        ((p, es) : Project × List (ℕ × ApplyEntry)) sis =
      (p, es ++ sis.flatMap (fun si =>
        match p.sheets.get? si with
        | Option.none => []
        | some s =>
          (List.range s.tables.length).flatMap (fun ti => entriesOf p si ti))) := by
    intro sis
    induction sis with
    | nil =>
      intro es
      rw [List.flatMap_nil, List.append_nil]
      rfl
    | cons si sis ih =>
      intro es
      show List.foldl _
        (match p.sheets.get? si with
          | Option.none => ((p, es) : Project × List (ℕ × ApplyEntry))
          | some s =>
            List.foldl (fun acc2 ti => collectTable acc2 si ti) (p, es)
              (List.range s.tables.length)) sis = _
      cases hs : p.sheets.get? si with
      | none =>
        show List.foldl _ ((p, es) : Project × List (ℕ × ApplyEntry)) sis = _
        rw [ih, List.flatMap_cons]
        have : (match p.sheets.get? si with
          | Option.none => ([] : List (ℕ × ApplyEntry))
          | some s =>
            (List.range s.tables.length).flatMap
              (fun ti => entriesOf p si ti)) = [] := by
          rw [hs]
        rw [this, List.nil_append]
      | some s =>
        show List.foldl _
          (List.foldl (fun acc2 ti => collectTable acc2 si ti) (p, es)
            (List.range s.tables.length)) sis = _
        rw [inner si (List.range s.tables.length) es, ih, List.flatMap_cons,
          List.append_assoc]
        have : (match p.sheets.get? si with
          | Option.none => ([] : List (ℕ × ApplyEntry))
          | some s2 =>
            (List.range s2.tables.length).flatMap
              (fun ti => entriesOf p si ti)) =
            (List.range s.tables.length).flatMap (fun ti => entriesOf p si ti) := by
          rw [hs]
        rw [this]
  show (List.range p.sheets.length).foldl _ (p, []) = _
  have hfin := outer (List.range p.sheets.length) []
  rw [List.nil_append] at hfin
  exact hfin

/-- One step of the execution pass of `Project.apply_formulas`. -/
def runEntry (pc : Project) (e : ℕ × ApplyEntry) : Project :=
  match e.2 with
  | ApplyEntry.summary loc => _apply_summary_table pc loc
  | ApplyEntry.formulaE loc tr payload => (apply_formula_entry pc loc tr payload).1

def entryBatch (e : ℕ × ApplyEntry) : Loc × List (Str × PyVal) :=
  match e.2 with
  | ApplyEntry.summary loc => (loc, [])
  | ApplyEntry.formulaE loc tr payload => (loc, entryKeyVals tr payload)

/-- An entry is a pure formula entry (no summaries). -/
def entryOk (e : ℕ × ApplyEntry) : Prop :=
  match e.2 with
  | ApplyEntry.summary _ => False
  | ApplyEntry.formulaE _ _ payload => pureEntry payload = true

theorem runEntries_batch :
    ∀ (es : List (ℕ × ApplyEntry)), (∀ e ∈ es, entryOk e) →
    ∀ p : Project, es.foldl runEntry p = (es.map entryBatch).foldl applyBatch p := by
  intro es
  induction es with
  | nil => intro _ p; rfl
  | cons e rest ih =>
    intro hall p
    have he := hall e (by simp)
    rcases e with ⟨o, ent⟩
    cases ent with
    | summary loc => exact False.elim he
    | formulaE loc tr payload =>
      show rest.foldl runEntry
        ((apply_formula_entry p loc tr payload).1) = _
      rw [apply_formula_entry_batch p loc tr payload he]
      exact ih (fun e2 h2 => hall e2 (by simp [h2]))
        (applyBatch p (loc, entryKeyVals tr payload))

theorem flatMap_congr {α β : Type} (l : List α) (f g : α → List β)
    (h : ∀ a ∈ l, f a = g a) : l.flatMap f = l.flatMap g := by
  induction l with
  | nil => rfl
  | cons a t ih =>
    rw [List.flatMap_cons, List.flatMap_cons, h a (by simp),
      ih (fun a2 h2 => h a2 (by simp [h2]))]

theorem allEntries_congr (p q : Project)
    (hlen : p.sheets.length = q.sheets.length)
    (hshape : ∀ si, (p.sheets.get? si).map (fun s => s.tables.length) =
      (q.sheets.get? si).map (fun s => s.tables.length))
    (hstatic : ∀ loc, (tableAt p loc).map (fun t =>
        (t.formulas, t.formula_order, t.summary_spec, t.summary_order)) =
      (tableAt q loc).map (fun t =>
        (t.formulas, t.formula_order, t.summary_spec, t.summary_order))) :
    allEntries p = allEntries q := by
  have hloc : ∀ si ti, entriesOf p si ti = entriesOf q si ti := by
    intro si ti
    have hst := hstatic (si, ti)
    unfold entriesOf
    cases htp : tableAt p (si, ti) with
    | none =>
      rw [htp] at hst
      cases htq : tableAt q (si, ti) with
      | none => rfl
      | some t2 =>
        rw [htq] at hst
        cases hst
    | some t =>
      rw [htp] at hst
      cases htq : tableAt q (si, ti) with
      | none =>
        rw [htq] at hst
        cases hst
      | some t2 =>
        rw [htq] at hst
        injection hst with h4
        injection h4 with hf h4
        injection h4 with ho h4
        show List.map (fun pair =>
            ((dget t.formula_order pair.1).getD 0,
              ApplyEntry.formulaE (si, ti) pair.1 pair.2)) t.formulas =
          List.map (fun pair =>
            ((dget t2.formula_order pair.1).getD 0,
              ApplyEntry.formulaE (si, ti) pair.1 pair.2)) t2.formulas
        rw [hf, ho]
  unfold allEntries
  rw [hlen]
  refine flatMap_congr _ _ _ ?_
  intro si _
  have hsh := hshape si
  cases hp : p.sheets.get? si with
  | none =>
    rw [hp] at hsh
    cases hq : q.sheets.get? si with
    | none => rfl
    | some s2 =>
      rw [hq] at hsh
      cases hsh
  | some s =>
    rw [hp] at hsh
    cases hq : q.sheets.get? si with
    | none =>
      rw [hq] at hsh
      cases hsh
    | some s2 =>
      rw [hq] at hsh
      injection hsh with hlen2
      have hlen3 : s.tables.length = s2.tables.length := hlen2
      show (List.range s.tables.length).flatMap (fun ti => entriesOf p si ti) =
        (List.range s2.tables.length).flatMap (fun ti => entriesOf q si ti)
      rw [hlen3]
      exact flatMap_congr _ _ _ (fun ti _ => hloc si ti)

theorem allEntries_ok (p : Project)
    (hpure : ∀ loc t, tableAt p loc = some t →
      ∀ pair ∈ t.formulas, pureEntry pair.2 = true) :
    ∀ e ∈ allEntries p, entryOk e := by
  intro e he
  unfold allEntries at he
  rcases List.mem_flatMap.mp he with ⟨si, hsi, he2⟩
  cases hs : p.sheets.get? si with
  | none =>
    rw [hs] at he2
    exact absurd he2 (List.not_mem_nil e)
  | some s =>
    rw [hs] at he2
    rcases List.mem_flatMap.mp he2 with ⟨ti, hti, he3⟩
    unfold entriesOf at he3
    cases ht : tableAt p (si, ti) with
    | none =>
      rw [ht] at he3
      exact absurd he3 (List.not_mem_nil e)
    | some t =>
      rw [ht] at he3
      rcases List.mem_map.mp he3 with ⟨pair, hpair, hep⟩
      rw [← hep]
      exact hpure (si, ti) t ht pair hpair

/-- Under the static hypotheses, one `apply_formulas` pass is the batched
execution of the (sorted) collected entries. -/
theorem apply_formulas_batch (p : Project) (hs : staticOk p)
    (hpure : ∀ loc t, tableAt p loc = some t →
      ∀ pair ∈ t.formulas, pureEntry pair.2 = true) :
    project_apply_formulas p =
      ((List.insertionSort (fun a b => a.1 ≤ b.1) (allEntries p)).map
        entryBatch).foldl applyBatch p := by
  show (List.insertionSort (fun a b => a.1 ≤ b.1) (collectEntries p).2).foldl
      runEntry (collectEntries p).1 = _
  rw [collectEntries_pure p hs]
  show (List.insertionSort (fun a b => a.1 ≤ b.1) (allEntries p)).foldl
      runEntry p = _
  exact runEntries_batch _
    (fun e he => allEntries_ok p hpure e
      ((List.perm_insertionSort (fun a b => a.1 ≤ b.1) (allEntries p)).mem_iff.mp
        he)) p

/-- C6 (amended): the spec's unconditional idempotence claim is false (see
the counterexample), because a formula defined before a dependency reads the
dependency's previous-pass value.  The repaired statement: when no table has
a summary spec, every formula key has an assigned order value, and every
formula that parses is reference-free, calling `apply_formulas()` twice
yields identical cell values in every table after the first and after the
second call. -/
theorem claim_C6_amended_idempotent (p0 : Project) (hs : staticOk p0)
    (hpure : ∀ loc t, tableAt p0 loc = some t →
      ∀ pair ∈ t.formulas, pureEntry pair.2 = true) :
    ∀ (loc : Loc) (k : Str),
      (tableAt (project_apply_formulas (project_apply_formulas p0)) loc).map
          (fun t => dget t.cell_values k) =
        (tableAt (project_apply_formulas p0) loc).map
          (fun t => dget t.cell_values k) := by
  have h1 := apply_formulas_batch p0 hs hpure
  generalize hbs : (List.insertionSort (fun a b => a.1 ≤ b.1)
    (allEntries p0)).map entryBatch = bs at h1
  have hstatic : ∀ loc, (tableAt (bs.foldl applyBatch p0) loc).map
      (fun t => (t.formulas, t.formula_order, t.summary_spec, t.summary_order)) =
    (tableAt p0 loc).map
      (fun t => (t.formulas, t.formula_order, t.summary_spec, t.summary_order)) := by
    intro loc
    rw [foldBatch_tableAt bs p0 loc]
    cases tableAt p0 loc <;> rfl
  have hs1 : staticOk (bs.foldl applyBatch p0) := by
    intro loc t ht
    rw [foldBatch_tableAt bs p0 loc] at ht
    cases h0 : tableAt p0 loc with
    | none =>
      rw [h0] at ht
      cases ht
    | some t0 =>
      rw [h0] at ht
      injection ht with ht2
      obtain ⟨ha, hb⟩ := hs loc t0 h0
      rw [← ht2]
      exact ⟨ha, hb⟩
  have hp1 : ∀ loc t, tableAt (bs.foldl applyBatch p0) loc = some t →
      ∀ pair ∈ t.formulas, pureEntry pair.2 = true := by
    intro loc t ht
    rw [foldBatch_tableAt bs p0 loc] at ht
    cases h0 : tableAt p0 loc with
    | none =>
      rw [h0] at ht
      cases ht
    | some t0 =>
      rw [h0] at ht
      injection ht with ht2
      rw [← ht2]
      exact hpure loc t0 h0
  have hAE : allEntries (bs.foldl applyBatch p0) = allEntries p0 :=
    allEntries_congr _ _ (foldBatch_shape bs p0).1 (foldBatch_shape bs p0).2
      hstatic
  have h2 := apply_formulas_batch (bs.foldl applyBatch p0) hs1 hp1
  rw [hAE, hbs] at h2
  intro loc k
  rw [h1, h2, foldBatch_tableAt bs (bs.foldl applyBatch p0) loc,
    foldBatch_tableAt bs p0 loc]
  cases h0 : tableAt p0 loc with
  | none => rfl
  | some t0 =>
    show some _ = some _
    exact congrArg some (dsetList_replay t0.cell_values (writesAt bs loc) k)

def c6aStep : Table × ℕ :=
  set_formula testTable1x1 (s2l ("body[A0]")) (s2l ("=1+2"))
    (s2l ("spreadsheet")) 0

def c6aProject : Project :=
  ⟨[⟨s2l ("sheet_1"), s2l ("Sheet 1"), [c6aStep.1]⟩], c6aStep.2⟩

theorem claim_C6_amended_witness :
    (tableAt (project_apply_formulas (project_apply_formulas c6aProject))
        (0, 0)).map (fun t => dget t.cell_values (s2l ("body[A0]"))) =
      (tableAt (project_apply_formulas c6aProject) (0, 0)).map
        (fun t => dget t.cell_values (s2l ("body[A0]"))) := by
  refine claim_C6_amended_idempotent c6aProject ?_ ?_ (0, 0) (s2l ("body[A0]"))
  · intro loc t ht
    rcases loc with ⟨si, ti⟩
    cases si with
    | zero =>
      cases ti with
      | zero =>
        have ht2 : some c6aStep.1 = some t := ht
        injection ht2 with h3
        subst h3
        refine ⟨rfl, ?_⟩
        intro pair hp
        cases hp with
        | head => exact rfl
        | tail _ h2 => cases h2
      | succ n => exact Option.noConfusion ht
    | succ m => exact Option.noConfusion ht
  · intro loc t ht
    rcases loc with ⟨si, ti⟩
    cases si with
    | zero =>
      cases ti with
      | zero =>
        have ht2 : some c6aStep.1 = some t := ht
        injection ht2 with h3
        subst h3
        intro pair hp
        cases hp with
        | head => exact rfl
        | tail _ h2 => cases h2
      | succ n => exact Option.noConfusion ht
    | succ m => exact Option.noConfusion ht

def c4Project : Project :=
  ⟨[⟨s2l ("sheet_1"), s2l ("Sheet 1"), [testTable1x1]⟩], 0⟩

theorem claim_C4_witness :
    ∃ t', tableAt (apply_formula_entry c4Project (0, 0) (s2l ("body[A0:A1]"))
        ⟨s2l ("=("), s2l ("spreadsheet")⟩).1 (0, 0) = some t' ∧
      dget t'.cell_values (address (s2l ("body")) 0 0) = some errorSentinel ∧
      dget t'.cell_values (address (s2l ("body")) 1 0) = some errorSentinel := by
  rcases (claim_C4_error_containment c4Project (0, 0) (s2l ("body[A0:A1]"))
      ⟨s2l ("=("), s2l ("spreadsheet")⟩ testTable1x1 (s2l ("body")) 0 0 1 0
      rfl (by decide) rfl rfl).1 (FormulaErr.unexpectedToken 1) rfl with
    ⟨t', htt, hcells, _, _, _⟩
  exact ⟨t', htt, hcells 0 0 (by decide) (by decide) (by decide) (by decide),
    hcells 1 0 (by decide) (by decide) (by decide) (by decide)⟩

/-! ## C7: summary grouping — skip rule, one group per row, first-seen order -/

/-- The row's group-by values, as the scan reads them. -/
def rowGroupValues (source : Table) (group_by : List ℕ) (row : ℕ) :
    List PyVal :=
  group_by.map (fun col =>
    unwrap_value ((dget source.cell_values
      (address (s2l ("body")) row col)).getD .none))

/-- The row's group key (tuple of key components). -/
def rowKey (source : Table) (group_by : List ℕ) (row : ℕ) : List PyVal :=
  (rowGroupValues source group_by row).map summary_key_component

/-- Folding one row's value into one accumulator. -/
def rowAccAdd (source : Table) (row : ℕ) (acc : SummaryAccumulator)
    (vs : SummaryValueSpec) : SummaryAccumulator :=
  accAdd acc (unwrap_value ((dget source.cell_values
    (address (s2l ("body")) row vs.col)).getD .none))

/-- `summaryScanRow` in terms of the row-level abbreviations. -/
theorem summaryScanRow_eq (source : Table) (group_by : List ℕ)
    (value_specs : List SummaryValueSpec) (st : SummaryScanState) (row : ℕ) :
    summaryScanRow source group_by value_specs st row =
      if group_by ≠ [] ∧
          (rowGroupValues source group_by row).all _is_summary_empty then st
      else
        let key := rowKey source group_by row
        let st1 := match keyLookup st.aggregates key with
          | some _ => st
          | Option.none =>
            ⟨st.group_order ++ [key],
             keySet st.aggregates key
               (value_specs.map (fun (vs : SummaryValueSpec) =>
                 newAccumulator vs.agg)),
             keySet st.group_values_map key
               (rowGroupValues source group_by row)⟩
        let accs := (keyLookup st1.aggregates key).getD []
        { st1 with
            aggregates := keySet st1.aggregates key
              (List.zipWith (rowAccAdd source row) accs value_specs) } := rfl

theorem keyLookup_cons {α : Type} (e : List PyVal × α)
    (t : List (List PyVal × α)) (k : List PyVal) :
    keyLookup (e :: t) k =
      if pyEqList e.1 k = true then some e.2 else keyLookup t k := by
  by_cases h : pyEqList e.1 k = true
  · rw [if_pos h]
    simp [keyLookup, List.find?_cons, h]
  · rw [if_neg h]
    have h2 : pyEqList e.1 k = false := by simpa using h
    simp [keyLookup, List.find?_cons, h2]

theorem keySet_not_found {α : Type} (m : List (List PyVal × α))
    (k : List PyVal) (v : α) (h : keyLookup m k = Option.none) :
    keySet m k v = m ++ [(k, v)] := by
  induction m with
  | nil => rfl
  | cons e t ih =>
    rw [keyLookup_cons] at h
    by_cases he : pyEqList e.1 k = true
    · rw [if_pos he] at h
      cases h
    · rw [if_neg he] at h
      show (if pyEqList e.1 k then (e.1, v) :: t else e :: keySet t k v) = _
      rw [if_neg (by simpa using he), ih h, List.cons_append]

theorem keyLookup_not_found_miss {α : Type} (m : List (List PyVal × α))
    (k : List PyVal) (h : keyLookup m k = Option.none) :
    ∀ e ∈ m, pyEqList e.1 k = false := by
  induction m with
  | nil => intro e he; exact absurd he (List.not_mem_nil e)
  | cons e2 t ih =>
    rw [keyLookup_cons] at h
    by_cases he : pyEqList e2.1 k = true
    · rw [if_pos he] at h
      cases h
    · rw [if_neg he] at h
      intro e3 he3
      rcases List.mem_cons.mp he3 with rfl | hm
      · simpa using he
      · exact ih h e3 hm

theorem keyLookup_append_self {α : Type} (m : List (List PyVal × α))
    (k : List PyVal) (v : α) (h : keyLookup m k = Option.none)
    (hrefl : pyEqList k k = true) :
    keyLookup (m ++ [(k, v)]) k = some v := by
  induction m with
  | nil =>
    rw [List.nil_append, keyLookup_cons, if_pos hrefl]
  | cons e t ih =>
    rw [keyLookup_cons] at h
    by_cases he : pyEqList e.1 k = true
    · rw [if_pos he] at h
      cases h
    · rw [if_neg he] at h
      rw [List.cons_append, keyLookup_cons, if_neg he]
      exact ih h

theorem keySet_append_hit {α : Type} (m : List (List PyVal × α))
    (k : List PyVal) (w v : α) (h : ∀ e ∈ m, pyEqList e.1 k = false)
    (hrefl : pyEqList k k = true) :
    keySet (m ++ [(k, w)]) k v = m ++ [(k, v)] := by
  induction m with
  | nil =>
    show (if pyEqList k k then ((k, v) :: []) else _) = _
    rw [if_pos hrefl]
    rfl
  | cons e t ih =>
    rw [List.cons_append]
    show (if pyEqList e.1 k then (e.1, v) :: (t ++ [(k, w)])
      else e :: keySet (t ++ [(k, w)]) k v) = _
    rw [if_neg (by simp [h e (by simp)]), ih (fun e2 h2 => h e2 (by simp [h2])),
      List.cons_append]

/-- Decomposition of a successful lookup: the dict splits around the first
matching entry, and `keySet` replaces exactly that entry's value. -/
theorem keyLookup_found_decomp {α : Type} (m : List (List PyVal × α))
    (k : List PyVal) (w : α) (h : keyLookup m k = some w) :
    ∃ pre k0 post, m = pre ++ (k0, w) :: post ∧
      (∀ e ∈ pre, pyEqList e.1 k = false) ∧
      pyEqList k0 k = true ∧
      ∀ v, keySet m k v = pre ++ (k0, v) :: post := by
  induction m with
  | nil => cases h
  | cons e t ih =>
    rw [keyLookup_cons] at h
    by_cases he : pyEqList e.1 k = true
    · rw [if_pos he] at h
      injection h with hw
      refine ⟨[], e.1, t, ?_, ?_, he, ?_⟩
      · rw [List.nil_append, ← hw]
      · intro e2 he2
        exact absurd he2 (List.not_mem_nil e2)
      · intro v
        show (if pyEqList e.1 k then (e.1, v) :: t else _) = _
        rw [if_pos (by simpa using he), List.nil_append]
    · rw [if_neg he] at h
      rcases ih h with ⟨pre, k0, post, hm, hpre, hk0, hset⟩
      refine ⟨e :: pre, k0, post, ?_, ?_, hk0, ?_⟩
      · rw [List.cons_append, ← hm]
      · intro e2 he2
        rcases List.mem_cons.mp he2 with rfl | hmem
        · simpa using he
        · exact hpre e2 hmem
      · intro v
        show (if pyEqList e.1 k then (e.1, v) :: t else e :: keySet t k v) = _
        rw [if_neg (by simpa using he), hset v, List.cons_append]

theorem summaryScanRow_skip (source : Table) (group_by : List ℕ)
    (value_specs : List SummaryValueSpec) (st : SummaryScanState) (row : ℕ)
    (h : group_by ≠ [] ∧
      (rowGroupValues source group_by row).all _is_summary_empty) :
    summaryScanRow source group_by value_specs st row = st := by
  rw [summaryScanRow_eq, if_pos h]

theorem summaryScanRow_seen (source : Table) (group_by : List ℕ)
    (value_specs : List SummaryValueSpec) (st : SummaryScanState) (row : ℕ)
    (accs0 : List SummaryAccumulator)
    (hns : ¬(group_by ≠ [] ∧
      (rowGroupValues source group_by row).all _is_summary_empty))
    (hlk : keyLookup st.aggregates (rowKey source group_by row) = some accs0) :
    summaryScanRow source group_by value_specs st row =
      { st with
          aggregates := keySet st.aggregates (rowKey source group_by row)
            (List.zipWith (rowAccAdd source row) accs0 value_specs) } := by
  simp only [summaryScanRow_eq]
  rw [if_neg hns, hlk]
  show ({ st with
      aggregates := keySet st.aggregates (rowKey source group_by row)
        (List.zipWith (rowAccAdd source row)
          ((keyLookup st.aggregates (rowKey source group_by row)).getD [])
          value_specs) } : SummaryScanState) = _
  rw [hlk]
  rfl

theorem summaryScanRow_unseen (source : Table) (group_by : List ℕ)
    (value_specs : List SummaryValueSpec) (st : SummaryScanState) (row : ℕ)
    (hns : ¬(group_by ≠ [] ∧
      (rowGroupValues source group_by row).all _is_summary_empty))
    (hlk : keyLookup st.aggregates (rowKey source group_by row) = Option.none)
    (hrefl : pyEqList (rowKey source group_by row)
      (rowKey source group_by row) = true) :
    summaryScanRow source group_by value_specs st row =
      ⟨st.group_order ++ [rowKey source group_by row],
       st.aggregates ++ [(rowKey source group_by row,
         List.zipWith (rowAccAdd source row)
           (value_specs.map (fun (vs : SummaryValueSpec) =>
             newAccumulator vs.agg)) value_specs)],
       keySet st.group_values_map (rowKey source group_by row)
         (rowGroupValues source group_by row)⟩ := by
  simp only [summaryScanRow_eq]
  rw [if_neg hns, hlk]
  show ({ (⟨st.group_order ++ [rowKey source group_by row],
      keySet st.aggregates (rowKey source group_by row)
        (value_specs.map (fun (vs : SummaryValueSpec) =>
          newAccumulator vs.agg)),
      keySet st.group_values_map (rowKey source group_by row)
        (rowGroupValues source group_by row)⟩ : SummaryScanState) with
      aggregates := keySet
        (keySet st.aggregates (rowKey source group_by row)
          (value_specs.map (fun (vs : SummaryValueSpec) =>
            newAccumulator vs.agg)))
        (rowKey source group_by row)
        (List.zipWith (rowAccAdd source row)
          ((keyLookup
            (keySet st.aggregates (rowKey source group_by row)
              (value_specs.map (fun (vs : SummaryValueSpec) =>
                newAccumulator vs.agg)))
            (rowKey source group_by row)).getD [])
          value_specs) } : SummaryScanState) = _
  rw [keySet_not_found st.aggregates (rowKey source group_by row) _ hlk,
    keyLookup_append_self st.aggregates (rowKey source group_by row) _ hlk
      hrefl,
    keySet_append_hit st.aggregates (rowKey source group_by row) _ _
      (keyLookup_not_found_miss _ _ hlk) hrefl]
  rfl

/-- Membership of a key in a key list, by tuple equality. -/
def keyMem (k : List PyVal) : List (List PyVal) → Bool
  | [] => false
  | k2 :: t => pyEqList k2 k || keyMem k t

theorem keyLookup_isSome {α : Type} (m : List (List PyVal × α))
    (k : List PyVal) :
    (keyLookup m k).isSome = keyMem k (m.map Prod.fst) := by
  induction m with
  | nil => rfl
  | cons e t ih =>
    rw [keyLookup_cons, List.map_cons]
    show _ = (pyEqList e.1 k || keyMem k (t.map Prod.fst))
    by_cases h : pyEqList e.1 k = true
    · rw [if_pos h, h, Bool.true_or]
      rfl
    · have h2 : pyEqList e.1 k = false := by simpa using h
      rw [if_neg h, h2, Bool.false_or, ih]

theorem keyMem_append (k : List PyVal) (l1 l2 : List (List PyVal)) :
    keyMem k (l1 ++ l2) = (keyMem k l1 || keyMem k l2) := by
  induction l1 with
  | nil => rw [List.nil_append]; rfl
  | cons a t ih =>
    rw [List.cons_append]
    show (pyEqList a k || keyMem k (t ++ l2)) = _
    rw [ih, ← Bool.or_assoc]
    rfl

theorem keySet_keys_of_found {α : Type} (m : List (List PyVal × α))
    (k : List PyVal) (w : α) (v : α) (h : keyLookup m k = some w) :
    (keySet m k v).map Prod.fst = m.map Prod.fst := by
  rcases keyLookup_found_decomp m k w h with ⟨pre, k0, post, hm, _, _, hset⟩
  rw [hset v, hm, List.map_append, List.map_append, List.map_cons,
    List.map_cons]

/-- The reference first-seen fold over source rows: skip empty-group rows,
append each unseen key. -/
def firstSeenStep (source : Table) (group_by : List ℕ)
    (acc : List (List PyVal)) (row : ℕ) : List (List PyVal) :=
  if group_by ≠ [] ∧
      (rowGroupValues source group_by row).all _is_summary_empty then acc
  else if keyMem (rowKey source group_by row) acc then acc
  else acc ++ [rowKey source group_by row]

def firstSeenKeys (source : Table) (group_by : List ℕ) (body_rows : ℕ) :
    List (List PyVal) :=
  (List.range body_rows).foldl (firstSeenStep source group_by) []

/-- Scan invariant: the aggregate dict holds exactly the keys recorded in
`group_order`. -/
def scanInv (st : SummaryScanState) : Prop :=
  ∀ k, (keyLookup st.aggregates k).isSome = keyMem k st.group_order

theorem scanRow_inv_step (source : Table) (group_by : List ℕ)
    (value_specs : List SummaryValueSpec) (st : SummaryScanState) (row : ℕ)
    (hrefl : pyEqList (rowKey source group_by row)
      (rowKey source group_by row) = true)
    (hinv : scanInv st) :
    scanInv (summaryScanRow source group_by value_specs st row) ∧
    (summaryScanRow source group_by value_specs st row).group_order =
      firstSeenStep source group_by st.group_order row := by
  by_cases hskip : group_by ≠ [] ∧
      (rowGroupValues source group_by row).all _is_summary_empty
  · rw [summaryScanRow_skip source group_by value_specs st row hskip]
    refine ⟨hinv, ?_⟩
    unfold firstSeenStep
    rw [if_pos hskip]
  · cases hlk : keyLookup st.aggregates (rowKey source group_by row) with
    | some accs0 =>
      rw [summaryScanRow_seen source group_by value_specs st row accs0 hskip
        hlk]
      have hkm : keyMem (rowKey source group_by row) st.group_order = true := by
        rw [← hinv, hlk]
        rfl
      refine ⟨?_, ?_⟩
      · intro k
        show (keyLookup (keySet st.aggregates (rowKey source group_by row) _)
          k).isSome = keyMem k st.group_order
        rw [keyLookup_isSome, keySet_keys_of_found _ _ _ _ hlk,
          ← keyLookup_isSome, hinv k]
      · show st.group_order = firstSeenStep source group_by st.group_order row
        unfold firstSeenStep
        rw [if_neg hskip, if_pos hkm]
    | none =>
      rw [summaryScanRow_unseen source group_by value_specs st row hskip hlk
        hrefl]
      have hkm : keyMem (rowKey source group_by row) st.group_order = false := by
        rw [← hinv, hlk]
        rfl
      refine ⟨?_, ?_⟩
      · intro k
        show (keyLookup (st.aggregates ++ [(rowKey source group_by row, _)])
          k).isSome = keyMem k (st.group_order ++ [rowKey source group_by row])
        rw [keyLookup_isSome, List.map_append, List.map_cons, List.map_nil,
          keyMem_append, keyMem_append, ← keyLookup_isSome, hinv k]
      · show st.group_order ++ [rowKey source group_by row] =
          firstSeenStep source group_by st.group_order row
        unfold firstSeenStep
        rw [if_neg hskip, if_neg (by rw [hkm]; exact Bool.false_ne_true)]

theorem summaryScan_first_seen (source : Table) (group_by : List ℕ)
    (value_specs : List SummaryValueSpec) (body_rows : ℕ)
    (hrefl : ∀ row, row < body_rows →
      pyEqList (rowKey source group_by row)
        (rowKey source group_by row) = true) :
    (summaryScan source group_by value_specs body_rows).group_order =
      firstSeenKeys source group_by body_rows := by
  have main : ∀ (rows : List ℕ) (st : SummaryScanState),
      (∀ row ∈ rows, pyEqList (rowKey source group_by row)
        (rowKey source group_by row) = true) →
      scanInv st →
      scanInv (rows.foldl (summaryScanRow source group_by value_specs) st) ∧
      (rows.foldl (summaryScanRow source group_by value_specs) st).group_order =
        rows.foldl (firstSeenStep source group_by) st.group_order := by
    intro rows
    induction rows with
    | nil =>
      intro st _ hinv
      exact ⟨hinv, rfl⟩
    | cons r rs ih =>
      intro st hr hinv
      have hstep := scanRow_inv_step source group_by value_specs st r
        (hr r (by simp)) hinv
      have ih2 := ih (summaryScanRow source group_by value_specs st r)
        (fun row h => hr row (by simp [h])) hstep.1
      refine ⟨ih2.1, ?_⟩
      show (rs.foldl _ (summaryScanRow source group_by value_specs st r)).group_order =
        rs.foldl (firstSeenStep source group_by)
          (firstSeenStep source group_by st.group_order r)
      rw [ih2.2, hstep.2]
  have h0 : scanInv ⟨[], [], []⟩ := fun k => rfl
  exact (main (List.range body_rows) ⟨[], [], []⟩
    (fun row h => hrefl row (List.mem_range.mp h)) h0).2

theorem summaryResultRows_eq (st : SummaryScanState)
    (value_specs : List SummaryValueSpec) (h : st.group_order ≠ []) :
    summaryResultRows st value_specs = st.group_order.map (fun key =>
      ((keyLookup st.group_values_map key).getD []) ++
      (((keyLookup st.aggregates key).getD
        (value_specs.map (fun (vs : SummaryValueSpec) =>
          newAccumulator vs.agg))).map accFinalize)) := by
  unfold summaryResultRows
  have hne : st.group_order.isEmpty = false := by
    cases hgo : st.group_order with
    | nil => exact absurd hgo h
    | cons a t => rfl
  rw [hne]
  rfl

/-- C7: summary grouping.  (1) A source row whose group-by list is non-empty
and whose group values are all empty contributes to no group: the scan state
is unchanged.  (2) Any other row contributes to exactly one group, keyed by
its tuple of group values: if the key was seen, exactly the first matching
aggregate entry absorbs the row's values and the group order is unchanged;
if unseen, the key is appended to the group order and a fresh accumulator
row absorbing this row's values is appended.  (3) The final group order is
the first-seen order of the distinct keys scanning rows from 0 upward.
(4) Each output body row is the group values followed by the finalized
aggregates, one row per group key in that order.  (Key self-equality
hypotheses exclude NaN group components, whose CPython identity-based dict
semantics the embedding does not model.) -/
theorem claim_C7_summary_grouping (source : Table) (group_by : List ℕ)
    (value_specs : List SummaryValueSpec) :
    (∀ (st : SummaryScanState) (row : ℕ),
      group_by ≠ [] →
      (rowGroupValues source group_by row).all _is_summary_empty = true →
      summaryScanRow source group_by value_specs st row = st) ∧
    (∀ (st : SummaryScanState) (row : ℕ),
      ¬(group_by ≠ [] ∧
        (rowGroupValues source group_by row).all _is_summary_empty) →
      (∀ accs0, keyLookup st.aggregates (rowKey source group_by row) =
          some accs0 →
        ∃ pre k0 post,
          st.aggregates = pre ++ (k0, accs0) :: post ∧
          (∀ e ∈ pre, pyEqList e.1 (rowKey source group_by row) = false) ∧
          pyEqList k0 (rowKey source group_by row) = true ∧
          summaryScanRow source group_by value_specs st row =
            { st with
                aggregates := pre ++ (k0,
                  List.zipWith (rowAccAdd source row) accs0 value_specs) ::
                    post }) ∧
      (keyLookup st.aggregates (rowKey source group_by row) = Option.none →
        pyEqList (rowKey source group_by row)
          (rowKey source group_by row) = true →
        summaryScanRow source group_by value_specs st row =
          ⟨st.group_order ++ [rowKey source group_by row],
           st.aggregates ++ [(rowKey source group_by row,
             List.zipWith (rowAccAdd source row)
               (value_specs.map (fun (vs : SummaryValueSpec) =>
                 newAccumulator vs.agg)) value_specs)],
           keySet st.group_values_map (rowKey source group_by row)
             (rowGroupValues source group_by row)⟩)) ∧
    (∀ body_rows : ℕ,
      (∀ row, row < body_rows →
        pyEqList (rowKey source group_by row)
          (rowKey source group_by row) = true) →
      (summaryScan source group_by value_specs body_rows).group_order =
        firstSeenKeys source group_by body_rows) ∧
    (∀ st : SummaryScanState, st.group_order ≠ [] →
      summaryResultRows st value_specs = st.group_order.map (fun key =>
        ((keyLookup st.group_values_map key).getD []) ++
        (((keyLookup st.aggregates key).getD
          (value_specs.map (fun (vs : SummaryValueSpec) =>
            newAccumulator vs.agg))).map accFinalize))) := by
  refine ⟨?_, ?_, ?_, ?_⟩
  · intro st row h1 h2
    exact summaryScanRow_skip source group_by value_specs st row ⟨h1, h2⟩
  · intro st row hns
    constructor
    · intro accs0 hlk
      rcases keyLookup_found_decomp st.aggregates
          (rowKey source group_by row) accs0 hlk with
        ⟨pre, k0, post, hm, hpre, hk0, hset⟩
      refine ⟨pre, k0, post, hm, hpre, hk0, ?_⟩
      rw [summaryScanRow_seen source group_by value_specs st row accs0 hns hlk,
        hset]
    · intro hlk hrefl
      exact summaryScanRow_unseen source group_by value_specs st row hns hlk
        hrefl
  · intro body_rows hrefl
    exact summaryScan_first_seen source group_by value_specs body_rows hrefl
  · intro st h
    exact summaryResultRows_eq st value_specs h

def c7Source : Table :=
  { testTable1x1 with
      cell_values := [
        (s2l ("body[A0]"), PyVal.str (s2l ("a"))),
        (s2l ("body[B0]"), PyVal.num (.q 1)),
        (s2l ("body[A1]"), PyVal.str (s2l ("a"))),
        (s2l ("body[B1]"), PyVal.num (.q 2)),
        (s2l ("body[A2]"), PyVal.str (s2l ("b"))),
        (s2l ("body[B2]"), PyVal.num (.q 5))] }

theorem claim_C7_witness :
    (summaryScan c7Source [0] [⟨1, s2l ("sum")⟩] 3).group_order =
      firstSeenKeys c7Source [0] 3 :=
  (claim_C7_summary_grouping c7Source [0] [⟨1, s2l ("sum")⟩]).2.2.1 3
    (by decide)

end Nummern
